import Mathlib

/-!
# svn_wfx: a shallow embedding of the virtual filesystem projection layer

Bytes are natural numbers, memory is a total map from addresses to bytes, and a
value of type `size_t` is a natural number below `2 ^ w`, where `w` is the width
of `size_t` on the build target (32 for WIN32, 64 for WIN64).  A C string is the
list of bytes stored from the pointer onwards; it ends at its first zero byte, or
at the end of the list, which stands for the terminating zero.
-/

namespace SvnWfx

/-! ## Memory and `size_t` arithmetic -/

/-- Byte-addressed memory: every address holds a byte. -/
abbrev Memory := Nat → Nat

/-- The store `*p = v`. -/
def poke (mem : Memory) (p v : Nat) : Memory :=
  fun a => if a = p then v else mem a

/-- The call `memcpy(dst, src, n)`: copies the first `n` bytes of `src` to
`dst .. dst + n - 1`. -/
def memcpy (mem : Memory) (dst : Nat) (src : List Nat) (n : Nat) : Memory :=
  fun a => if dst ≤ a ∧ a < dst + n then src.getD (a - dst) 0 else mem a

/-- Subtraction of two `size_t` values, wrapping modulo `2 ^ w`. -/
def size_sub (w a b : Nat) : Nat := (a + 2 ^ w - b) % 2 ^ w

/-- Addition of two `size_t` values, wrapping modulo `2 ^ w`. -/
def size_add (w a b : Nat) : Nat := (a + b) % 2 ^ w

/-! ## strbuf.c -/

/-- The struct `strbuf_t`: `data` is the address of the remainder of the string,
`size` the remaining raw size in bytes, terminating zero included. -/
structure strbuf_t where
  data : Nat
  size : Nat
deriving DecidableEq, Repr

/-- The function `strbuf_init`, strbuf.c lines 23-28. -/
def strbuf_init (data size : Nat) : strbuf_t :=
  { data := data, size := size }

/-- The function `strbuf_cat`, strbuf.c lines 30-44.  It returns the memory and
the buffer after the call. -/
def strbuf_cat (w : Nat) (mem : Memory) (dst : strbuf_t) (src : List Nat) (n : Nat) :
    Memory × strbuf_t :=
  let copyLen := if n < dst.size then n else size_sub w dst.size 1
  if dst.size ≠ 0 then
    if copyLen ≠ 0 then
      let mem1 := memcpy mem dst.data src copyLen
      let dst1 : strbuf_t := { data := dst.data + copyLen, size := size_sub w dst.size copyLen }
      (poke mem1 dst1.data 0, dst1)
    else
      (poke mem dst.data 0, dst)
  else
    (mem, dst)

/-- The function `strbuf_adv`, strbuf.c lines 46-55. -/
def strbuf_adv (w : Nat) (str : strbuf_t) (n : Nat) : strbuf_t :=
  let advLen := if n < str.size then n else size_sub w str.size 1
  if str.size ≠ 0 ∧ advLen ≠ 0 then
    { data := str.data + advLen, size := size_sub w str.size advLen }
  else
    str

/-- One call on a string buffer: `strbuf_cat(&s, src, n)` or `strbuf_adv(&s, n)`. -/
inductive StrbufCall where
  | cat (src : List Nat) (n : Nat)
  | adv (n : Nat)
deriving DecidableEq, Repr

/-- Performs one call on the memory and the buffer. -/
def StrbufCall.run (w : Nat) (st : Memory × strbuf_t) : StrbufCall → Memory × strbuf_t
  | .cat src n => strbuf_cat w st.1 st.2 src n
  | .adv n => (st.1, strbuf_adv w st.2 n)

/-- Performs a sequence of calls, first to last. -/
def runCalls (w : Nat) (calls : List StrbufCall) (st : Memory × strbuf_t) : Memory × strbuf_t :=
  calls.foldl (StrbufCall.run w) st

/-! ## C strings -/

/-- The byte `s[i]` of a C string; past the end of the list it is the terminating zero. -/
def byteAt (s : List Nat) (i : Nat) : Nat := s.getD i 0

/-- The function `strlen`: the number of bytes before the first zero byte. -/
def strlen : List Nat → Nat
  | [] => 0
  | c :: s => if c = 0 then 0 else strlen s + 1

/-- The bytes of a C string before its terminating zero. -/
def cstr (s : List Nat) : List Nat := s.take (strlen s)

/-- The function `strncmp(a, b, n)`: zero when the strings agree on their first `n` bytes or up
to a common terminating zero, otherwise the difference of the first bytes that differ. -/
def strncmp : List Nat → List Nat → Nat → Int
  | _, _, 0 => 0
  | a, b, n + 1 =>
    if a.headD 0 ≠ b.headD 0 then (a.headD 0 : Int) - (b.headD 0 : Int)
    else if a.headD 0 = 0 then 0
    else strncmp a.tail b.tail n

/-- The function `strcmp(a, b)`. -/
def strcmp : List Nat → List Nat → Int
  | [], b => - (b.headD 0 : Int)
  | x :: a, b =>
    if x ≠ b.headD 0 then (x : Int) - (b.headD 0 : Int)
    else if x = 0 then 0
    else strcmp a b.tail

/-- The function `memcmp(a, b, n)`: compares `n` bytes, zero bytes included. -/
def memcmp : List Nat → List Nat → Nat → Int
  | _, _, 0 => 0
  | a, b, n + 1 =>
    if a.headD 0 ≠ b.headD 0 then (a.headD 0 : Int) - (b.headD 0 : Int)
    else memcmp a.tail b.tail n

/-- The function `strchr(s, c)`: the index of the first byte equal to `c`, the terminating zero
included in the search; `none` is the null pointer. -/
def strchr : List Nat → Nat → Option Nat
  | [], c => if c = 0 then some 0 else none
  | x :: s, c =>
    if x = c then some 0
    else if x = 0 then none
    else (strchr s c).map (· + 1)

/-- The function `strrchr(s, c)`: the index of the last byte equal to `c`, the terminating zero
included in the search; `none` is the null pointer. -/
def strrchr : List Nat → Nat → Option Nat
  | [], c => if c = 0 then some 0 else none
  | x :: s, c =>
    if x = 0 then (if c = 0 then some 0 else none)
    else
      match strrchr s c with
      | some i => some (i + 1)
      | none => if x = c then some 0 else none

/-- The function `replaceAll`, svn_wfx.c lines 946-953, on the bytes of the string: every byte
equal to `oldVal` before the terminating zero becomes `newVal`. -/
def replaceAll : List Nat → Nat → Nat → List Nat
  | [], _, _ => []
  | x :: str, oldVal, newVal =>
    if x = 0 then x :: str
    else (if x = oldVal then newVal else x) :: replaceAll str oldVal newVal

/-- The function `slashify`, svn_wfx.c lines 956-959: backslash (92) becomes slash (47). -/
def slashify (str : List Nat) : List Nat := replaceAll str 92 47

/-- The C string stored in memory at address `p`, read up to its first zero byte; `bound` is
the number of bytes of the array that holds it. -/
def cstrAt (mem : Memory) : Nat → Nat → List Nat
  | _, 0 => []
  | p, bound + 1 => if mem p = 0 then [] else mem p :: cstrAt mem (p + 1) bound

/-- The call `slashify(p)` on a string held in memory, in an array of `bound` bytes from `p`. -/
def slashifyAt (mem : Memory) (p bound : Nat) : Memory :=
  memcpy mem p (slashify (cstrAt mem p bound)) (cstrAt mem p bound).length

/-! ## svn_wfx.c: types -/

/-- The struct `Location`.  A `String` field of the source, a pointer with a length, is the list
of its `len` bytes; the empty list is the `String` with a null pointer and length zero that
`loadConfig` stores for an empty title. -/
structure Location where
  title : List Nat
  url : List Nat
deriving DecidableEq, Repr

/-- The struct `String` of svn_wfx.c, for the sub-path of a snapshot: `data` is `none` for the
null pointer and otherwise the bytes of the allocated block, `len` is the recorded length. -/
structure CString where
  data : Option (List Nat)
  len : Nat
deriving DecidableEq, Repr

/-- The fields of `svn_dirent_t` that the plugin requests. -/
structure svn_dirent_t where
  kind : Nat
  size : Int
  created_rev : Int
  time : Int
  last_author : Option (List Nat)
deriving DecidableEq, Repr

/-- The struct `SVNObject`, without its link: a list of them is the linked list. -/
structure SVNObject where
  name : List Nat
  dirent : svn_dirent_t
deriving DecidableEq, Repr

/-- The struct `Snapshot`.  `location` is `none` for the null pointer, `entries` is the linked
list from its head, `current` is the part of a list from the node pointed to onwards. -/
structure Snapshot where
  location : Option Location
  subPath : CString
  entries : List SVNObject
  current : List SVNObject
deriving DecidableEq, Repr

/-- The part of `svn_error_t` that the plugin reads: the message, and whether there is a child
error and its message. -/
structure svn_error_t where
  apr_err : Int
  message : Option (List Nat)
  child : Option (Option (List Nat))
deriving DecidableEq, Repr

/-- What `svn_client_list2` does for one URI: it reports `rows` to the callback, in this order,
and returns `err`. -/
structure ListReply where
  rows : List (List Nat × svn_dirent_t)
  err : Option svn_error_t
deriving DecidableEq, Repr

/-- The repository service: the reply to a listing request for an escaped URI (`none` is a null
pointer passed as the URI). -/
abbrev Backend := Option (List Nat) → ListReply

/-- The globals of svn_wfx.c that the enumeration and the content functions use, and what they
do to the outside: `requests` are the URIs passed to `svn_client_list2` so far, oldest first,
`messages` the texts shown in message boxes, `lastError` the value given to `SetLastError`. -/
structure State where
  locations : List Location
  nextTopLevelLoc : List Location
  cachedSnapshot : Snapshot
  requests : List (Option (List Nat))
  messages : List (List Nat)
  lastError : Nat
deriving DecidableEq, Repr

/-- A value of type `HANDLE` as the enumeration functions use it: `INVALID_HANDLE_VALUE`, the
null handle of the root directory, or a pointer to an allocated snapshot. -/
inductive HANDLE where
  | invalid
  | root
  | nested (snapshot : Snapshot)
deriving DecidableEq, Repr

/-- The fields of `WIN32_FIND_DATA` that the plugin writes.  `cFileName` is the memory from the
start of the name array: offsets 0 to 259 are the array. -/
structure WIN32_FIND_DATA where
  dwFileAttributes : Nat
  ftLastWriteTime_dwLowDateTime : Nat
  ftLastWriteTime_dwHighDateTime : Nat
  nFileSizeHigh : Nat
  nFileSizeLow : Nat
  cFileName : Memory

/-! ## svn_wfx.c: constants -/

def MAX_PATH : Nat := 260
def FILE_ATTRIBUTE_READONLY : Nat := 1
def FILE_ATTRIBUTE_DIRECTORY : Nat := 16
def ERROR_NO_MORE_FILES : Nat := 18
def svn_node_dir : Nat := 2
def SVN_ERR_BAD_URL : Int := 125002
def FT_NUMERIC_32 : Int := 1
def FT_NUMERIC_64 : Int := 2
def FT_STRING : Int := 8
def FT_NOSUCHFIELD : Int := -1
def FT_FILEERROR : Int := -2
def FI_REVISION : Int := 0
def FI_AUTHOR : Int := 1
def FI_MAX : Int := 2

/-- The bytes of a text of the source. -/
def bytes (s : String) : List Nat := s.toList.map Char.toNat

/-- The global `EditLocationsTitle`. -/
def EditLocationsTitle : List Nat := bytes "Edit Locations"

/-- The error made by `svn_error_create(SVN_ERR_BAD_URL, NULL, "Unknown Location")`. -/
def unknownLocationError : svn_error_t :=
  { apr_err := SVN_ERR_BAD_URL, message := some (bytes "Unknown Location"), child := none }

/-- The type of the field `fields[fieldIndex]`, svn_wfx.c lines 164-184. -/
def fieldType (w : Nat) (fieldIndex : Int) : Int :=
  if fieldIndex = FI_REVISION then (if w = 64 then FT_NUMERIC_64 else FT_NUMERIC_32) else FT_STRING

/-- A zeroed snapshot, as `memset` leaves `cachedSnapshot` in `FsInit`. -/
def emptySnapshot : Snapshot :=
  { location := none, subPath := { data := none, len := 0 }, entries := [], current := [] }

/-- A zeroed `WIN32_FIND_DATA`. -/
def zeroFindData : WIN32_FIND_DATA :=
  { dwFileAttributes := 0, ftLastWriteTime_dwLowDateTime := 0, ftLastWriteTime_dwHighDateTime := 0,
    nFileSizeHigh := 0, nFileSizeLow := 0, cFileName := fun _ => 0 }

/-- The state after `FsInit` and a configuration load that gave `locations`. -/
def initialState (locations : List Location) : State :=
  { locations := locations, nextTopLevelLoc := [], cachedSnapshot := emptySnapshot,
    requests := [], messages := [], lastError := 0 }

/-! ## svn_wfx.c: functions -/

/-- The set searched by `strchr` in `escapeURI`, as bytes:
space `%` `<` `>` `"` `{` `}` `|` backslash `^` backquote `#` `;` `?` `[` `]`. -/
def reservedChars : List Nat :=
  [32, 37, 60, 62, 34, 123, 125, 124, 92, 94, 96, 35, 59, 63, 91, 93]

/-- The table `hexchars` of `escapeURI`. -/
def hexchars : List Nat := bytes "0123456789ABCDEF"

/-- The loop of `escapeURI`, svn_wfx.c lines 693-708: the bytes written through `d`. -/
def escapeURI_loop : List Nat → List Nat
  | [] => []
  | c :: s =>
    if c = 0 then []
    else if (strchr reservedChars c).isNone then c :: escapeURI_loop s
    else 37 :: hexchars.getD (c / 16) 0 :: hexchars.getD (c % 16) 0 :: escapeURI_loop s

/-- The function `escapeURI`, svn_wfx.c lines 683-713; `none` is the null pointer. -/
def escapeURI (uri : List Nat) : Option (List Nat) :=
  if strlen uri ≠ 0 then some (escapeURI_loop uri) else none

/-- The function `list_func`, svn_wfx.c lines 716-734: an entry with a non-empty path is put in
front of the entries of the snapshot.  `strdup` copies the string up to its terminating zero;
for a null `last_author` the copy is null again. -/
def list_func (snapshot : Snapshot) (path : List Nat) (dirent : svn_dirent_t) : Snapshot :=
  if path.headD 0 ≠ 0 then
    { snapshot with
      entries :=
        { name := cstr path,
          dirent := { dirent with last_author := dirent.last_author.map cstr } } ::
          snapshot.entries }
  else
    snapshot

/-- The loop of `querySnapshot` that trims trailing slashes, svn_wfx.c lines 764-769, for a
buffer that starts at address 0.  The arguments are `s.data`, `s.size` and `subPathLen`; the
result is `none` when `s.data[-1]` is read before the start of the buffer. -/
def trimTrailingSlashes (w : Nat) :
    Memory → Nat → Nat → Nat → Option (Memory × strbuf_t × Nat)
  | _, 0, _, _ => none
  | mem, data + 1, size, subPathLen =>
    if mem data = 47 then
      trimTrailingSlashes w (poke mem data 0) data (size_add w size 1) (size_sub w subPathLen 1)
    else
      some (mem, { data := data + 1, size := size }, subPathLen)

/-- The composition of the URI in `querySnapshot`, svn_wfx.c lines 750-770, in the buffer `buf`
of `loc->url.len + subPathLen + 1` bytes at address 0; `sub` is the string `path + minLen`.
The result is the memory, the string buffer `s` and `subPathLen` before the listing request;
it is `none` when `s.data[-1]` is read before the start of `buf`. -/
def querySnapshot_compose (w : Nat) (loc : Location) (sub : List Nat) :
    Option (Memory × strbuf_t × Nat) :=
  let subPathLen := strlen sub
  let bufSize := loc.url.length + subPathLen + 1
  let s : strbuf_t := { data := 0, size := bufSize }
  let r1 := strbuf_cat w (fun _ => 0) s loc.url loc.url.length
  if subPathLen ≠ 0 then
    let r2 := strbuf_cat w r1.1 r1.2 sub subPathLen
    let mem3 := slashifyAt r2.1 loc.url.length (bufSize - loc.url.length)
    trimTrailingSlashes w mem3 r2.2.data r2.2.size subPathLen
  else
    some (r1.1, r1.2, subPathLen)

/-- The body of `querySnapshot` for the location that matched, svn_wfx.c lines 746-781.
`sub` is the string `path + minLen`.  The result is `none` when the behaviour is undefined: a
read before the start of `buf`, or a copy of more bytes than `path + minLen` holds. -/
def querySnapshot_found (w : Nat) (backend : Backend) (st : State) (snapshot : Snapshot)
    (loc : Location) (sub : List Nat) : Option (State × Snapshot × Option svn_error_t) :=
  let snapshot1 : Snapshot := { snapshot with location := some loc, entries := [] }
  match querySnapshot_compose w loc sub with
  | none => none
  | some (mem, _, subPathLen1) =>
    let uri := escapeURI (cstrAt mem 0 (loc.url.length + strlen sub + 1))
    let reply := backend uri
    let snapshot2 := reply.rows.foldl (fun sn row => list_func sn row.1 row.2) snapshot1
    let st1 : State := { st with requests := st.requests ++ [uri] }
    match reply.err with
    | some err => some (st1, snapshot2, some err)
    | none =>
      let n := size_add w subPathLen1 1
      if n ≤ strlen sub + 1 then
        some (st1,
          { snapshot2 with
            subPath := { data := some ((List.range n).map (byteAt sub)), len := subPathLen1 },
            current := snapshot2.entries },
          none)
      else
        none

/-- The loop of `querySnapshot` over the locations, svn_wfx.c lines 741-786. -/
def querySnapshot_loop (w : Nat) (backend : Backend) (st : State) (snapshot : Snapshot)
    (path : List Nat) : List Location → Option (State × Snapshot × Option svn_error_t)
  | [] => some (st, snapshot, some unknownLocationError)
  | loc :: rest =>
    let minLen := min loc.title.length (strlen path)
    if strncmp path loc.title minLen = 0 then
      querySnapshot_found w backend st snapshot loc (path.drop minLen)
    else
      querySnapshot_loop w backend st snapshot path rest

/-- The function `querySnapshot`, svn_wfx.c lines 737-787: the state, the snapshot and the
returned error (`none` is success) after the call; the outer `none` is undefined behaviour. -/
def querySnapshot (w : Nat) (backend : Backend) (st : State) (snapshot : Snapshot)
    (path : List Nat) : Option (State × Snapshot × Option svn_error_t) :=
  querySnapshot_loop w backend st snapshot path st.locations

/-- The function `destroySnapshot`, svn_wfx.c lines 962-980. -/
def destroySnapshot (snapshot : Snapshot) : Snapshot :=
  { snapshot with subPath := { snapshot.subPath with data := none }, entries := [] }

/-- The function `displayErrorMessage`, svn_wfx.c lines 1024-1027. -/
def displayErrorMessage (st : State) (msg : List Nat) : State :=
  { st with messages := st.messages ++ [cstr msg] }

/-- The function `getSvnNode`, svn_wfx.c lines 917-943. -/
def getSvnNode (w : Nat) (obj : SVNObject) (findData : WIN32_FIND_DATA) : WIN32_FIND_DATA :=
  let r := strbuf_cat w findData.cFileName { data := 0, size := MAX_PATH } obj.name (strlen obj.name)
  let tmpLL : Int := (obj.dirent.time + 11644473600000000) * 10
  let isDir := obj.dirent.kind = svn_node_dir
  { findData with
    cFileName := r.1
    dwFileAttributes :=
      if isDir then FILE_ATTRIBUTE_READONLY + FILE_ATTRIBUTE_DIRECTORY else FILE_ATTRIBUTE_READONLY
    ftLastWriteTime_dwLowDateTime := (tmpLL % 4294967296).toNat
    ftLastWriteTime_dwHighDateTime := (Int.ediv tmpLL 4294967296 % 4294967296).toNat
    nFileSizeLow := if isDir then 0 else (obj.dirent.size % 4294967296).toNat
    nFileSizeHigh := if isDir then 0 else (Int.ediv obj.dirent.size 4294967296 % 4294967296).toNat }

/-- The text that `FsFindFirst` shows for an error with a message, svn_wfx.c lines 247-256. -/
def errorText (w : Nat) (message : List Nat) (child : Option (Option (List Nat))) : List Nat :=
  let s : strbuf_t := { data := 0, size := 1024 }
  let r1 := strbuf_cat w (fun _ => 0) s message (strlen message)
  let r3 :=
    match child with
    | some (some childMessage) =>
      let r2 := strbuf_cat w r1.1 r1.2 [10, 10] 2
      strbuf_cat w r2.1 r2.2 childMessage (strlen childMessage)
    | _ => r1
  cstrAt r3.1 0 1024

/-- The function `FsFindFirst`, svn_wfx.c lines 229-282: the state, the returned handle and the
find data after the call; `none` is undefined behaviour. -/
def FsFindFirst (w : Nat) (backend : Backend) (st : State) (path : List Nat)
    (findData : WIN32_FIND_DATA) : Option (State × HANDLE × WIN32_FIND_DATA) :=
  if path.headD 0 ≠ 92 then
    some (st, HANDLE.invalid, findData)
  else
    let path1 := path.tail
    if path1.headD 0 ≠ 0 then
      match querySnapshot w backend st emptySnapshot path1 with
      | none => none
      | some (st1, _, some err) =>
        match err.message with
        | some message =>
          some ({ st1 with messages := st1.messages ++ [errorText w message err.child] },
            HANDLE.invalid, zeroFindData)
        | none => some (st1, HANDLE.invalid, zeroFindData)
      | some (st1, snapshot, none) =>
        match snapshot.entries with
        | first :: rest =>
          some (st1, HANDLE.nested { snapshot with current := rest },
            getSvnNode w first zeroFindData)
        | [] =>
          some ({ st1 with lastError := ERROR_NO_MORE_FILES }, HANDLE.invalid, zeroFindData)
    else
      some ({ st with nextTopLevelLoc := st.locations }, HANDLE.root,
        { zeroFindData with
          cFileName :=
            memcpy zeroFindData.cFileName 0 (EditLocationsTitle ++ [0])
              (EditLocationsTitle.length + 1)
          dwFileAttributes := FILE_ATTRIBUTE_READONLY })

/-- The function `FsFindNext`, svn_wfx.c lines 285-309: the state, the handle, the find data
and the returned `BOOL` after the call; `none` is undefined behaviour (a handle that is not a
snapshot, or a title that is a null pointer). -/
def FsFindNext (w : Nat) (st : State) (handle : HANDLE) (findData : WIN32_FIND_DATA) :
    Option (State × HANDLE × WIN32_FIND_DATA × Bool) :=
  match handle with
  | HANDLE.invalid => none
  | HANDLE.nested snapshot =>
    match snapshot.current with
    | obj :: rest =>
      some (st, HANDLE.nested { snapshot with current := rest }, getSvnNode w obj findData, true)
    | [] =>
      some (st, HANDLE.nested { snapshot with current := snapshot.entries }, findData, false)
  | HANDLE.root =>
    match st.nextTopLevelLoc with
    | loc :: rest =>
      if loc.title = [] then none
      else
        some ({ st with nextTopLevelLoc := rest }, HANDLE.root,
          { findData with
            cFileName := memcpy findData.cFileName 0 (loc.title ++ [0]) (loc.title.length + 1)
            dwFileAttributes := FILE_ATTRIBUTE_DIRECTORY + FILE_ATTRIBUTE_READONLY },
          true)
    | [] => some (st, HANDLE.root, findData, false)

/-- The function `FsFindClose`, svn_wfx.c lines 312-328; `none` is undefined behaviour (a
handle that is not a snapshot). -/
def FsFindClose (st : State) (handle : HANDLE) : Option State :=
  match handle with
  | HANDLE.invalid => none
  | HANDLE.nested snapshot =>
    some { st with
      cachedSnapshot :=
        { destroySnapshot st.cachedSnapshot with
          location := snapshot.location
          subPath := snapshot.subPath
          entries := snapshot.entries } }
  | HANDLE.root => some { st with nextTopLevelLoc := st.locations }

/-- What `FsContentGetValue` leaves behind: the state, the bytes of the `fileName` buffer, the
returned value, the number stored through `(long*) fieldValue` if any, and the bytes of the
`fieldValue` buffer. -/
structure GetValueResult where
  state : State
  fileName : List Nat
  ret : Int
  longValue : Option Int
  fieldValue : Memory

/-- The test of `FsContentGetValue` on the cached snapshot, svn_wfx.c lines 471-474, negated:
`some true` when the cached snapshot is used as it is, `some false` when it is destroyed and
queried again, `none` when the test reads through a null `location`.  `fileName` is the name
after the leading backslash, already slashified, and `baseFilePath` the index of its first
separator. -/
def cacheReusable (snapshot : Snapshot) (fileName : List Nat) (baseFilePath : Nat) : Option Bool :=
  if snapshot.entries = [] then some false
  else
    match snapshot.subPath.data with
    | none => some false
    | some data =>
      match snapshot.location with
      | none => none
      | some loc =>
        some (decide (strncmp fileName loc.title loc.title.length = 0) &&
          decide (strncmp data (fileName.drop baseFilePath) snapshot.subPath.len = 0))

/-- The loop of `FsContentGetValue` that looks an entry up by name, svn_wfx.c lines 493-497:
the value of `snapshot->current` after the loop. -/
def findEntry (baseFileName : List Nat) : List SVNObject → List SVNObject
  | [] => []
  | obj :: rest =>
    if strcmp baseFileName obj.name = 0 then obj :: rest else findEntry baseFileName rest

/-- The end of `FsContentGetValue`, svn_wfx.c lines 493-518, for the snapshot that the first
part has settled on. -/
def FsContentGetValue_lookup (w : Nat) (st : State) (snapshot : Snapshot) (fileName : List Nat)
    (baseFileName : Nat) (fieldIndex : Int) (fieldValue : Memory) (maxLen : Nat) :
    GetValueResult :=
  let current := findEntry (fileName.drop baseFileName) snapshot.entries
  let st1 : State := { st with cachedSnapshot := { snapshot with current := current } }
  match current with
  | [] =>
    { state := st1, fileName := 92 :: fileName, ret := FT_NOSUCHFIELD, longValue := none,
      fieldValue := fieldValue }
  | obj :: _ =>
    if fieldIndex = FI_REVISION then
      { state := st1, fileName := 92 :: fileName, ret := fieldType w fieldIndex,
        longValue := some obj.dirent.created_rev, fieldValue := fieldValue }
    else
      match obj.dirent.last_author with
      | some author =>
        { state := st1, fileName := 92 :: fileName, ret := fieldType w fieldIndex,
          longValue := none,
          fieldValue :=
            (strbuf_cat w fieldValue { data := 0, size := maxLen } author (strlen author)).1 }
      | none =>
        { state := st1, fileName := 92 :: fileName, ret := fieldType w fieldIndex,
          longValue := none, fieldValue := fieldValue }

/-- The function `FsContentGetValue`, svn_wfx.c lines 449-519; `unitIndex` and `flags`, which
it does not read, are left out, `fieldValue` is the memory from the start of the caller's
buffer and `maxLen` its size.  `none` is undefined behaviour. -/
def FsContentGetValue (w : Nat) (backend : Backend) (st : State) (fileName : List Nat)
    (fieldIndex : Int) (fieldValue : Memory) (maxLen : Nat) : Option GetValueResult :=
  let noSuchField : GetValueResult :=
    { state := st, fileName := fileName, ret := FT_NOSUCHFIELD, longValue := none,
      fieldValue := fieldValue }
  if fieldIndex < 0 ∨ fieldIndex ≥ FI_MAX ∨ fileName.headD 0 ≠ 92 then
    some noSuchField
  else
    let name := fileName.tail
    match strrchr name 92, strchr name 92 with
    | some last, some baseFilePath =>
      let baseFileName := last + 1
      let name1 := slashify name
      match cacheReusable st.cachedSnapshot name1 baseFilePath with
      | none => none
      | some true =>
        some (FsContentGetValue_lookup w st st.cachedSnapshot name1 baseFileName fieldIndex
          fieldValue maxLen)
      | some false =>
        match querySnapshot w backend st (destroySnapshot st.cachedSnapshot)
            (name1.set baseFileName 0) with
        | none => none
        | some (st1, snapshot, some err) =>
          let st2 : State := { st1 with cachedSnapshot := snapshot }
          some
            { state :=
                match err.message with
                | some message => displayErrorMessage st2 message
                | none => st2
              fileName := 92 :: name1, ret := FT_FILEERROR, longValue := none,
              fieldValue := fieldValue }
        | some (st1, snapshot, none) =>
          some (FsContentGetValue_lookup w st1 snapshot name1 baseFileName fieldIndex
            fieldValue maxLen)
    | _, _ => some noSuchField

/-- The loop of `remoteNameToSvnURI`, svn_wfx.c lines 1004-1020. -/
def remoteNameToSvnURI_loop (remoteName : List Nat) :
    List Location → Option (Option (List Nat) × List Nat)
  | [] => some (none, remoteName)
  | loc :: rest =>
    if memcmp remoteName loc.title (min (strlen remoteName) loc.title.length) = 0 then
      if loc.title.length ≤ strlen remoteName then
        let tail := slashify (remoteName.drop loc.title.length)
        some (some (loc.url ++ cstr tail), remoteName.take loc.title.length ++ tail)
      else
        none
    else
      remoteNameToSvnURI_loop remoteName rest

/-- The function `remoteNameToSvnURI`, svn_wfx.c lines 1000-1021, without the pool and the
number of bytes to allocate past the result.  The result is the returned string (`none` is the
null pointer) with the bytes of the `remoteName` buffer after the call; the outer `none` is
undefined behaviour: the title of the matching location is longer than the name, so that
`remoteName += loc->title.len` leaves the string. -/
def remoteNameToSvnURI (st : State) (remoteName : List Nat) :
    Option (Option (List Nat) × List Nat) :=
  remoteNameToSvnURI_loop remoteName st.locations

/-! ## Predicates used in the statements -/

/-- The invariant of a string buffer made by `strbuf_init(base, c)` on the memory `mem0`:
nothing outside the `c` bytes has changed, and the cursor and the remaining size add up. -/
def StrbufInv (c base : Nat) (mem0 : Memory) (st : Memory × strbuf_t) : Prop :=
  (∀ a, a < base ∨ base + c ≤ a → st.1 a = mem0 a) ∧
    base ≤ st.2.data ∧ st.2.data + st.2.size = base + c ∧ (0 < c → 1 ≤ st.2.size)

/-- The 16 reserved characters of the specification of `escapeURI`, as bytes:
space, percent, less-than, greater-than, double quote, the two braces, bar, backslash, caret,
backquote, hash, semicolon, question mark and the two square brackets. -/
def reservedBytes : List Nat :=
  [32, 37, 60, 62, 34, 123, 125, 124, 92, 94, 96, 35, 59, 63, 91, 93]

/-- The uppercase hexadecimal digit of a number below 16, as a byte: `0`-`9`, then `A`-`F`. -/
def upperHexDigit (d : Nat) : Nat := if d < 10 then 48 + d else 55 + d

/-- The specification of `escapeURI` for one byte: a reserved byte becomes `%` and its two
uppercase hexadecimal digits, any other byte stays. -/
def escapeByte (b : Nat) : List Nat :=
  if b ∈ reservedBytes then [37, upperHexDigit (b / 16), upperHexDigit (b % 16)] else [b]

/-- The title of a location agrees with a path on their first `min (len title) (len path)`
bytes. -/
def agrees (title path : List Nat) : Prop :=
  (cstr path).take (min title.length (strlen path)) =
    title.take (min title.length (strlen path))

instance (title path : List Nat) : Decidable (agrees title path) := by
  unfold agrees
  infer_instance

/-- The first location of the registry, in its order, whose title agrees with the path. -/
def firstMatching (path : List Nat) (locations : List Location) : Option Location :=
  locations.find? (fun loc => decide (agrees loc.title path))

/-- The separator normalisation of one byte: a backslash becomes a slash. -/
def normalizeSeparator (b : Nat) : Nat := if b = 92 then 47 else b

/-- The reuse rule of the specification for a cached snapshot and a queried name (the name
after the leading separator, separators normalised, with its first separator at index
`first`): the title of the cached location is the first `len(title)` bytes of the name, and
the cached sub-path is the first `len(subPath)` bytes of the tail of the name that starts at
its first separator. -/
def prefixRule (snapshot : Snapshot) (name : List Nat) (first : Nat) : Prop :=
  ∃ L data, snapshot.location = some L ∧ snapshot.subPath.data = some data ∧
    (cstr name).take L.title.length = L.title ∧
    (cstr (name.drop first)).take snapshot.subPath.len = data.take snapshot.subPath.len

/-- The call `FsContentGetValue` is answered from the cached snapshot: `querySnapshot` is not
called, so the result is that of the lookup in the cached snapshot, in the state as it was. -/
def answeredFromCache (w : Nat) (backend : Backend) (st : State) (fileName : List Nat)
    (fieldIndex : Int) (fieldValue : Memory) (maxLen : Nat) : Prop :=
  ∃ last, strrchr fileName.tail 92 = some last ∧
    FsContentGetValue w backend st fileName fieldIndex fieldValue maxLen =
      some (FsContentGetValue_lookup w st st.cachedSnapshot (slashify fileName.tail) (last + 1)
        fieldIndex fieldValue maxLen)

/-! ## Example registry and repository -/

/-- A path as the host passes it: every part is preceded by a backslash. -/
def hostPath (parts : List String) : List Nat :=
  parts.flatMap (fun part => 92 :: bytes part)

/-- The location `Repo1` for `svn://h/a`. -/
def repo1 : Location := { title := bytes "Repo1", url := bytes "svn://h/a" }

/-- The location `Repo2` for `svn://h/b`. -/
def repo2 : Location := { title := bytes "Repo2", url := bytes "svn://h/b" }

/-- The location `root` for `svn://h/r`. -/
def rootLocation : Location := { title := bytes "root", url := bytes "svn://h/r" }

/-- The registry of the examples. -/
def exampleLocations : List Location := [repo1, repo2, rootLocation]

/-- A row for a file of the example repository. -/
def fileRow (name : String) (rev : Int) : List Nat × svn_dirent_t :=
  (bytes name,
    { kind := 1, size := 10, created_rev := rev, time := 0, last_author := some (bytes "bob") })

/-- A row for a directory of the example repository; the listed directory itself has the
empty name. -/
def dirRow (name : String) (rev : Int) : List Nat × svn_dirent_t :=
  (bytes name,
    { kind := svn_node_dir, size := 0, created_rev := rev, time := 0,
      last_author := some (bytes "ann") })

/-- The error of the example repository for a URI that it does not know. -/
def notFoundError : svn_error_t :=
  { apr_err := 160013, message := some (bytes "not found"), child := none }

/-- The example repository: the listings of some directories; any other URI is an error. -/
def exampleBackend : Backend := fun uri =>
  if uri = some (bytes "svn://h/a") then
    { rows := [dirRow "" 9, dirRow "dir" 5, dirRow "empty" 2, fileRow "file.txt" 9], err := none }
  else if uri = some (bytes "svn://h/a/dir") then
    { rows := [dirRow "" 5, fileRow "file.txt" 4, fileRow "other.txt" 5], err := none }
  else if uri = some (bytes "svn://h/a/empty") then
    { rows := [dirRow "" 2], err := none }
  else if uri = some (bytes "svn://h/r/a/b") then
    { rows := [dirRow "" 8, dirRow "c" 7, fileRow "f" 8], err := none }
  else if uri = some (bytes "svn://h/r/a/x") then
    { rows := [dirRow "" 6, fileRow "g" 6], err := none }
  else if uri = some (bytes "svn://h/r/a/b/c") then
    { rows := [dirRow "" 7, fileRow "g" 7], err := none }
  else
    { rows := [], err := some notFoundError }

/-- The state after `FsContentGetValue` has fetched the listing of the empty directory
`\Repo1\empty`. -/
def emptyDirCached : State :=
  { initialState exampleLocations with
    cachedSnapshot :=
      { location := some repo1, subPath := { data := some (bytes "/empty/"), len := 6 },
        entries := [], current := [] }
    requests := [some (bytes "svn://h/a/empty")] }

/-- Every URL of the registry is non-empty and does not end with a slash. -/
def urlsWellFormed (locations : List Location) : Prop :=
  ∀ loc ∈ locations, loc.url ≠ [] ∧ loc.url.getLast? ≠ some 47

instance (locations : List Location) : Decidable (urlsWellFormed locations) := by
  unfold urlsWellFormed
  infer_instance

/-- The state after `FsContentGetValue` has fetched the listing of `\root\a\b` for the file
`\root\a\b\f`. -/
def abCached : State :=
  { initialState exampleLocations with
    cachedSnapshot :=
      { location := some rootLocation, subPath := { data := some (bytes "/a/b/"), len := 4 },
        entries := [{ name := bytes "f", dirent := (fileRow "f" 8).2 },
          { name := bytes "c", dirent := (dirRow "c" 7).2 }],
        current := [{ name := bytes "f", dirent := (fileRow "f" 8).2 },
          { name := bytes "c", dirent := (dirRow "c" 7).2 }] }
    requests := [some (bytes "svn://h/r/a/b")] }

/-- The enumeration of a directory as far as the cache is concerned: `FsFindFirst` on `path`,
then `FsFindClose` on the handle it returned. -/
def openAndClose (w : Nat) (backend : Backend) (st : State) (path : List Nat) : Option State :=
  (FsFindFirst w backend st path zeroFindData).bind (fun r => FsFindClose r.1 r.2.1)

/-- The snapshot of the handle that `FsFindFirst` returns for `\Repo1\dir` in the example. -/
def dirHandleSnapshot : Snapshot :=
  { location := some repo1, subPath := { data := some (92 :: bytes "dir" ++ [0]), len := 4 },
    entries := [{ name := bytes "other.txt", dirent := (fileRow "other.txt" 5).2 },
      { name := bytes "file.txt", dirent := (fileRow "file.txt" 4).2 }],
    current := [{ name := bytes "file.txt", dirent := (fileRow "file.txt" 4).2 }] }

/-! ## svn_wfx.c: configuration -/

/-- The function `isspace` of the C library in the "C" locale: space, and tab to carriage
return. -/
def isspace (c : Nat) : Bool := decide (c = 32) || (decide (9 ≤ c) && decide (c ≤ 13))

/-- The bytes that `fgets` stores for a count of `k` bytes left, with the rest of the stream:
it stops after a newline, after `k` bytes, or at the end of the stream. -/
def fgets_aux : Nat → List Nat → List Nat × List Nat
  | 0, stream => ([], stream)
  | _ + 1, [] => ([], [])
  | k + 1, c :: stream =>
    if c = 10 then ([c], stream)
    else ((fgets_aux k stream).1.cons c, (fgets_aux k stream).2)

/-- The function `fgets(buf, n, f)` of the C library: the bytes stored in `buf` before the
terminating zero and the rest of the stream; `none` is the null pointer at the end of the
file. -/
def fgets (n : Nat) (stream : List Nat) : Option (List Nat × List Nat) :=
  if stream = [] then none else some (fgets_aux (n - 1) stream)

/-- The loop `while ((p > left) && isspace(p[-1])) --p`, svn_wfx.c line 860, on the bytes
between `left` and `p`: the bytes that stay. -/
def stripTrailingSpaces (region : List Nat) : List Nat :=
  (region.reverse.dropWhile isspace).reverse

/-- The body of the loop of `loadConfig` for one line in `buf`, svn_wfx.c lines 841-895: the
list `Config.locations` after it. -/
def loadConfig_line (buf : List Nat) (locations : List Location) : List Location :=
  let p := buf.dropWhile isspace
  if p.headD 0 = 35 then locations
  else
    let left := p
    let scanned := left.takeWhile (fun c => c ≠ 0 ∧ c ≠ 92 ∧ c ≠ 61)
    let p1 := left.dropWhile (fun c => c ≠ 0 ∧ c ≠ 92 ∧ c ≠ 61)
    if p1.headD 0 = 92 then locations
    else if p1.headD 0 = 61 then
      let title := stripTrailingSpaces scanned
      let left2 := p1.tail.dropWhile (fun c => c ≠ 0 ∧ isspace c)
      let url := left2.takeWhile (fun c => c ≠ 0 ∧ c ≠ 10)
      if url ≠ [] then { title := title, url := url } :: locations
      else locations
    else locations

/-- The loop of `loadConfig` over the lines that `fgets` delivers, svn_wfx.c lines 839-896.
Every round takes at least one byte from the stream, so `fuel` rounds suffice for a stream of
`fuel` bytes; the result is `none` when the rounds run out before the stream does. -/
def loadConfig_loop : Nat → List Nat → List Location → Option (List Location)
  | fuel, stream, locations =>
    match fgets 1024 stream with
    | none => some locations
    | some (buf, rest) =>
      match fuel with
      | 0 => none
      | fuel1 + 1 => loadConfig_loop fuel1 rest (loadConfig_line buf locations)

/-- The function `freeLocationsAndSnapshots`, svn_wfx.c lines 983-997. -/
def freeLocationsAndSnapshots (st : State) : State :=
  { st with locations := [], cachedSnapshot := destroySnapshot st.cachedSnapshot }

/-- The function `loadConfig`, svn_wfx.c lines 829-914.  `file` is the content of the
configuration file when it can be opened for reading, `created` tells whether the file could
be opened for writing otherwise. -/
def loadConfig (st : State) (file : Option (List Nat)) (created : Bool) : Option State :=
  match file with
  | some text =>
    (loadConfig_loop text.length text (freeLocationsAndSnapshots st).locations).map
      (fun locations => { freeLocationsAndSnapshots st with locations := locations })
  | none =>
    if created then some st
    else some { st with
      messages := st.messages ++ [bytes "Unable to access configuration file!"] }

/-- The lines of a configuration text: the pieces between its newline bytes. -/
def splitLines : List Nat → List (List Nat)
  | [] => [[]]
  | c :: text =>
    if c = 10 then [] :: splitLines text
    else
      match splitLines text with
      | line :: lines => (c :: line) :: lines
      | [] => [[c]]

/-- A text without the whitespace around it. -/
def trimSpaces (text : List Nat) : List Nat :=
  ((text.dropWhile isspace).reverse.dropWhile isspace).reverse

/-- The specification of `loadConfig` for one line.  The line is dropped when it is a comment
(its first non-blank character is `#`), when it has no `=`, when it has a backslash before its
first `=`, or when the url after the `=` is empty; otherwise it gives the location whose title
is the text before the first `=` without the whitespace around it and whose url is the text
after that `=` without the whitespace in front of it, up to the end of the line. -/
def configLine (line : List Nat) : Option Location :=
  if (line.dropWhile isspace).head? = some 35 then none
  else if 61 ∉ line then none
  else if 92 ∈ line.takeWhile (fun c => c ≠ 61) then none
  else if ((line.dropWhile (fun c => c ≠ 61)).tail.dropWhile isspace) = [] then none
  else
    some { title := trimSpaces (line.takeWhile (fun c => c ≠ 61)),
           url := (line.dropWhile (fun c => c ≠ 61)).tail.dropWhile isspace }

/-- The registry that the specification gives for a configuration text: one location for
every line that is not dropped, the location of the last line first. -/
def configLocations (text : List Nat) : List Location :=
  ((splitLines text).filterMap configLine).reverse

/-- A configuration text that `fgets` delivers line by line: it has no zero byte, and every
line has at most 1022 bytes before its newline. -/
def shortLines (text : List Nat) : Prop :=
  (∀ b ∈ text, b ≠ 0) ∧ ∀ line ∈ splitLines text, line.length ≤ 1022

instance (text : List Nat) : Decidable (shortLines text) := by
  unfold shortLines
  infer_instance

/-- A configuration text for the examples: two locations, with a comment, a line with a
backslash before the `=` and a line with an empty url between them. -/
def exampleConfig : List Nat :=
  bytes "Repo1 = svn://h/a" ++ [10] ++ bytes "# a comment" ++ [10] ++
    bytes "bad" ++ [92] ++ bytes "line = x" ++ [10] ++ bytes "t =" ++ [10] ++
    bytes "Repo2 = svn://h/b" ++ [10]

/-- A configuration text whose only line is a comment of 1026 bytes: `#`, 1022 times `x`, and
`a=b`. -/
def longCommentConfig : List Nat :=
  35 :: List.replicate 1022 120 ++ bytes "a=b" ++ [10]

/-- What the host gets from a call of `FsContentGetValue`, with the entries and the registry
it leaves behind: the returned value, the stored number, the value buffer, the file name
buffer, the entries of the cached snapshot and the locations. -/
def answerOf (r : GetValueResult) :
    Int × Option Int × Memory × List Nat × List SVNObject × List Location :=
  (r.ret, r.longValue, r.fieldValue, r.fileName, r.state.cachedSnapshot.entries,
    r.state.locations)

/-! ## Enumeration of a handle -/

/-- The enumeration that the host makes on an open handle: it calls `FsFindNext` with the same
find data until the call returns FALSE, here at most `fuel` times.  The result is the find data
after each call that returned TRUE, then the state, the handle and the find data after the call
that returned FALSE; `none` is undefined behaviour, or an enumeration that has not ended
within `fuel` calls. -/
def findAll (w : Nat) : Nat → State → HANDLE → WIN32_FIND_DATA →
    Option (List WIN32_FIND_DATA × State × HANDLE × WIN32_FIND_DATA)
  | 0, _, _, _ => none
  | fuel + 1, st, handle, findData =>
    match FsFindNext w st handle findData with
    | none => none
    | some (st1, handle1, findData1, true) =>
      (findAll w fuel st1 handle1 findData1).map (fun r => (findData1 :: r.1, r.2))
    | some (st1, handle1, findData1, false) => some ([], st1, handle1, findData1)

/-- The first `n` bytes of the name buffer of a find data. -/
def nameBytes (findData : WIN32_FIND_DATA) (n : Nat) : List Nat :=
  (List.range n).map findData.cFileName

/-- The children that a listing reports, as the specification has them in a snapshot: the
rows with a non-empty name, in the reverse of the reported order. -/
def childrenOf (rows : List (List Nat × svn_dirent_t)) : List SVNObject :=
  ((rows.filter (fun row => decide (row.1.headD 0 ≠ 0))).map
    (fun row =>
      ({ name := cstr row.1,
         dirent := { row.2 with last_author := row.2.last_author.map cstr } } : SVNObject))).reverse

/-- The find data that the entries of a list yield one after the other, each written over the
find data of the entry before. -/
def yieldAll (w : Nat) : List SVNObject → WIN32_FIND_DATA → List WIN32_FIND_DATA
  | [], _ => []
  | obj :: rest, findData =>
    getSvnNode w obj findData :: yieldAll w rest (getSvnNode w obj findData)

/-- A configuration text with one line whose title is empty. -/
def untitledConfig : List Nat := bytes "= svn://h/a" ++ [10]

/-- The location that `loadConfig` makes of the line of `untitledConfig`: its title is the null
pointer. -/
def untitledLocation : Location := { title := [], url := bytes "svn://h/a" }

/-- A title of 300 bytes. -/
def longTitle : List Nat := List.replicate 300 120

/-- A configuration text with one line whose title has 300 bytes. -/
def longTitleConfig : List Nat := longTitle ++ bytes " = svn://h/a" ++ [10]

/-- The location that `loadConfig` makes of the line of `longTitleConfig`. -/
def longTitleLocation : Location := { title := longTitle, url := bytes "svn://h/a" }

/-! ## Chains of appends -/

/-- The chain of calls `strbuf_cat(&s, s_i, len(s_i))` for the byte strings of a list, first
to last. -/
def catAll (strings : List (List Nat)) : List StrbufCall :=
  strings.map (fun s => StrbufCall.cat s s.length)

/-- The `n` bytes of the memory from the address `base` on. -/
def bufferBytes (mem : Memory) (base n : Nat) : List Nat :=
  (List.range n).map (fun i => mem (base + i))

/-- The lines that `fgets` delivers to the loop of `loadConfig`, in the order of the file, for
at most `fuel` rounds. -/
def loadConfig_reads : Nat → List Nat → List (List Nat)
  | fuel, stream =>
    match fgets 1024 stream with
    | none => []
    | some (buf, rest) =>
      match fuel with
      | 0 => []
      | fuel1 + 1 => buf :: loadConfig_reads fuel1 rest

/-- The location that the body of the loop of `loadConfig` makes of one line, if it accepts
the line. -/
def lineLocation (buf : List Nat) : Option Location :=
  (loadConfig_line buf []).head?

/-- A configuration text with two locations of which the title of the first, `Repo1`, starts
with the title of the second, `Repo`. -/
def overlapConfig : List Nat :=
  bytes "Repo1 = svn://h/a" ++ [10] ++ bytes "Repo = svn://h/b" ++ [10]

/-- The location `Repo` for `svn://h/b`. -/
def repoShort : Location := { title := bytes "Repo", url := bytes "svn://h/b" }

/-- A repository whose listing of `svn://h/a/dir` reports the directory and `file.txt` and
then fails; any other listing fails at once. -/
def failingBackend : Backend := fun uri =>
  if uri = some (bytes "svn://h/a/dir") then
    { rows := [dirRow "" 5, fileRow "file.txt" 4], err := some notFoundError }
  else
    { rows := [], err := some notFoundError }

/-! ## Trailing separators -/

/-- The number of `/` bytes at the end of a string. -/
def trailingSlashes (s : List Nat) : Nat :=
  (s.reverse.takeWhile (fun c => decide (c = 47))).length

/-- A string without the `/` bytes at its end. -/
def stripTrailingSlashes (s : List Nat) : List Nat :=
  (s.reverse.dropWhile (fun c => decide (c = 47))).reverse

/-- The memory that holds the bytes of a list from address 0 on and zero everywhere else. -/
def memoryOf (l : List Nat) : Memory := fun i => l.getD i 0

/-- A location whose URL ends with a slash. -/
def slashUrlLocation : Location := { title := bytes "R", url := bytes "svn://h/a/" }

/-! ## Lemmas on strbuf.c -/

theorem memcpy_zero (mem : Memory) (dst : Nat) (src : List Nat) : memcpy mem dst src 0 = mem := by
  funext a
  have h : ¬ (dst ≤ a ∧ a < dst + 0) := by omega
  simp [memcpy, h]

theorem size_sub_of_le {w a b : Nat} (ha : a < 2 ^ w) (hb : b ≤ a) : size_sub w a b = a - b := by
  unfold size_sub
  have h : a + 2 ^ w - b = (a - b) + 2 ^ w := by omega
  rw [h, Nat.add_mod_right]
  exact Nat.mod_eq_of_lt (by omega)

/-- The number of bytes `strbuf_cat` and `strbuf_adv` move by, for a buffer that is not full. -/
theorem copyLen_eq {w n size : Nat} (hs : size < 2 ^ w) (h0 : size ≠ 0) :
    (if n < size then n else size_sub w size 1) = min n (size - 1) := by
  rw [size_sub_of_le hs (by omega)]
  split <;> omega

theorem strbuf_cat_of_pos {w : Nat} (mem : Memory) (dst : strbuf_t) (src : List Nat) (n : Nat)
    (hs : dst.size < 2 ^ w) (h0 : dst.size ≠ 0) :
    strbuf_cat w mem dst src n =
      (poke (memcpy mem dst.data src (min n (dst.size - 1))) (dst.data + min n (dst.size - 1)) 0,
        { data := dst.data + min n (dst.size - 1), size := dst.size - min n (dst.size - 1) }) := by
  unfold strbuf_cat
  simp only [copyLen_eq hs h0, h0, ne_eq, not_false_eq_true, if_true]
  by_cases hk : min n (dst.size - 1) = 0
  · simp [hk, memcpy_zero]
  · simp only [hk, not_false_eq_true, if_true]
    rw [size_sub_of_le hs (by omega)]

theorem strbuf_cat_of_zero {w : Nat} (mem : Memory) (dst : strbuf_t) (src : List Nat) (n : Nat)
    (h0 : dst.size = 0) : strbuf_cat w mem dst src n = (mem, dst) := by
  unfold strbuf_cat
  simp [h0]

theorem strbuf_adv_of_pos {w : Nat} (str : strbuf_t) (n : Nat)
    (hs : str.size < 2 ^ w) (h0 : str.size ≠ 0) :
    strbuf_adv w str n =
      { data := str.data + min n (str.size - 1), size := str.size - min n (str.size - 1) } := by
  unfold strbuf_adv
  simp only [copyLen_eq hs h0, h0, ne_eq, not_false_eq_true, true_and]
  by_cases hk : min n (str.size - 1) = 0
  · simp [hk]
  · simp only [hk, not_false_eq_true, if_true]
    rw [size_sub_of_le hs (by omega)]

theorem strbuf_adv_of_zero {w : Nat} (str : strbuf_t) (n : Nat) (h0 : str.size = 0) :
    strbuf_adv w str n = str := by
  unfold strbuf_adv
  simp [h0]

/-! ## Claims on strbuf.c -/

theorem StrbufInv_cat {w c base : Nat} {mem0 : Memory} (hc : c < 2 ^ w) (st : Memory × strbuf_t)
    (h : StrbufInv c base mem0 st) (src : List Nat) (n : Nat) :
    StrbufInv c base mem0 (strbuf_cat w st.1 st.2 src n) := by
  obtain ⟨hmem, hbase, hsum, hpos⟩ := h
  by_cases h0 : st.2.size = 0
  · rw [strbuf_cat_of_zero _ _ _ _ h0]
    exact ⟨hmem, hbase, hsum, hpos⟩
  · rw [strbuf_cat_of_pos _ _ _ _ (by omega) h0]
    refine ⟨?_, ?_, ?_, ?_⟩
    · intro a ha
      have h1 : a ≠ st.2.data + min n (st.2.size - 1) := by omega
      have h2 : ¬ (st.2.data ≤ a ∧ a < st.2.data + min n (st.2.size - 1)) := by omega
      simp only [poke, memcpy, h1, h2, if_false]
      exact hmem a ha
    · simp only; omega
    · simp only; omega
    · intro _; simp only; omega

theorem StrbufInv_adv {w c base : Nat} {mem0 : Memory} (hc : c < 2 ^ w) (st : Memory × strbuf_t)
    (h : StrbufInv c base mem0 st) (n : Nat) :
    StrbufInv c base mem0 (st.1, strbuf_adv w st.2 n) := by
  obtain ⟨hmem, hbase, hsum, hpos⟩ := h
  by_cases h0 : st.2.size = 0
  · rw [strbuf_adv_of_zero _ _ h0]
    exact ⟨hmem, hbase, hsum, hpos⟩
  · rw [strbuf_adv_of_pos _ _ (by omega) h0]
    refine ⟨hmem, ?_, ?_, ?_⟩
    · simp only; omega
    · simp only; omega
    · intro _; simp only; omega

theorem StrbufInv_runCalls {w c base : Nat} {mem0 : Memory} (hc : c < 2 ^ w)
    (calls : List StrbufCall) (st : Memory × strbuf_t) (h : StrbufInv c base mem0 st) :
    StrbufInv c base mem0 (runCalls w calls st) := by
  induction calls generalizing st with
  | nil => exact h
  | cons call calls ih =>
    have hstep : StrbufInv c base mem0 (StrbufCall.run w st call) := by
      cases call with
      | cat src n => exact StrbufInv_cat hc st h src n
      | adv n => exact StrbufInv_adv hc st h n
    exact ih _ hstep

/-- After `strbuf_cat` on a buffer that is not full, the byte at the cursor is zero. -/
theorem strbuf_cat_terminated {w : Nat} (mem : Memory) (dst : strbuf_t) (src : List Nat) (n : Nat)
    (hs : dst.size < 2 ^ w) (h0 : dst.size ≠ 0) :
    (strbuf_cat w mem dst src n).1 (strbuf_cat w mem dst src n).2.data = 0 := by
  rw [strbuf_cat_of_pos _ _ _ _ hs h0]
  simp [poke]

/-- Claim C1.  For every capacity `c` (a `size_t` value) and every sequence of `strbuf_cat` and
`strbuf_adv` calls, with any sources and lengths, on a buffer initialised by
`strbuf_init(base, c)`: no byte outside the `c` bytes of the destination is changed, in
particular none at an offset `c` or more; the cursor offset and the remaining size add up to
`c`; and when `c > 0` the remaining size is at least 1, and after one more `strbuf_cat` the
cursor is inside the `c` bytes and the byte at the cursor is zero. -/
theorem strbuf_calls_stay_in_bounds (w c base : Nat) (hc : c < 2 ^ w) (mem : Memory)
    (calls : List StrbufCall) :
    (∀ i, c ≤ i → (runCalls w calls (mem, strbuf_init base c)).1 (base + i) = mem (base + i)) ∧
    (∀ a, a < base → (runCalls w calls (mem, strbuf_init base c)).1 a = mem a) ∧
    ((runCalls w calls (mem, strbuf_init base c)).2.data - base) +
        (runCalls w calls (mem, strbuf_init base c)).2.size = c ∧
    base ≤ (runCalls w calls (mem, strbuf_init base c)).2.data ∧
    (0 < c →
      1 ≤ (runCalls w calls (mem, strbuf_init base c)).2.size ∧
      ∀ (src : List Nat) (n : Nat),
        (runCalls w (calls ++ [StrbufCall.cat src n]) (mem, strbuf_init base c)).2.data < base + c ∧
        (runCalls w (calls ++ [StrbufCall.cat src n]) (mem, strbuf_init base c)).1
          (runCalls w (calls ++ [StrbufCall.cat src n]) (mem, strbuf_init base c)).2.data = 0) := by
  have hinit : StrbufInv c base mem (mem, strbuf_init base c) := by
    refine ⟨fun _ _ => rfl, Nat.le_refl _, rfl, fun h => h⟩
  have hinv := StrbufInv_runCalls hc calls _ hinit
  obtain ⟨hmem, hbase, hsum, hpos⟩ := hinv
  refine ⟨fun i hi => hmem _ (Or.inr (by omega)), fun a ha => hmem _ (Or.inl ha), by omega,
    hbase, fun hc0 => ⟨hpos hc0, fun src n => ?_⟩⟩
  have hsize := hpos hc0
  have hrun : runCalls w (calls ++ [StrbufCall.cat src n]) (mem, strbuf_init base c) =
      strbuf_cat w (runCalls w calls (mem, strbuf_init base c)).1
        (runCalls w calls (mem, strbuf_init base c)).2 src n := by
    simp [runCalls, List.foldl_append, StrbufCall.run]
  rw [hrun]
  have hinv2 := StrbufInv_cat hc _ ⟨hmem, hbase, hsum, hpos⟩ src n
  obtain ⟨_, _, hsum2, hpos2⟩ := hinv2
  have := hpos2 hc0
  exact ⟨by omega, strbuf_cat_terminated _ _ _ _ (by omega) (by omega)⟩

/-- Witness of `strbuf_calls_stay_in_bounds`: capacity 4 on a 32-bit target, an append of five
bytes, an advance and a further append. -/
theorem strbuf_calls_stay_in_bounds_witness :
    (4 < 2 ^ 32) ∧
    (runCalls 32 [StrbufCall.cat [97, 98, 99, 100, 101] 5, StrbufCall.adv 3, StrbufCall.cat [102] 1]
      (fun _ => 7, strbuf_init 10 4)).1 (10 + 4) = 7 := by
  refine ⟨by norm_num, ?_⟩
  exact (strbuf_calls_stay_in_bounds 32 4 10 (by norm_num) (fun _ => 7)
    [StrbufCall.cat [97, 98, 99, 100, 101] 5, StrbufCall.adv 3, StrbufCall.cat [102] 1]).1 4
    (Nat.le_refl 4)

/-- Claim C2.  For a buffer with remaining size `r = dst.size` (a `size_t` value) and a source
of at least `n` bytes: if `r > 0`, `strbuf_cat` copies the first `min n (r - 1)` bytes of the
source to the cursor, moves the cursor forward and the remaining size down by that amount,
writes a zero byte at the new cursor and changes no other byte; if `r = 0` it changes neither
the cursor, the remaining size nor the memory. -/
theorem strbuf_cat_copies_min (w : Nat) (mem : Memory) (dst : strbuf_t) (src : List Nat) (n : Nat)
    (hr : dst.size < 2 ^ w) (hsrc : n ≤ src.length) :
    (0 < dst.size →
      (∀ i, i < min n (dst.size - 1) →
        src[i]? = some ((strbuf_cat w mem dst src n).1 (dst.data + i))) ∧
      (strbuf_cat w mem dst src n).2.data = dst.data + min n (dst.size - 1) ∧
      (strbuf_cat w mem dst src n).2.size = dst.size - min n (dst.size - 1) ∧
      (strbuf_cat w mem dst src n).1 (dst.data + min n (dst.size - 1)) = 0 ∧
      (∀ a, a < dst.data ∨ dst.data + min n (dst.size - 1) < a →
        (strbuf_cat w mem dst src n).1 a = mem a)) ∧
    (dst.size = 0 → strbuf_cat w mem dst src n = (mem, dst)) := by
  refine ⟨fun hpos => ?_, fun h0 => strbuf_cat_of_zero _ _ _ _ h0⟩
  rw [strbuf_cat_of_pos _ _ _ _ hr (by omega)]
  refine ⟨fun i hi => ?_, rfl, rfl, by simp [poke], fun a ha => ?_⟩
  · have h1 : dst.data + i ≠ dst.data + min n (dst.size - 1) := by omega
    have h2 : dst.data ≤ dst.data + i ∧ dst.data + i < dst.data + min n (dst.size - 1) := by omega
    have h3 : i < src.length := by omega
    simp only [poke, memcpy, h1, h2, if_false, and_self, if_true, Nat.add_sub_cancel_left]
    rw [List.getD_eq_getElem?_getD, List.getElem?_eq_getElem h3]
    rfl
  · have h1 : a ≠ dst.data + min n (dst.size - 1) := by omega
    have h2 : ¬ (dst.data ≤ a ∧ a < dst.data + min n (dst.size - 1)) := by omega
    simp only [poke, memcpy, h1, h2, if_false]

/-- Witness of `strbuf_cat_copies_min`: five bytes appended to a buffer with four bytes left. -/
theorem strbuf_cat_copies_min_witness :
    (4 < 2 ^ 32) ∧ (5 ≤ [97, 98, 99, 100, 101].length) ∧
    (strbuf_cat 32 (fun _ => 7) { data := 10, size := 4 } [97, 98, 99, 100, 101] 5).2 =
      { data := 13, size := 1 } ∧
    (strbuf_cat 32 (fun _ => 7) { data := 10, size := 4 } [97, 98, 99, 100, 101] 5).1 13 = 0 := by
  have h := (strbuf_cat_copies_min 32 (fun _ => 7) { data := 10, size := 4 } [97, 98, 99, 100, 101] 5
    (by norm_num) (by decide)).1 (by decide)
  refine ⟨by norm_num, by decide, ?_, h.2.2.2.1⟩
  have hd := h.2.1
  have hs := h.2.2.1
  cases hres : (strbuf_cat 32 (fun _ => 7) { data := 10, size := 4 } [97, 98, 99, 100, 101] 5).2
  rw [hres] at hd hs
  simp only at hd hs
  subst hd hs
  rfl

/-! ## Claims on escapeURI -/

theorem strlen_of_zero_free (s : List Nat) (h : ∀ b ∈ s, b ≠ 0) : strlen s = s.length := by
  induction s with
  | nil => rfl
  | cons c s ih =>
    have hc : c ≠ 0 := h c (List.mem_cons_self _ _)
    simp [strlen, hc, ih (fun b hb => h b (List.mem_cons_of_mem _ hb))]

theorem strchr_isSome_iff (l : List Nat) (c : Nat) (hl : ∀ b ∈ l, b ≠ 0) (hc : c ≠ 0) :
    (strchr l c).isSome = true ↔ c ∈ l := by
  induction l with
  | nil => simp [strchr, hc]
  | cons x l ih =>
    have hx : x ≠ 0 := hl x (List.mem_cons_self _ _)
    have ih1 := ih (fun b hb => hl b (List.mem_cons_of_mem _ hb))
    by_cases hxc : x = c
    · simp [strchr, hxc]
    · have hcx : ¬ c = x := fun h => hxc h.symm
      simp [strchr, hxc, hx, hcx, ih1]

theorem escapeURI_loop_cons (c : Nat) (s : List Nat) (hc : c ≠ 0) :
    escapeURI_loop (c :: s) = escapeByte c ++ escapeURI_loop s := by
  have hiff := strchr_isSome_iff reservedChars c (by decide) hc
  by_cases hres : c ∈ reservedBytes
  · have hsome : (strchr reservedChars c).isSome = true := hiff.mpr hres
    have hnone : (strchr reservedChars c).isNone = false := by
      cases h : strchr reservedChars c with
      | none => rw [h] at hsome; simp at hsome
      | some i => rfl
    have hhex : hexchars.getD (c / 16) 0 = upperHexDigit (c / 16) ∧
        hexchars.getD (c % 16) 0 = upperHexDigit (c % 16) := by
      simp only [reservedBytes, List.mem_cons, List.mem_singleton, List.not_mem_nil, or_false]
        at hres
      rcases hres with h | h | h | h | h | h | h | h | h | h | h | h | h | h | h | h <;>
        subst h <;> decide
    simp only [escapeURI_loop, hc, if_false, hnone, Bool.false_eq_true, escapeByte, hres, if_true,
      hhex.1, hhex.2, List.cons_append, List.nil_append]
  · have hnone : (strchr reservedChars c).isNone = true := by
      cases h : strchr reservedChars c with
      | none => rfl
      | some i =>
        have : c ∈ reservedBytes := hiff.mp (by rw [h]; rfl)
        exact absurd this hres
    simp only [escapeURI_loop, hc, if_false, hnone, if_true, escapeByte, hres, List.cons_append,
      List.nil_append]

theorem escapeURI_loop_of_zero_free (uri : List Nat) (h : ∀ b ∈ uri, b ≠ 0) :
    escapeURI_loop uri = uri.flatMap escapeByte := by
  induction uri with
  | nil => rfl
  | cons c s ih =>
    rw [escapeURI_loop_cons c s (h c (List.mem_cons_self _ _)),
      ih (fun b hb => h b (List.mem_cons_of_mem _ hb))]
    simp [List.flatMap_cons]

/-- Claim C3.  For every non-empty byte string without a zero byte, `escapeURI` returns the
concatenation, byte by byte, of `%` and the two uppercase hexadecimal digits of the byte when
the byte is one of the 16 reserved characters, and of the byte itself otherwise; the text
`a b%c` gives `a%20b%25c`; for the empty string it returns the null pointer. -/
theorem escapeURI_percent_encodes :
    (∀ uri : List Nat, uri ≠ [] → (∀ b ∈ uri, b ≠ 0) →
      escapeURI uri = some (uri.flatMap escapeByte)) ∧
    escapeURI (bytes "a b%c") = some (bytes "a%20b%25c") ∧
    escapeURI [] = none := by
  refine ⟨fun uri hne hz => ?_, by decide, by decide⟩
  have hlen : strlen uri ≠ 0 := by
    rw [strlen_of_zero_free uri hz]
    exact fun h => hne (List.length_eq_zero.mp h)
  simp only [escapeURI, hlen, ne_eq, not_false_eq_true, if_true,
    escapeURI_loop_of_zero_free uri hz]

/-- Witness of `escapeURI_percent_encodes`: the text `x;[` has two reserved characters. -/
theorem escapeURI_percent_encodes_witness :
    ([120, 59, 91] : List Nat) ≠ [] ∧ (∀ b ∈ ([120, 59, 91] : List Nat), b ≠ 0) ∧
    escapeURI [120, 59, 91] = some (bytes "x%3B%5B") :=
  ⟨by decide, by decide,
    (escapeURI_percent_encodes.1 [120, 59, 91] (by decide) (by decide)).trans (by decide)⟩

/-! ## Lemmas on C strings -/

theorem strlen_le_length (s : List Nat) : strlen s ≤ s.length := by
  induction s with
  | nil => simp [strlen]
  | cons c s ih =>
    by_cases hc : c = 0
    · simp [strlen, hc]
    · simp [strlen, hc, ih]

theorem length_cstr (s : List Nat) : (cstr s).length = strlen s := by
  simp [cstr, List.length_take, Nat.min_eq_left (strlen_le_length s)]

theorem take_cstr (s : List Nat) (k : Nat) (hk : k ≤ strlen s) : (cstr s).take k = s.take k := by
  simp [cstr, List.take_take, Nat.min_eq_left hk]

theorem cstr_drop (s : List Nat) (k : Nat) (hk : k ≤ strlen s) :
    cstr (s.drop k) = (cstr s).drop k := by
  induction s generalizing k with
  | nil => simp [cstr, strlen]
  | cons c s ih =>
    cases k with
    | zero => rfl
    | succ k =>
      by_cases hc : c = 0
      · simp [strlen, hc] at hk
      · simp only [strlen, hc, if_false] at hk
        have := ih k (by omega)
        simp only [cstr, strlen, hc, if_false, List.drop_succ_cons, List.take_succ_cons] at this ⊢
        exact this

theorem cstr_replaceAll (s : List Nat) (oldVal newVal : Nat) (hnew : newVal ≠ 0) :
    cstr (replaceAll s oldVal newVal) = (cstr s).map (fun b => if b = oldVal then newVal else b) := by
  induction s with
  | nil => rfl
  | cons c s ih =>
    by_cases hc : c = 0
    · simp [replaceAll, cstr, strlen, hc]
    · have h1 : (if c = oldVal then newVal else c) ≠ 0 := by
        split
        · exact hnew
        · exact hc
      simp only [cstr] at ih
      simp [replaceAll, cstr, strlen, hc, h1, ih]

theorem cstr_slashify (s : List Nat) : cstr (slashify s) = (cstr s).map normalizeSeparator := by
  unfold slashify
  rw [cstr_replaceAll s 92 47 (by decide)]
  rfl

theorem memcmp_eq_zero_iff (a b : List Nat) (n : Nat) (ha : n ≤ a.length) (hb : n ≤ b.length) :
    memcmp a b n = 0 ↔ a.take n = b.take n := by
  induction n generalizing a b with
  | zero => simp [memcmp]
  | succ n ih =>
    cases a with
    | nil => simp at ha
    | cons x a =>
      cases b with
      | nil => simp at hb
      | cons y b =>
        simp only [List.length_cons, Nat.add_le_add_iff_right] at ha hb
        by_cases hxy : x = y
        · subst hxy
          simp [memcmp, ih a b ha hb]
        · have hne : (x : Int) - (y : Int) ≠ 0 := by omega
          simp [memcmp, hxy, hne]

theorem strncmp_eq_zero_iff (a b : List Nat) (n : Nat) (ha : n ≤ strlen a) (hb : n ≤ b.length) :
    strncmp a b n = 0 ↔ a.take n = b.take n := by
  induction n generalizing a b with
  | zero => simp [strncmp]
  | succ n ih =>
    cases a with
    | nil => simp [strlen] at ha
    | cons x a =>
      cases b with
      | nil => simp at hb
      | cons y b =>
        simp only [List.length_cons, Nat.add_le_add_iff_right] at hb
        by_cases hx : x = 0
        · simp [strlen, hx] at ha
        · simp only [strlen, hx, if_false, Nat.add_le_add_iff_right] at ha
          by_cases hxy : x = y
          · subst hxy
            simp [strncmp, hx, ih a b ha hb]
          · have hne : (x : Int) - (y : Int) ≠ 0 := by omega
            simp [strncmp, hxy, hne]

/-- The test of `remoteNameToSvnURI` on a location is the agreement of its title with the
name. -/
theorem memcmp_title_iff (title path : List Nat) :
    memcmp path title (min (strlen path) title.length) = 0 ↔ agrees title path := by
  rw [memcmp_eq_zero_iff _ _ _
    (Nat.le_trans (Nat.min_le_left _ _) (strlen_le_length path)) (Nat.min_le_right _ _)]
  unfold agrees
  rw [Nat.min_comm title.length, take_cstr path _ (Nat.min_le_left _ _)]

/-- The test of `querySnapshot` on a location is the agreement of its title with the path. -/
theorem strncmp_title_iff (title path : List Nat) :
    strncmp path title (min title.length (strlen path)) = 0 ↔ agrees title path := by
  rw [strncmp_eq_zero_iff _ _ _ (Nat.min_le_right _ _) (Nat.min_le_left _ _)]
  unfold agrees
  rw [take_cstr path _ (Nat.min_le_right _ _)]

/-! ## Claims on the resolvers -/

theorem remoteNameToSvnURI_loop_first (path : List Nat) (locations : List Location) (L : Location)
    (hfirst : firstMatching path locations = some L)
    (hstart : (cstr path).take L.title.length = L.title) :
    (remoteNameToSvnURI_loop path locations).map Prod.fst =
      some (some (L.url ++ ((cstr path).drop L.title.length).map normalizeSeparator)) := by
  induction locations with
  | nil => simp [firstMatching] at hfirst
  | cons loc rest ih =>
    by_cases hag : agrees loc.title path
    · have hL : loc = L := by
        simpa [firstMatching, List.find?_cons, hag] using hfirst
      subst hL
      have hlen : loc.title.length ≤ strlen path := by
        have h := congrArg List.length hstart
        rw [List.length_take, length_cstr] at h
        omega
      simp only [remoteNameToSvnURI_loop, (memcmp_title_iff loc.title path).mpr hag, if_true, hlen,
        Option.map_some', cstr_slashify, cstr_drop path _ hlen]
    · have hne : ¬ memcmp path loc.title (min (strlen path) loc.title.length) = 0 :=
        fun h => hag ((memcmp_title_iff loc.title path).mp h)
      have hrest : firstMatching path rest = some L := by
        simpa [firstMatching, List.find?_cons, hag] using hfirst
      simp only [remoteNameToSvnURI_loop, hne, if_false]
      exact ih hrest

/-- Claim C4.  For every registry and every path (leading separator already removed) whose
first `len(title)` bytes are the title of the first matching location `L`,
`remoteNameToSvnURI` returns `L.url` followed by the rest of the path after those bytes with
every backslash replaced by a slash; with `Repo1` for `svn://h/a` and `Repo2` for `svn://h/b`
the path `Repo1\docs\readme.txt` gives `svn://h/a/docs/readme.txt`. -/
theorem remoteNameToSvnURI_prefix_gives_uri :
    (∀ (st : State) (path : List Nat) (L : Location),
      firstMatching path st.locations = some L →
      (cstr path).take L.title.length = L.title →
      (remoteNameToSvnURI st path).map Prod.fst =
        some (some (L.url ++ ((cstr path).drop L.title.length).map normalizeSeparator))) ∧
    (remoteNameToSvnURI
        (initialState [{ title := bytes "Repo1", url := bytes "svn://h/a" },
          { title := bytes "Repo2", url := bytes "svn://h/b" }])
        (bytes "Repo1" ++ [92] ++ bytes "docs" ++ [92] ++ bytes "readme.txt")).map Prod.fst =
      some (some (bytes "svn://h/a/docs/readme.txt")) :=
  ⟨fun st path L hfirst hstart => remoteNameToSvnURI_loop_first path st.locations L hfirst hstart,
    by decide⟩

/-- Witness of `remoteNameToSvnURI_prefix_gives_uri`: the second location matches `b\x y`. -/
theorem remoteNameToSvnURI_prefix_gives_uri_witness :
    firstMatching [98, 92, 120, 32, 121]
        (initialState [{ title := [97], url := [117] }, { title := [98], url := [118] }]).locations =
      some { title := [98], url := [118] } ∧
    (cstr [98, 92, 120, 32, 121]).take ({ title := [98], url := [118] } : Location).title.length =
      ({ title := [98], url := [118] } : Location).title ∧
    (remoteNameToSvnURI
        (initialState [{ title := [97], url := [117] }, { title := [98], url := [118] }])
        [98, 92, 120, 32, 121]).map Prod.fst = some (some [118, 47, 120, 32, 121]) :=
  ⟨by decide, by decide,
    (remoteNameToSvnURI_prefix_gives_uri.1
      (initialState [{ title := [97], url := [117] }, { title := [98], url := [118] }])
      [98, 92, 120, 32, 121] { title := [98], url := [118] } (by decide) (by decide)).trans
      (by decide)⟩

theorem remoteNameToSvnURI_loop_null_iff (path : List Nat) (locations : List Location) :
    (remoteNameToSvnURI_loop path locations).map Prod.fst = some none ↔
      ∀ L ∈ locations, ¬ agrees L.title path := by
  induction locations with
  | nil => simp [remoteNameToSvnURI_loop]
  | cons loc rest ih =>
    by_cases hag : agrees loc.title path
    · have h0 := (memcmp_title_iff loc.title path).mpr hag
      by_cases hlen : loc.title.length ≤ strlen path
      · simp only [remoteNameToSvnURI_loop, h0, if_true, hlen]
        simp [hag]
      · simp only [remoteNameToSvnURI_loop, h0, if_true, hlen, if_false]
        simp [hag]
    · have hne : ¬ memcmp path loc.title (min (strlen path) loc.title.length) = 0 :=
        fun h => hag ((memcmp_title_iff loc.title path).mp h)
      simp only [remoteNameToSvnURI_loop, hne, if_false, ih]
      simp [hag]

/-- Every defined run of the body of `querySnapshot` passes exactly one URI to the backend. -/
theorem querySnapshot_found_requests {w : Nat} {backend : Backend} {st st1 : State}
    {snapshot snapshot1 : Snapshot} {loc : Location} {sub : List Nat} {err : Option svn_error_t}
    (h : querySnapshot_found w backend st snapshot loc sub = some (st1, snapshot1, err)) :
    ∃ uri, st1.requests = st.requests ++ [uri] ∧ st1.locations = st.locations ∧
      st1.cachedSnapshot = st.cachedSnapshot := by
  unfold querySnapshot_found at h
  simp only at h
  split at h
  · exact absurd h (by simp)
  · rename_i mem s subPathLen1 hcomp
    split at h
    · simp only [Option.some.injEq, Prod.mk.injEq] at h
      exact ⟨_, by rw [← h.1], by rw [← h.1], by rw [← h.1]⟩
    · split at h
      · simp only [Option.some.injEq, Prod.mk.injEq] at h
        exact ⟨_, by rw [← h.1], by rw [← h.1], by rw [← h.1]⟩
      · exact absurd h (by simp)

theorem querySnapshot_loop_unknown_iff (w : Nat) (backend : Backend) (st : State)
    (snapshot : Snapshot) (path : List Nat) (locations : List Location) :
    querySnapshot_loop w backend st snapshot path locations =
        some (st, snapshot, some unknownLocationError) ↔
      ∀ L ∈ locations, ¬ agrees L.title path := by
  induction locations with
  | nil => simp [querySnapshot_loop]
  | cons loc rest ih =>
    by_cases hag : agrees loc.title path
    · have h0 := (strncmp_title_iff loc.title path).mpr hag
      simp only [querySnapshot_loop, h0, if_true, List.mem_cons, forall_eq_or_imp, hag,
        not_true_eq_false, false_and, iff_false]
      intro h
      obtain ⟨uri, hreq, _, _⟩ := querySnapshot_found_requests h
      have := congrArg List.length hreq
      simp at this
    · have hne : ¬ strncmp path loc.title (min loc.title.length (strlen path)) = 0 :=
        fun h => hag ((strncmp_title_iff loc.title path).mp h)
      simp only [querySnapshot_loop, hne, if_false, ih]
      simp [hag]

/-- Claim C5.  For every registry and path, `remoteNameToSvnURI` returns the null pointer, and
`querySnapshot` returns its `Unknown Location` error (without a listing request: state and
snapshot are as before), if and only if no location has a title that agrees with the path on
their first `min(len(title), len(path))` bytes.  A location titled `ab` agrees with the paths
`ab` and `abcde`, and the path `Unknown\x` agrees with neither `Repo1` nor `Repo2`. -/
theorem resolvers_fail_iff_no_title_agrees :
    (∀ (st : State) (path : List Nat),
      (remoteNameToSvnURI st path).map Prod.fst = some none ↔
        ∀ L ∈ st.locations, ¬ agrees L.title path) ∧
    (∀ (w : Nat) (backend : Backend) (st : State) (snapshot : Snapshot) (path : List Nat),
      querySnapshot w backend st snapshot path = some (st, snapshot, some unknownLocationError) ↔
        ∀ L ∈ st.locations, ¬ agrees L.title path) ∧
    agrees (bytes "ab") (bytes "ab") ∧ agrees (bytes "ab") (bytes "abcde") ∧
    ¬ agrees (bytes "Repo1") (bytes "Unknown" ++ [92] ++ bytes "x") ∧
    ¬ agrees (bytes "Repo2") (bytes "Unknown" ++ [92] ++ bytes "x") :=
  ⟨fun st path => remoteNameToSvnURI_loop_null_iff path st.locations,
    fun w backend st snapshot path =>
      querySnapshot_loop_unknown_iff w backend st snapshot path st.locations,
    by decide, by decide, by decide, by decide⟩

/-- Witness of `resolvers_fail_iff_no_title_agrees`: with one location `Repo1` the name
`Unknown` gets the null pointer. -/
theorem resolvers_fail_iff_no_title_agrees_witness :
    (remoteNameToSvnURI (initialState [{ title := bytes "Repo1", url := bytes "svn://h/a" }])
      (bytes "Unknown")).map Prod.fst = some none :=
  (resolvers_fail_iff_no_title_agrees.1
    (initialState [{ title := bytes "Repo1", url := bytes "svn://h/a" }]) (bytes "Unknown")).mpr
    (by decide)

theorem cstr_nil : cstr [] = [] := rfl

theorem cstr_cons (x : Nat) (s : List Nat) :
    cstr (x :: s) = if x = 0 then [] else x :: cstr s := by
  by_cases hx : x = 0
  · simp [cstr, strlen, hx]
  · simp [cstr, strlen, hx]

/-- The function `strncmp` returns zero exactly when the two strings, cut after `n` bytes,
are the same string. -/
theorem strncmp_eq_zero_iff_cstr (a b : List Nat) (n : Nat) :
    strncmp a b n = 0 ↔ (cstr a).take n = (cstr b).take n := by
  induction n generalizing a b with
  | zero => simp [strncmp]
  | succ n ih =>
    cases a with
    | nil =>
      cases b with
      | nil => simp [strncmp]
      | cons y b =>
        by_cases hy : y = 0
        · simp [strncmp, hy, cstr_cons, cstr_nil]
        · have hy1 : ¬ (0 : Nat) = y := fun h => hy h.symm
          have hne : ¬ ((0 : Int) - (y : Int) = 0) := by omega
          simp [strncmp, hy, hy1, cstr_cons, cstr_nil, hne]
    | cons x a =>
      cases b with
      | nil =>
        by_cases hx : x = 0
        · simp [strncmp, hx, cstr_cons, cstr_nil]
        · have hne : ¬ ((x : Int) - (0 : Int) = 0) := by omega
          simp [strncmp, hx, cstr_cons, cstr_nil, hne]
      | cons y b =>
        by_cases hxy : x = y
        · subst hxy
          by_cases hx : x = 0
          · simp [strncmp, hx, cstr_cons]
          · simp [strncmp, hx, cstr_cons, ih a b]
        · have hne : ¬ ((x : Int) - (y : Int) = 0) := by omega
          by_cases hx : x = 0
          · have hy : y ≠ 0 := fun h => hxy (by rw [hx, h])
            have hy1 : ¬ (0 : Nat) = y := fun h => hy h.symm
            subst hx
            simp [strncmp, hy1, cstr_cons, hy]
          · by_cases hy : y = 0
            · simp [strncmp, hxy, hne, cstr_cons, hx, hy]
            · simp [strncmp, hxy, hne, cstr_cons, hx, hy]

theorem cstr_of_zero_free (s : List Nat) (h : ∀ b ∈ s, b ≠ 0) : cstr s = s := by
  simp [cstr, strlen_of_zero_free s h]
/-! ## Claims on the snapshot cache -/

/-- The lookup at the end of `FsContentGetValue` makes no listing request and shows no
message. -/
theorem FsContentGetValue_lookup_state (w : Nat) (st : State) (snapshot : Snapshot)
    (fileName : List Nat) (baseFileName : Nat) (fieldIndex : Int) (fieldValue : Memory)
    (maxLen : Nat) :
    (FsContentGetValue_lookup w st snapshot fileName baseFileName fieldIndex fieldValue
        maxLen).state =
      { st with
        cachedSnapshot :=
          { snapshot with
            current := findEntry (fileName.drop baseFileName) snapshot.entries } } := by
  unfold FsContentGetValue_lookup
  simp only
  split
  · rfl
  · split
    · rfl
    · split <;> rfl

theorem FsContentGetValue_lookup_ret (w : Nat) (st : State) (snapshot : Snapshot)
    (fileName : List Nat) (baseFileName : Nat) (fieldIndex : Int) (fieldValue : Memory)
    (maxLen : Nat) :
    (FsContentGetValue_lookup w st snapshot fileName baseFileName fieldIndex fieldValue
        maxLen).ret ≠ FT_FILEERROR := by
  have hft : fieldType w fieldIndex ≠ FT_FILEERROR := by
    unfold fieldType FT_FILEERROR FT_NUMERIC_64 FT_NUMERIC_32 FT_STRING
    split
    · split <;> decide
    · decide
  unfold FsContentGetValue_lookup
  simp only
  split
  · show FT_NOSUCHFIELD ≠ FT_FILEERROR
    decide
  · split
    · exact hft
    · split <;> exact hft

/-- A call of `querySnapshot` either finds no location and changes nothing, or passes exactly
one URI to the backend. -/
theorem querySnapshot_loop_requests {w : Nat} {backend : Backend} {st st1 : State}
    {snapshot snapshot1 : Snapshot} {path : List Nat} {err : Option svn_error_t}
    (locations : List Location)
    (h : querySnapshot_loop w backend st snapshot path locations = some (st1, snapshot1, err)) :
    (st1 = st ∧ snapshot1 = snapshot ∧ err = some unknownLocationError ∧
        ∀ L ∈ locations, ¬ agrees L.title path) ∨
      ((∃ L ∈ locations, agrees L.title path) ∧
        ∃ uri, st1.requests = st.requests ++ [uri] ∧ st1.locations = st.locations ∧
          st1.cachedSnapshot = st.cachedSnapshot) := by
  induction locations with
  | nil =>
    simp only [querySnapshot_loop, Option.some.injEq, Prod.mk.injEq] at h
    exact Or.inl ⟨h.1.symm, h.2.1.symm, h.2.2.symm, by simp⟩
  | cons loc rest ih =>
    by_cases hag : agrees loc.title path
    · have h0 := (strncmp_title_iff loc.title path).mpr hag
      simp only [querySnapshot_loop, h0, if_true] at h
      exact Or.inr ⟨⟨loc, List.mem_cons_self _ _, hag⟩, querySnapshot_found_requests h⟩
    · have hne : ¬ strncmp path loc.title (min loc.title.length (strlen path)) = 0 :=
        fun h => hag ((strncmp_title_iff loc.title path).mp h)
      simp only [querySnapshot_loop, hne, if_false] at h
      rcases ih h with ⟨h1, h2, h3, h4⟩ | ⟨⟨L, hL, hLag⟩, h2⟩
      · refine Or.inl ⟨h1, h2, h3, ?_⟩
        intro L hL
        rcases List.mem_cons.mp hL with rfl | hL
        · exact hag
        · exact h4 L hL
      · exact Or.inr ⟨⟨L, List.mem_cons_of_mem _ hL, hLag⟩, h2⟩

/-- The test of `FsContentGetValue` on a cached snapshot with a location whose title has no
zero byte and a sub-path whose recorded length is within its bytes. -/
theorem cacheReusable_eq_true_iff (snapshot : Snapshot) (fileName : List Nat) (baseFilePath : Nat)
    (L : Location) (hloc : snapshot.location = some L) (htitle : ∀ b ∈ L.title, b ≠ 0)
    (hsub : ∀ data, snapshot.subPath.data = some data → snapshot.subPath.len ≤ strlen data) :
    cacheReusable snapshot fileName baseFilePath = some true ↔
      snapshot.entries ≠ [] ∧
      ∃ data, snapshot.subPath.data = some data ∧
        (cstr fileName).take L.title.length = L.title ∧
        (cstr (fileName.drop baseFilePath)).take snapshot.subPath.len =
          data.take snapshot.subPath.len := by
  unfold cacheReusable
  by_cases hent : snapshot.entries = []
  · simp [hent]
  · cases hdata : snapshot.subPath.data with
    | none => simp [hent]
    | some data =>
      have hlen := hsub data hdata
      have h1 : (cstr L.title).take L.title.length = L.title := by
        rw [cstr_of_zero_free _ htitle, List.take_length]
      have h2 : (cstr data).take snapshot.subPath.len = data.take snapshot.subPath.len :=
        take_cstr data _ hlen
      simp only [hent, if_false, hloc, Option.some.injEq, Bool.and_eq_true, decide_eq_true_eq,
        strncmp_eq_zero_iff_cstr, h1, h2, ne_eq, not_false_eq_true, true_and, exists_eq_left']
      constructor
      · rintro ⟨ha, hb⟩
        exact ⟨ha, hb.symm⟩
      · rintro ⟨ha, hb⟩
        exact ⟨ha, hb.symm⟩

theorem cacheReusable_ne_none (snapshot : Snapshot) (fileName : List Nat) (baseFilePath : Nat)
    (L : Location) (hloc : snapshot.location = some L) :
    cacheReusable snapshot fileName baseFilePath ≠ none := by
  unfold cacheReusable
  split
  · simp
  · split
    · simp
    · simp [hloc]

/-- What `FsContentGetValue` does for a field index and a file name that pass its first
checks. -/
theorem FsContentGetValue_of_wellformed (w : Nat) (backend : Backend) (st : State)
    (fileName : List Nat) (fieldIndex : Int) (fieldValue : Memory) (maxLen : Nat)
    (last first : Nat) (hidx : 0 ≤ fieldIndex ∧ fieldIndex < FI_MAX)
    (hsep : fileName.headD 0 = 92) (hlast : strrchr fileName.tail 92 = some last)
    (hfirst : strchr fileName.tail 92 = some first) :
    FsContentGetValue w backend st fileName fieldIndex fieldValue maxLen =
      match cacheReusable st.cachedSnapshot (slashify fileName.tail) first with
      | none => none
      | some true =>
        some (FsContentGetValue_lookup w st st.cachedSnapshot (slashify fileName.tail) (last + 1)
          fieldIndex fieldValue maxLen)
      | some false =>
        match querySnapshot w backend st (destroySnapshot st.cachedSnapshot)
            ((slashify fileName.tail).set (last + 1) 0) with
        | none => none
        | some (st1, snapshot, some err) =>
          some
            { state :=
                match err.message with
                | some message =>
                  displayErrorMessage { st1 with cachedSnapshot := snapshot } message
                | none => { st1 with cachedSnapshot := snapshot }
              fileName := 92 :: slashify fileName.tail, ret := FT_FILEERROR, longValue := none,
              fieldValue := fieldValue }
        | some (st1, snapshot, none) =>
          some (FsContentGetValue_lookup w st1 snapshot (slashify fileName.tail) (last + 1)
            fieldIndex fieldValue maxLen) := by
  have h1 : ¬ (fieldIndex < 0 ∨ fieldIndex ≥ FI_MAX ∨ fileName.headD 0 ≠ 92) := by
    have := hidx.1
    have := hidx.2
    simp only [hsep, ne_eq, not_true_eq_false, or_false]
    omega
  unfold FsContentGetValue
  simp only [h1, if_false, hlast, hfirst]
/-- A miss never gives the result of a lookup in the cached snapshot in the unchanged state. -/
theorem miss_ne_lookup (w : Nat) (backend : Backend) (st : State) (path name : List Nat)
    (base : Nat) (fieldIndex : Int) (fieldValue : Memory) (maxLen : Nat) :
    (match querySnapshot w backend st (destroySnapshot st.cachedSnapshot) path with
      | none => none
      | some (st1, snapshot, some err) =>
        some
          { state :=
              match err.message with
              | some message =>
                displayErrorMessage { st1 with cachedSnapshot := snapshot } message
              | none => { st1 with cachedSnapshot := snapshot }
            fileName := 92 :: name, ret := FT_FILEERROR, longValue := none,
            fieldValue := fieldValue }
      | some (st1, snapshot, none) =>
        some (FsContentGetValue_lookup w st1 snapshot name base fieldIndex fieldValue maxLen)) ≠
      some (FsContentGetValue_lookup w st st.cachedSnapshot name base fieldIndex fieldValue
        maxLen) := by
  intro h
  split at h
  · exact absurd h (by simp)
  · have hret := congrArg (Option.map GetValueResult.ret) h
    simp only [Option.map_some', Option.some.injEq] at hret
    exact FsContentGetValue_lookup_ret w st st.cachedSnapshot name base fieldIndex fieldValue
      maxLen hret.symm
  · rename_i st1 snapshot hq
    have hreq := congrArg (Option.map (fun r => r.state.requests)) h
    simp only [Option.map_some', Option.some.injEq, FsContentGetValue_lookup_state] at hreq
    rcases querySnapshot_loop_requests st.locations hq with ⟨_, _, h3, _⟩ | ⟨_, uri, h1, _⟩
    · exact absurd h3 (by simp)
    · rw [h1] at hreq
      have := congrArg List.length hreq
      simp at this

/-- Claim C6, amended.  In `FsContentGetValue`, for a field index and a file name that pass the
first checks and a cached snapshot with a location (its title without zero byte) and a
recorded sub-path length within the sub-path: the cached snapshot is reused, with no call to
`querySnapshot`, if and only if it has at least one entry and the reuse rule holds for the
separator-normalised name: the title is the first `len(title)` bytes of the name and the
sub-path is the first `len(subPath)` bytes of the tail that starts at the first separator. -/
theorem cache_reused_iff_entries_and_prefixRule (w : Nat) (backend : Backend) (st : State)
    (fileName : List Nat) (fieldIndex : Int) (fieldValue : Memory) (maxLen : Nat)
    (last first : Nat) (L : Location)
    (hidx : 0 ≤ fieldIndex ∧ fieldIndex < FI_MAX) (hsep : fileName.headD 0 = 92)
    (hlast : strrchr fileName.tail 92 = some last)
    (hfirst : strchr fileName.tail 92 = some first)
    (hloc : st.cachedSnapshot.location = some L) (htitle : ∀ b ∈ L.title, b ≠ 0)
    (hsub : ∀ data, st.cachedSnapshot.subPath.data = some data →
      st.cachedSnapshot.subPath.len ≤ strlen data) :
    answeredFromCache w backend st fileName fieldIndex fieldValue maxLen ↔
      st.cachedSnapshot.entries ≠ [] ∧
        prefixRule st.cachedSnapshot (slashify fileName.tail) first := by
  have hcall := FsContentGetValue_of_wellformed w backend st fileName fieldIndex fieldValue
    maxLen last first hidx hsep hlast hfirst
  have hiff := cacheReusable_eq_true_iff st.cachedSnapshot (slashify fileName.tail) first L hloc
    htitle hsub
  have hrule : (st.cachedSnapshot.entries ≠ [] ∧
      prefixRule st.cachedSnapshot (slashify fileName.tail) first) ↔
      cacheReusable st.cachedSnapshot (slashify fileName.tail) first = some true := by
    rw [hiff]
    unfold prefixRule
    constructor
    · rintro ⟨hent, L1, data, hL1, hdata, ht, hs⟩
      rw [hloc] at hL1
      cases hL1
      exact ⟨hent, data, hdata, ht, hs⟩
    · rintro ⟨hent, data, hdata, ht, hs⟩
      exact ⟨hent, L, data, hloc, hdata, ht, hs⟩
  rw [hrule]
  unfold answeredFromCache
  rw [hcall]
  constructor
  · rintro ⟨last1, hlast1, heq⟩
    rw [hlast] at hlast1
    cases hlast1
    cases hre : cacheReusable st.cachedSnapshot (slashify fileName.tail) first with
    | none => rw [hre] at heq; exact absurd heq (by simp)
    | some b =>
      cases b with
      | true => rfl
      | false =>
        rw [hre] at heq
        exact absurd heq (miss_ne_lookup w backend st _ _ _ fieldIndex fieldValue maxLen)
  · intro hre
    exact ⟨last, hlast, by rw [hre]⟩

/-- Witness of `cache_reused_iff_entries_and_prefixRule`: in the state `emptyDirCached` the
cached snapshot has no entry, and the revision of `\Repo1\empty\g` is not answered from it. -/
theorem cache_reused_iff_entries_and_prefixRule_witness :
    ¬ answeredFromCache 32 exampleBackend emptyDirCached (hostPath ["Repo1", "empty", "g"]) 0
      (fun _ => 0) 16 := by
  intro h
  have h1 := (cache_reused_iff_entries_and_prefixRule 32 exampleBackend emptyDirCached
    (hostPath ["Repo1", "empty", "g"]) 0 (fun _ => 0) 16 11 5 repo1 (by decide) (by decide)
    (by decide) (by decide) rfl (by decide)
    (by intro data hdata; cases hdata; decide)).mp h
  exact h1.1 rfl

/-- Counterexample to claim C6 as stated.  After `FsContentGetValue` has fetched the listing
of the empty directory `\Repo1\empty`, the cached snapshot satisfies the reuse rule for
`\Repo1\empty\g`, yet the call is not answered from the cache: it makes a second listing
request. -/
theorem cache_not_reused_without_entries :
    (FsContentGetValue 32 exampleBackend (initialState exampleLocations)
        (hostPath ["Repo1", "empty", "f"]) 0 (fun _ => 0) 16).map (fun r => r.state) =
      some emptyDirCached ∧
    prefixRule emptyDirCached.cachedSnapshot (slashify (hostPath ["Repo1", "empty", "g"]).tail) 5 ∧
    strchr (hostPath ["Repo1", "empty", "g"]).tail 92 = some 5 ∧
    ¬ answeredFromCache 32 exampleBackend emptyDirCached (hostPath ["Repo1", "empty", "g"]) 0
      (fun _ => 0) 16 ∧
    (FsContentGetValue 32 exampleBackend emptyDirCached (hostPath ["Repo1", "empty", "g"]) 0
        (fun _ => 0) 16).map (fun r => r.state.requests) =
      some [some (bytes "svn://h/a/empty"), some (bytes "svn://h/a/empty")] := by
  refine ⟨by decide, ⟨repo1, bytes "/empty/", rfl, rfl, by decide, by decide⟩, by decide, ?_,
    by decide⟩
  rintro ⟨last, _, heq⟩
  have hreq := congrArg (Option.map (fun r => r.state.requests.length)) heq
  simp only [Option.map_some', FsContentGetValue_lookup_state] at hreq
  have hlhs : (FsContentGetValue 32 exampleBackend emptyDirCached
      (hostPath ["Repo1", "empty", "g"]) 0 (fun _ => 0) 16).map
      (fun r => r.state.requests.length) = some 2 := by decide
  rw [hlhs] at hreq
  exact absurd hreq (by decide)

/-! ## Lemmas on querySnapshot -/

theorem size_add_of_lt {w a b : Nat} (h : a + b < 2 ^ w) : size_add w a b = a + b := by
  unfold size_add
  exact Nat.mod_eq_of_lt h

/-- An append that fits: `strbuf_cat` with `n` below the remaining size copies all `n` bytes. -/
theorem strbuf_cat_fits {w : Nat} (mem : Memory) (dst : strbuf_t) (src : List Nat) (n : Nat)
    (hs : dst.size < 2 ^ w) (hn : n < dst.size) :
    strbuf_cat w mem dst src n =
      (poke (memcpy mem dst.data src n) (dst.data + n) 0,
        { data := dst.data + n, size := dst.size - n }) := by
  rw [strbuf_cat_of_pos mem dst src n hs (by omega)]
  have hmin : min n (dst.size - 1) = n := by omega
  rw [hmin]

/-- The trimming loop of `querySnapshot` stops, without leaving the buffer and without taking
more than `subPathLen` bytes, at the latest `k` bytes down when the byte there is no slash. -/
theorem trimTrailingSlashes_defined (w : Nat) (k : Nat) :
    ∀ (mem : Memory) (data size n : Nat), k ≤ n → n < 2 ^ w → k < data →
      mem (data - k - 1) ≠ 47 →
      ∃ mem1 s1 n1, trimTrailingSlashes w mem data size n = some (mem1, s1, n1) ∧ n1 ≤ n := by
  induction k with
  | zero =>
    intro mem data size n _ _ hd hmem
    cases data with
    | zero => omega
    | succ d =>
      have hmem1 : mem d ≠ 47 := by simpa using hmem
      exact ⟨mem, { data := d + 1, size := size }, n, by simp [trimTrailingSlashes, hmem1],
        Nat.le_refl n⟩
  | succ k ih =>
    intro mem data size n hk hn hd hmem
    cases data with
    | zero => omega
    | succ d =>
      by_cases hslash : mem d = 47
      · have hsub : size_sub w n 1 = n - 1 := size_sub_of_le hn (by omega)
        have hpoke : poke mem d 0 (d - k - 1) ≠ 47 := by
          have h1 : d - k - 1 ≠ d := by omega
          have h2 : d + 1 - (k + 1) - 1 = d - k - 1 := by omega
          simp only [poke, h1, if_false]
          rw [← h2]
          exact hmem
        obtain ⟨mem1, s1, n1, hres, hle⟩ :=
          ih (poke mem d 0) d (size_add w size 1) (n - 1) (by omega) (by omega) (by omega) hpoke
        refine ⟨mem1, s1, n1, ?_, by omega⟩
        simp only [trimTrailingSlashes, hslash, if_true, hsub]
        exact hres
      · exact ⟨mem, { data := d + 1, size := size }, n, by simp [trimTrailingSlashes, hslash],
          Nat.le_refl n⟩

/-- The composition of the URI is defined, and records at most the length of the sub-path, for
a URL that does not end with a slash. -/
theorem querySnapshot_compose_defined (w : Nat) (loc : Location) (sub : List Nat) (b : Nat)
    (hlast : loc.url.getLast? = some b) (hb : b ≠ 47)
    (hsize : loc.url.length + strlen sub + 1 < 2 ^ w) :
    ∃ mem1 s1 n1, querySnapshot_compose w loc sub = some (mem1, s1, n1) ∧ n1 ≤ strlen sub := by
  unfold querySnapshot_compose
  simp only
  by_cases hS : strlen sub = 0
  · simp [hS]
  · simp only [hS, ne_eq, not_false_eq_true, if_true]
    have hU : loc.url ≠ [] := by
      intro h
      rw [h] at hlast
      simp at hlast
    have hUpos : 0 < loc.url.length := List.length_pos.mpr hU
    rw [strbuf_cat_fits (fun _ => 0) { data := 0, size := loc.url.length + strlen sub + 1 }
      loc.url loc.url.length hsize (by simp only; omega)]
    simp only [Nat.zero_add]
    have hsz : loc.url.length + strlen sub + 1 - loc.url.length = strlen sub + 1 := by omega
    rw [hsz]
    rw [strbuf_cat_fits _ { data := loc.url.length, size := strlen sub + 1 } sub (strlen sub)
      (by simp only; omega) (by simp only; omega)]
    simp only
    apply trimTrailingSlashes_defined w (strlen sub) _ _ _ _ (Nat.le_refl _) (by omega) (by omega)
    have haddr : loc.url.length + strlen sub - strlen sub - 1 = loc.url.length - 1 := by omega
    rw [haddr]
    have h1 : ¬ (loc.url.length ≤ loc.url.length - 1 ∧
        loc.url.length - 1 < loc.url.length +
          (cstrAt (poke (memcpy (poke (memcpy (fun _ => 0) 0 loc.url loc.url.length)
            loc.url.length 0) loc.url.length sub (strlen sub)) (loc.url.length + strlen sub) 0)
            loc.url.length (strlen sub + 1)).length) := by omega
    have h2 : loc.url.length - 1 ≠ loc.url.length + strlen sub := by omega
    have h3 : ¬ (loc.url.length ≤ loc.url.length - 1 ∧
        loc.url.length - 1 < loc.url.length + strlen sub) := by omega
    have h4 : loc.url.length - 1 ≠ loc.url.length := by omega
    have h5 : 0 ≤ loc.url.length - 1 ∧ loc.url.length - 1 < 0 + loc.url.length := by omega
    simp only [slashifyAt, memcpy, poke, h1, h2, h3, h4, h5, if_false, and_self, if_true,
      Nat.sub_zero]
    rw [List.getLast?_eq_getElem?] at hlast
    rw [List.getD_eq_getElem?_getD, hlast]
    exact hb

/-- The body of `querySnapshot` is defined, and makes exactly one listing request, for a URL
that does not end with a slash. -/
theorem querySnapshot_found_defined (w : Nat) (backend : Backend) (st : State)
    (snapshot : Snapshot) (loc : Location) (sub : List Nat) (b : Nat)
    (hlast : loc.url.getLast? = some b) (hb : b ≠ 47)
    (hsize : loc.url.length + strlen sub + 1 < 2 ^ w) :
    ∃ st1 snapshot1 err uri,
      querySnapshot_found w backend st snapshot loc sub = some (st1, snapshot1, err) ∧
      st1 = { st with requests := st.requests ++ [uri] } := by
  obtain ⟨mem1, s1, n1, hcomp, hn1⟩ := querySnapshot_compose_defined w loc sub b hlast hb hsize
  unfold querySnapshot_found
  simp only [hcomp]
  split
  · exact ⟨_, _, _, _, rfl, rfl⟩
  · have hadd : size_add w n1 1 = n1 + 1 := size_add_of_lt (by omega)
    have hle : n1 + 1 ≤ strlen sub + 1 := by omega
    simp only [hadd, hle, if_true]
    exact ⟨_, _, _, _, rfl, rfl⟩
theorem cstr_set_zero (s : List Nat) (k : Nat) : cstr (s.set k 0) = (cstr s).take k := by
  induction s generalizing k with
  | nil => simp [cstr_nil]
  | cons x s ih =>
    cases k with
    | zero => simp [cstr_cons]
    | succ k =>
      by_cases hx : x = 0
      · simp [cstr_cons, hx]
      · simp [cstr_cons, hx, ih k]

theorem length_replaceAll (s : List Nat) (oldVal newVal : Nat) :
    (replaceAll s oldVal newVal).length = s.length := by
  induction s with
  | nil => rfl
  | cons x s ih =>
    by_cases hx : x = 0
    · simp [replaceAll, hx]
    · simp [replaceAll, hx, ih]

/-- A title that is the start of a name agrees with every cut of the name. -/
theorem agrees_of_take (title name path : List Nat) (j : Nat)
    (htitle : (cstr name).take title.length = title) (hpath : cstr path = (cstr name).take j) :
    agrees title path := by
  unfold agrees
  have hlen : strlen path = min j (strlen name) := by
    rw [← length_cstr path, hpath, List.length_take, length_cstr]
  obtain ⟨m, hm⟩ : ∃ m, m = min title.length (strlen path) := ⟨_, rfl⟩
  rw [← hm, hpath]
  have hm1 : m ≤ j := by omega
  have hm2 : m ≤ title.length := by omega
  have e2 : title.take m = ((cstr name).take title.length).take m := by rw [htitle]
  rw [e2, List.take_take, List.take_take, Nat.min_eq_left hm1, Nat.min_eq_left hm2]

/-- The loop of `querySnapshot` is defined and makes exactly one listing request when some
title agrees with the path and no URL ends with a slash. -/
theorem querySnapshot_loop_defined (w : Nat) (backend : Backend) (st : State)
    (snapshot : Snapshot) (path : List Nat) (locations : List Location)
    (hag : ∃ L ∈ locations, agrees L.title path) (hurls : urlsWellFormed locations)
    (hsize : ∀ loc ∈ locations, loc.url.length + path.length + 1 < 2 ^ w) :
    ∃ st1 snapshot1 err uri,
      querySnapshot_loop w backend st snapshot path locations = some (st1, snapshot1, err) ∧
      st1 = { st with requests := st.requests ++ [uri] } := by
  induction locations with
  | nil =>
    obtain ⟨L, hL, _⟩ := hag
    simp at hL
  | cons loc rest ih =>
    by_cases hloc : agrees loc.title path
    · have h0 := (strncmp_title_iff loc.title path).mpr hloc
      simp only [querySnapshot_loop, h0, if_true]
      obtain ⟨hne, hnot⟩ := hurls loc (List.mem_cons_self _ _)
      obtain ⟨b, hlast⟩ : ∃ b, loc.url.getLast? = some b := by
        cases h : loc.url.getLast? with
        | none => exact absurd (List.getLast?_eq_none_iff.mp h) hne
        | some b => exact ⟨b, rfl⟩
      have hb : b ≠ 47 := by
        intro h47
        rw [h47] at hlast
        exact hnot hlast
      have hs := hsize loc (List.mem_cons_self _ _)
      have hsub : strlen (path.drop (min loc.title.length (strlen path))) ≤ path.length :=
        Nat.le_trans (strlen_le_length _) (by simp)
      exact querySnapshot_found_defined w backend st snapshot loc _ b hlast hb (by omega)
    · have hne : ¬ strncmp path loc.title (min loc.title.length (strlen path)) = 0 :=
        fun h => hloc ((strncmp_title_iff loc.title path).mp h)
      simp only [querySnapshot_loop, hne, if_false]
      apply ih
      · obtain ⟨L, hL, hLag⟩ := hag
        rcases List.mem_cons.mp hL with rfl | hL
        · exact absurd hLag hloc
        · exact ⟨L, hL, hLag⟩
      · exact fun l hl => hurls l (List.mem_cons_of_mem _ hl)
      · exact fun l hl => hsize l (List.mem_cons_of_mem _ hl)

/-- The number of listing requests of a query against a cached snapshot with entries whose
location matches the queried name. -/
theorem FsContentGetValue_request_count (w : Nat) (backend : Backend) (st : State)
    (fileName : List Nat) (fieldIndex : Int) (fieldValue : Memory) (maxLen : Nat)
    (last first : Nat) (L : Location) (data : List Nat)
    (hidx : 0 ≤ fieldIndex ∧ fieldIndex < FI_MAX) (hsep : fileName.headD 0 = 92)
    (hlast : strrchr fileName.tail 92 = some last)
    (hfirst : strchr fileName.tail 92 = some first)
    (hloc : st.cachedSnapshot.location = some L) (hmem : L ∈ st.locations)
    (htitle : ∀ b ∈ L.title, b ≠ 0)
    (hdata : st.cachedSnapshot.subPath.data = some data)
    (hlen : st.cachedSnapshot.subPath.len ≤ strlen data)
    (hent : st.cachedSnapshot.entries ≠ [])
    (hpre : (cstr (slashify fileName.tail)).take L.title.length = L.title)
    (hurls : urlsWellFormed st.locations)
    (hsize : ∀ loc ∈ st.locations, loc.url.length + fileName.length < 2 ^ w) :
    ∃ r new, FsContentGetValue w backend st fileName fieldIndex fieldValue maxLen = some r ∧
      r.state.requests = st.requests ++ new ∧
      new.length =
        if data.take st.cachedSnapshot.subPath.len =
            (cstr ((slashify fileName.tail).drop first)).take st.cachedSnapshot.subPath.len
        then 0 else 1 := by
  have hcall := FsContentGetValue_of_wellformed w backend st fileName fieldIndex fieldValue
    maxLen last first hidx hsep hlast hfirst
  have hiff := cacheReusable_eq_true_iff st.cachedSnapshot (slashify fileName.tail) first L hloc
    htitle (by intro d hd; rw [hdata] at hd; cases hd; exact hlen)
  have hnone := cacheReusable_ne_none st.cachedSnapshot (slashify fileName.tail) first L hloc
  by_cases hp : data.take st.cachedSnapshot.subPath.len =
      (cstr ((slashify fileName.tail).drop first)).take st.cachedSnapshot.subPath.len
  · have hre : cacheReusable st.cachedSnapshot (slashify fileName.tail) first = some true :=
      hiff.mpr ⟨hent, data, hdata, hpre, hp.symm⟩
    rw [hre] at hcall
    refine ⟨_, [], hcall, ?_, by simp [hp]⟩
    rw [FsContentGetValue_lookup_state]
    simp
  · have hre : cacheReusable st.cachedSnapshot (slashify fileName.tail) first = some false := by
      cases h : cacheReusable st.cachedSnapshot (slashify fileName.tail) first with
      | none => exact absurd h hnone
      | some b =>
        cases b with
        | false => rfl
        | true =>
          obtain ⟨_, d, hd, _, hs⟩ := hiff.mp h
          rw [hdata] at hd
          cases hd
          exact absurd hs.symm hp
    rw [hre] at hcall
    have hfn : fileName.length = fileName.tail.length + 1 := by
      cases fileName with
      | nil => simp at hsep
      | cons x t => simp
    have hagree : ∃ L1 ∈ st.locations, agrees L1.title ((slashify fileName.tail).set (last + 1) 0) :=
      ⟨L, hmem, agrees_of_take L.title (slashify fileName.tail) _ (last + 1) hpre
        (cstr_set_zero _ _)⟩
    obtain ⟨st1, snapshot1, err, uri, hq, hst1⟩ :=
      querySnapshot_loop_defined w backend st (destroySnapshot st.cachedSnapshot)
        ((slashify fileName.tail).set (last + 1) 0) st.locations hagree hurls
        (by
          intro loc hl
          have := hsize loc hl
          simp only [List.length_set, slashify, length_replaceAll]
          omega)
    have hq1 : querySnapshot w backend st (destroySnapshot st.cachedSnapshot)
        ((slashify fileName.tail).set (last + 1) 0) = some (st1, snapshot1, err) := hq
    simp only [hq1] at hcall
    cases err with
    | some e =>
      simp only at hcall
      refine ⟨_, [uri], hcall, ?_, by simp [hp]⟩
      cases e.message with
      | none => simp [hst1]
      | some m => simp [hst1, displayErrorMessage]
    | none =>
      simp only at hcall
      refine ⟨_, [uri], hcall, ?_, by simp [hp]⟩
      rw [FsContentGetValue_lookup_state]
      simp [hst1]

/-- Claim C7, amended.  For every location and every cached snapshot of it with at least one
entry, a query through the cache check of `FsContentGetValue` for a name that starts with the
title of the location makes no listing request when the cached sub-path is a byte-prefix of
the separator-normalised tail of the name, and exactly one otherwise (registry URLs not ending
with a slash, lengths within `size_t`).  In the example, after the listing of `\root\a\b` was
fetched and cached, the query for `\root\a\b\c\g` makes no second request and the query for
`\root\a\x\g` makes one. -/
theorem second_query_requests_by_prefix_rule :
    (∀ (w : Nat) (backend : Backend) (st : State) (fileName : List Nat) (fieldIndex : Int)
      (fieldValue : Memory) (maxLen : Nat) (last first : Nat) (L : Location) (data : List Nat),
      0 ≤ fieldIndex ∧ fieldIndex < FI_MAX → fileName.headD 0 = 92 →
      strrchr fileName.tail 92 = some last → strchr fileName.tail 92 = some first →
      st.cachedSnapshot.location = some L → L ∈ st.locations → (∀ b ∈ L.title, b ≠ 0) →
      st.cachedSnapshot.subPath.data = some data →
      st.cachedSnapshot.subPath.len ≤ strlen data →
      st.cachedSnapshot.entries ≠ [] →
      (cstr (slashify fileName.tail)).take L.title.length = L.title →
      urlsWellFormed st.locations →
      (∀ loc ∈ st.locations, loc.url.length + fileName.length < 2 ^ w) →
      ∃ r new, FsContentGetValue w backend st fileName fieldIndex fieldValue maxLen = some r ∧
        r.state.requests = st.requests ++ new ∧
        new.length =
          if data.take st.cachedSnapshot.subPath.len =
              (cstr ((slashify fileName.tail).drop first)).take st.cachedSnapshot.subPath.len
          then 0 else 1) ∧
    (FsContentGetValue 32 exampleBackend (initialState exampleLocations)
        (hostPath ["root", "a", "b", "f"]) 0 (fun _ => 0) 16).map (fun r => r.state) =
      some abCached ∧
    (FsContentGetValue 32 exampleBackend abCached (hostPath ["root", "a", "b", "c", "g"]) 0
        (fun _ => 0) 16).map (fun r => r.state.requests) =
      some [some (bytes "svn://h/r/a/b")] ∧
    (FsContentGetValue 32 exampleBackend abCached (hostPath ["root", "a", "x", "g"]) 0
        (fun _ => 0) 16).map (fun r => r.state.requests) =
      some [some (bytes "svn://h/r/a/b"), some (bytes "svn://h/r/a/x")] :=
  ⟨fun w backend st fileName fieldIndex fieldValue maxLen last first L data hidx hsep hlast hfirst
      hloc hmem htitle hdata hlen hent hpre hurls hsize =>
    FsContentGetValue_request_count w backend st fileName fieldIndex fieldValue maxLen last first
      L data hidx hsep hlast hfirst hloc hmem htitle hdata hlen hent hpre hurls hsize,
    by decide, by decide, by decide⟩

/-- Witness of `second_query_requests_by_prefix_rule`: with the listing of `\root\a\b` cached, the
query for `\root\a\x\g` makes one listing request. -/
theorem second_query_requests_by_prefix_rule_witness :
    ∃ r new, FsContentGetValue 32 exampleBackend abCached (hostPath ["root", "a", "x", "g"]) 0
        (fun _ => 0) 16 = some r ∧
      r.state.requests = abCached.requests ++ new ∧ new.length = 1 :=
  second_query_requests_by_prefix_rule.1 32 exampleBackend abCached (hostPath ["root", "a", "x", "g"])
    0 (fun _ => 0) 16 8 4 rootLocation (bytes "/a/b/") (by decide) (by decide) (by decide)
    (by decide) rfl (by decide) (by decide) rfl (by decide) (by decide) (by decide) (by decide)
    (by decide)

/-- Counterexample to claim C7 as stated.  After `FsContentGetValue` has fetched and cached
the listing of the directory `\Repo1\empty`, which has no entry, the cached sub-path `/empty`
is a byte-prefix of the tail of `\Repo1\empty\c\g`, and yet the query for that name makes a
listing request of its own. -/
theorem second_query_refetches_after_empty_listing :
    (FsContentGetValue 32 exampleBackend (initialState exampleLocations)
        (hostPath ["Repo1", "empty", "f"]) 0 (fun _ => 0) 16).map (fun r => r.state) =
      some emptyDirCached ∧
    emptyDirCached.cachedSnapshot.subPath = { data := some (bytes "/empty/"), len := 6 } ∧
    (bytes "/empty/").take 6 =
      (cstr ((slashify (hostPath ["Repo1", "empty", "c", "g"]).tail).drop 5)).take 6 ∧
    (FsContentGetValue 32 exampleBackend emptyDirCached (hostPath ["Repo1", "empty", "c", "g"]) 0
        (fun _ => 0) 16).map (fun r => r.state.requests) =
      some [some (bytes "svn://h/a/empty"), some (bytes "svn://h/a/empty/c")] :=
  ⟨by decide, rfl, by decide, by decide⟩

/-! ## Claims on FsFindFirst, FsFindClose and the cache -/

/-- Claim C8, evaluated at a failing input.  With `Repo1` for `svn://h/a` and a directory
`\Repo1\dir` that lists two files, `FsFindFirst` on `\Repo1\dir` succeeds with one listing
request and `FsFindClose` moves its snapshot into the cache, with the sub-path `\dir` as the
host wrote it.  The following `FsContentGetValue` for `\Repo1\dir\file.txt` compares that
sub-path with the normalised tail `/dir/file.txt`, misses, and makes a second listing request
for the same URI.  For the top directory `\Repo1` of the location, whose sub-path is empty, the
same calls make no second request. -/
theorem nested_listing_refetched_after_close :
    (openAndClose 32 exampleBackend (initialState exampleLocations)
        (hostPath ["Repo1", "dir"])).map
        (fun st => (st.cachedSnapshot.location, st.cachedSnapshot.subPath,
          st.cachedSnapshot.entries.map (fun obj => obj.name), st.requests)) =
      some (some repo1, { data := some (92 :: bytes "dir" ++ [0]), len := 4 },
        [bytes "other.txt", bytes "file.txt"], [some (bytes "svn://h/a/dir")]) ∧
    ((openAndClose 32 exampleBackend (initialState exampleLocations)
        (hostPath ["Repo1", "dir"])).bind
        (fun st => FsContentGetValue 32 exampleBackend st (hostPath ["Repo1", "dir", "file.txt"])
          0 (fun _ => 0) 16)).map (fun r => (r.ret, r.longValue, r.state.requests)) =
      some (FT_NUMERIC_32, some 4,
        [some (bytes "svn://h/a/dir"), some (bytes "svn://h/a/dir")]) ∧
    ((openAndClose 32 exampleBackend (initialState exampleLocations) (hostPath ["Repo1"])).bind
        (fun st => FsContentGetValue 32 exampleBackend st (hostPath ["Repo1", "file.txt"])
          0 (fun _ => 0) 16)).map (fun r => (r.ret, r.longValue, r.state.requests)) =
      some (FT_NUMERIC_32, some 9, [some (bytes "svn://h/a")]) :=
  ⟨by rfl, by decide, by decide⟩
/-- A miss of the cache test makes exactly one listing request when some title agrees with
the directory part of the name and no URL ends with a slash. -/
theorem FsContentGetValue_miss_requests (w : Nat) (backend : Backend) (st : State)
    (fileName : List Nat) (fieldIndex : Int) (fieldValue : Memory) (maxLen : Nat)
    (last first : Nat) (L : Location)
    (hidx : 0 ≤ fieldIndex ∧ fieldIndex < FI_MAX) (hsep : fileName.headD 0 = 92)
    (hlast : strrchr fileName.tail 92 = some last)
    (hfirst : strchr fileName.tail 92 = some first)
    (hmiss : cacheReusable st.cachedSnapshot (slashify fileName.tail) first = some false)
    (hmem : L ∈ st.locations)
    (hpre : (cstr (slashify fileName.tail)).take L.title.length = L.title)
    (hurls : urlsWellFormed st.locations)
    (hsize : ∀ loc ∈ st.locations, loc.url.length + fileName.length < 2 ^ w) :
    ∃ r uri, FsContentGetValue w backend st fileName fieldIndex fieldValue maxLen = some r ∧
      r.state.requests = st.requests ++ [uri] := by
  have hcall := FsContentGetValue_of_wellformed w backend st fileName fieldIndex fieldValue
    maxLen last first hidx hsep hlast hfirst
  rw [hmiss] at hcall
  have hfn : fileName.length = fileName.tail.length + 1 := by
    cases fileName with
    | nil => simp at hsep
    | cons x t => simp
  have hagree : ∃ L1 ∈ st.locations, agrees L1.title ((slashify fileName.tail).set (last + 1) 0) :=
    ⟨L, hmem, agrees_of_take L.title (slashify fileName.tail) _ (last + 1) hpre
      (cstr_set_zero _ _)⟩
  obtain ⟨st1, snapshot1, err, uri, hq, hst1⟩ :=
    querySnapshot_loop_defined w backend st (destroySnapshot st.cachedSnapshot)
      ((slashify fileName.tail).set (last + 1) 0) st.locations hagree hurls
      (by
        intro loc hl
        have := hsize loc hl
        simp only [List.length_set, slashify, length_replaceAll]
        omega)
  have hq1 : querySnapshot w backend st (destroySnapshot st.cachedSnapshot)
      ((slashify fileName.tail).set (last + 1) 0) = some (st1, snapshot1, err) := hq
  simp only [hq1] at hcall
  cases err with
  | some e =>
    simp only at hcall
    refine ⟨_, uri, hcall, ?_⟩
    cases e.message with
    | none => simp [hst1]
    | some m => simp [hst1, displayErrorMessage]
  | none =>
    simp only at hcall
    refine ⟨_, uri, hcall, ?_⟩
    rw [FsContentGetValue_lookup_state]
    simp [hst1]

/-- Claim C9, amended.  `FsFindClose` on a nested handle leaves in the cache exactly the
location, the sub-path and the entries of the handle's snapshot, whatever the cache held.  A
following `FsContentGetValue` for a file of the same location makes a new listing request
whenever the sub-path recorded in the handle is not a byte-prefix of the separator-normalised
tail of the file name (registry URLs not ending with a slash, lengths within `size_t`). -/
theorem close_replaces_cache_and_other_path_refetches :
    (∀ (st : State) (snapshot : Snapshot),
      FsFindClose st (HANDLE.nested snapshot) =
        some { st with
          cachedSnapshot :=
            { location := snapshot.location, subPath := snapshot.subPath,
              entries := snapshot.entries, current := st.cachedSnapshot.current } }) ∧
    (∀ (w : Nat) (backend : Backend) (st : State) (snapshot : Snapshot) (fileName : List Nat)
      (fieldIndex : Int) (fieldValue : Memory) (maxLen : Nat) (last first : Nat) (L : Location)
      (data : List Nat),
      0 ≤ fieldIndex ∧ fieldIndex < FI_MAX → fileName.headD 0 = 92 →
      strrchr fileName.tail 92 = some last → strchr fileName.tail 92 = some first →
      snapshot.location = some L → L ∈ st.locations → (∀ b ∈ L.title, b ≠ 0) →
      snapshot.subPath.data = some data → snapshot.subPath.len ≤ strlen data →
      (cstr (slashify fileName.tail)).take L.title.length = L.title →
      data.take snapshot.subPath.len ≠
        (cstr ((slashify fileName.tail).drop first)).take snapshot.subPath.len →
      urlsWellFormed st.locations →
      (∀ loc ∈ st.locations, loc.url.length + fileName.length < 2 ^ w) →
      ∃ st1 r uri, FsFindClose st (HANDLE.nested snapshot) = some st1 ∧
        FsContentGetValue w backend st1 fileName fieldIndex fieldValue maxLen = some r ∧
        r.state.requests = st.requests ++ [uri]) := by
  refine ⟨fun st snapshot => rfl, ?_⟩
  intro w backend st snapshot fileName fieldIndex fieldValue maxLen last first L data hidx hsep
    hlast hfirst hloc hmem htitle hdata hlen hpre hne hurls hsize
  have hmiss : cacheReusable
      { location := snapshot.location, subPath := snapshot.subPath,
        entries := snapshot.entries, current := st.cachedSnapshot.current }
      (slashify fileName.tail) first = some false := by
    cases h : cacheReusable
        { location := snapshot.location, subPath := snapshot.subPath,
          entries := snapshot.entries, current := st.cachedSnapshot.current }
        (slashify fileName.tail) first with
    | none =>
      exact absurd h (cacheReusable_ne_none _ _ _ L hloc)
    | some b =>
      cases b with
      | false => rfl
      | true =>
        obtain ⟨_, d, hd, _, hs⟩ := (cacheReusable_eq_true_iff _ (slashify fileName.tail) first L
          hloc htitle (by intro d hd; rw [hdata] at hd; cases hd; exact hlen)).mp h
        rw [hdata] at hd
        cases hd
        exact absurd hs.symm hne
  obtain ⟨r, uri, hr, hreq⟩ := FsContentGetValue_miss_requests w backend
    { st with
      cachedSnapshot :=
        { location := snapshot.location, subPath := snapshot.subPath,
          entries := snapshot.entries, current := st.cachedSnapshot.current } }
    fileName fieldIndex fieldValue maxLen last first L hidx hsep hlast hfirst hmiss hmem hpre
    hurls hsize
  exact ⟨_, r, uri, rfl, hr, hreq⟩

/-- Witness of `close_replaces_cache_and_other_path_refetches`: after the handle of
`\Repo1\dir` is closed, the query for `\Repo1\empty\f` makes a listing request. -/
theorem close_replaces_cache_and_other_path_refetches_witness :
    (FsFindFirst 32 exampleBackend (initialState exampleLocations) (hostPath ["Repo1", "dir"])
        zeroFindData).map (fun r => r.2.1) = some (HANDLE.nested dirHandleSnapshot) ∧
    ∃ st1 r uri,
      FsFindClose (initialState exampleLocations) (HANDLE.nested dirHandleSnapshot) = some st1 ∧
      FsContentGetValue 32 exampleBackend st1 (hostPath ["Repo1", "empty", "f"]) 0 (fun _ => 0)
        16 = some r ∧
      r.state.requests = (initialState exampleLocations).requests ++ [uri] :=
  ⟨by rfl,
    close_replaces_cache_and_other_path_refetches.2 32 exampleBackend
      (initialState exampleLocations) dirHandleSnapshot (hostPath ["Repo1", "empty", "f"]) 0
      (fun _ => 0) 16 11 5 repo1 (92 :: bytes "dir" ++ [0]) (by decide) (by decide) (by decide)
      (by decide) rfl (by decide) (by decide) rfl (by decide) (by decide) (by decide) (by decide)
      (by decide)⟩

/-- Counterexample to claim C9 as stated.  The cache holds the snapshot of `P = \Repo1\dir`,
where `file.txt` has revision 4.  A handle on `Q = \Repo1`, the top directory of the same
location with the empty sub-path, is opened and closed.  The following `FsContentGetValue` for
`\Repo1\dir\file.txt`, a file in `P`, makes no new listing request: the empty sub-path is a
byte-prefix of every tail, so the file is looked up in the listing of `Q`, whose `file.txt`
has revision 9. -/
theorem close_of_top_directory_answers_other_path :
    (FsContentGetValue 32 exampleBackend (initialState exampleLocations)
        (hostPath ["Repo1", "dir", "file.txt"]) 0 (fun _ => 0) 16).map
        (fun r => (r.state.cachedSnapshot.subPath, r.longValue, r.state.requests)) =
      some ({ data := some (bytes "/dir/"), len := 4 }, some 4, [some (bytes "svn://h/a/dir")]) ∧
    ((FsContentGetValue 32 exampleBackend (initialState exampleLocations)
        (hostPath ["Repo1", "dir", "file.txt"]) 0 (fun _ => 0) 16).bind
        (fun r0 => openAndClose 32 exampleBackend r0.state (hostPath ["Repo1"]))).map
        (fun st => (st.cachedSnapshot.subPath, st.requests)) =
      some ({ data := some [0], len := 0 },
        [some (bytes "svn://h/a/dir"), some (bytes "svn://h/a")]) ∧
    ((FsContentGetValue 32 exampleBackend (initialState exampleLocations)
        (hostPath ["Repo1", "dir", "file.txt"]) 0 (fun _ => 0) 16).bind
        (fun r0 => (openAndClose 32 exampleBackend r0.state (hostPath ["Repo1"])).bind
          (fun st1 => FsContentGetValue 32 exampleBackend st1
            (hostPath ["Repo1", "dir", "file.txt"]) 0 (fun _ => 0) 16))).map
        (fun r => (r.longValue, r.state.requests)) =
      some (some 9, [some (bytes "svn://h/a/dir"), some (bytes "svn://h/a")]) :=
  ⟨by rfl, by rfl, by rfl⟩

/-- The body of `querySnapshot` does not read the cached snapshot of the state. -/
theorem querySnapshot_found_cache (w : Nat) (backend : Backend) (st : State) (c : Snapshot)
    (snapshot : Snapshot) (loc : Location) (sub : List Nat) :
    querySnapshot_found w backend { st with cachedSnapshot := c } snapshot loc sub =
      (querySnapshot_found w backend st snapshot loc sub).map
        (fun r => ({ r.1 with cachedSnapshot := c }, r.2)) := by
  unfold querySnapshot_found
  simp only
  split
  · rfl
  · split
    · rfl
    · split <;> rfl

theorem querySnapshot_loop_cache (w : Nat) (backend : Backend) (st : State) (c : Snapshot)
    (snapshot : Snapshot) (path : List Nat) (locations : List Location) :
    querySnapshot_loop w backend { st with cachedSnapshot := c } snapshot path locations =
      (querySnapshot_loop w backend st snapshot path locations).map
        (fun r => ({ r.1 with cachedSnapshot := c }, r.2)) := by
  induction locations with
  | nil => rfl
  | cons loc rest ih =>
    simp only [querySnapshot_loop]
    split
    · exact querySnapshot_found_cache w backend st c snapshot loc _
    · exact ih

/-- What `FsFindFirst` does for a path below the root. -/
theorem FsFindFirst_nested (w : Nat) (backend : Backend) (st : State) (path : List Nat)
    (findData : WIN32_FIND_DATA) (hsep : path.headD 0 = 92) (hnested : path.tail.headD 0 ≠ 0) :
    FsFindFirst w backend st path findData =
      match querySnapshot w backend st emptySnapshot path.tail with
      | none => none
      | some (st1, _, some err) =>
        match err.message with
        | some message =>
          some ({ st1 with messages := st1.messages ++ [errorText w message err.child] },
            HANDLE.invalid, zeroFindData)
        | none => some (st1, HANDLE.invalid, zeroFindData)
      | some (st1, snapshot, none) =>
        match snapshot.entries with
        | first :: rest =>
          some (st1, HANDLE.nested { snapshot with current := rest },
            getSvnNode w first zeroFindData)
        | [] =>
          some ({ st1 with lastError := ERROR_NO_MORE_FILES }, HANDLE.invalid, zeroFindData) := by
  unfold FsFindFirst
  simp only [hsep, ne_eq, not_true_eq_false, if_false, hnested, not_false_eq_true, if_true]

/-- The function `FsFindFirst` does not read the cached snapshot and does not change it. -/
theorem FsFindFirst_cache (w : Nat) (backend : Backend) (st : State) (c : Snapshot)
    (path : List Nat) (findData : WIN32_FIND_DATA) :
    FsFindFirst w backend { st with cachedSnapshot := c } path findData =
      (FsFindFirst w backend st path findData).map
        (fun r => ({ r.1 with cachedSnapshot := c }, r.2)) := by
  by_cases hsep : path.headD 0 = 92
  · by_cases hnested : path.tail.headD 0 ≠ 0
    · rw [FsFindFirst_nested w backend _ path findData hsep hnested,
        FsFindFirst_nested w backend st path findData hsep hnested]
      have hq := querySnapshot_loop_cache w backend st c emptySnapshot path.tail st.locations
      have hq1 : querySnapshot w backend { st with cachedSnapshot := c } emptySnapshot path.tail =
          (querySnapshot w backend st emptySnapshot path.tail).map
            (fun r => ({ r.1 with cachedSnapshot := c }, r.2)) := hq
      rw [hq1]
      cases hres : querySnapshot w backend st emptySnapshot path.tail with
      | none => rfl
      | some r =>
        obtain ⟨st1, snapshot, err⟩ := r
        cases err with
        | some e =>
          simp only [Option.map_some']
          cases e.message <;> rfl
        | none =>
          simp only [Option.map_some']
          cases snapshot.entries <;> rfl
    · unfold FsFindFirst
      simp only [hsep, ne_eq, not_true_eq_false, if_false, hnested, Option.map_some']
  · unfold FsFindFirst
    simp only [ne_eq, hsep, not_false_eq_true, if_true, Option.map_some']

/-- A nested `FsFindFirst` makes exactly one listing request when some title agrees with the
path and no URL ends with a slash. -/
theorem FsFindFirst_nested_requests (w : Nat) (backend : Backend) (st : State)
    (path : List Nat) (findData : WIN32_FIND_DATA) (hsep : path.headD 0 = 92)
    (hnested : path.tail.headD 0 ≠ 0) (hag : ∃ L ∈ st.locations, agrees L.title path.tail)
    (hurls : urlsWellFormed st.locations)
    (hsize : ∀ loc ∈ st.locations, loc.url.length + path.length < 2 ^ w) :
    ∃ r uri, FsFindFirst w backend st path findData = some r ∧
      r.1.requests = st.requests ++ [uri] ∧ r.1.cachedSnapshot = st.cachedSnapshot := by
  have hlen : path.length = path.tail.length + 1 := by
    cases path with
    | nil => simp at hsep
    | cons x t => simp
  obtain ⟨st1, snapshot1, err, uri, hq, hst1⟩ :=
    querySnapshot_loop_defined w backend st emptySnapshot path.tail st.locations hag hurls
      (by intro loc hl; have := hsize loc hl; omega)
  have hq1 : querySnapshot w backend st emptySnapshot path.tail = some (st1, snapshot1, err) := hq
  rw [FsFindFirst_nested w backend st path findData hsep hnested, hq1]
  cases err with
  | some e =>
    simp only
    cases hm : e.message with
    | none => exact ⟨_, uri, rfl, by simp [hst1], by simp [hst1]⟩
    | some m => exact ⟨_, uri, rfl, by simp [hst1], by simp [hst1]⟩
  | none =>
    simp only
    cases he : snapshot1.entries with
    | nil => exact ⟨_, uri, rfl, by simp [hst1], by simp [hst1]⟩
    | cons first rest => exact ⟨_, uri, rfl, by simp [hst1], by simp [hst1]⟩

/-- Claim C10, amended.  `FsFindFirst` on a non-root path never consults the cache: its result
is the same whatever the retained cache snapshot holds, it leaves that snapshot as it is, and
whenever the title of some location agrees with the path it makes exactly one listing request
(registry URLs not ending with a slash, lengths within `size_t`).  Only `FsContentGetValue`
tests the cache before it asks the backend. -/
theorem FsFindFirst_always_requests :
    (∀ (w : Nat) (backend : Backend) (st : State) (c : Snapshot) (path : List Nat)
      (findData : WIN32_FIND_DATA),
      FsFindFirst w backend { st with cachedSnapshot := c } path findData =
        (FsFindFirst w backend st path findData).map
          (fun r => ({ r.1 with cachedSnapshot := c }, r.2))) ∧
    (∀ (w : Nat) (backend : Backend) (st : State) (path : List Nat)
      (findData : WIN32_FIND_DATA),
      path.headD 0 = 92 → path.tail.headD 0 ≠ 0 →
      (∃ L ∈ st.locations, agrees L.title path.tail) →
      urlsWellFormed st.locations →
      (∀ loc ∈ st.locations, loc.url.length + path.length < 2 ^ w) →
      ∃ r uri, FsFindFirst w backend st path findData = some r ∧
        r.1.requests = st.requests ++ [uri] ∧ r.1.cachedSnapshot = st.cachedSnapshot) :=
  ⟨FsFindFirst_cache, FsFindFirst_nested_requests⟩

/-- Witness of `FsFindFirst_always_requests`: with the listing of `\root\a\b` in the cache,
`FsFindFirst` on `\root\a\b` makes a listing request. -/
theorem FsFindFirst_always_requests_witness :
    ∃ r uri, FsFindFirst 32 exampleBackend abCached (hostPath ["root", "a", "b"]) zeroFindData =
        some r ∧
      r.1.requests = abCached.requests ++ [uri] ∧ r.1.cachedSnapshot = abCached.cachedSnapshot :=
  FsFindFirst_always_requests.2 32 exampleBackend abCached (hostPath ["root", "a", "b"])
    zeroFindData (by decide) (by decide) ⟨rootLocation, by decide, by decide⟩ (by decide)
    (by decide)

/-- Counterexample to claim C10 as stated.  After `\Repo1\dir` was enumerated and its handle
closed, the cache holds the listing for the location `Repo1` and the sub-path `\dir`, which
are the location and the sub-path that `FsFindFirst` on `\Repo1\dir` resolves to.  A second
`FsFindFirst` on `\Repo1\dir` still makes a listing request. -/
theorem FsFindFirst_requests_despite_cached_listing :
    (openAndClose 32 exampleBackend (initialState exampleLocations)
        (hostPath ["Repo1", "dir"])).map
        (fun st => (st.cachedSnapshot.location, st.cachedSnapshot.subPath,
          st.cachedSnapshot.entries, st.requests)) =
      some (dirHandleSnapshot.location, dirHandleSnapshot.subPath, dirHandleSnapshot.entries,
        [some (bytes "svn://h/a/dir")]) ∧
    ((openAndClose 32 exampleBackend (initialState exampleLocations)
        (hostPath ["Repo1", "dir"])).bind
        (fun st => FsFindFirst 32 exampleBackend st (hostPath ["Repo1", "dir"])
          zeroFindData)).map (fun r => (r.2.1, r.1.requests)) =
      some (HANDLE.nested dirHandleSnapshot,
        [some (bytes "svn://h/a/dir"), some (bytes "svn://h/a/dir")]) :=
  ⟨by rfl, by rfl⟩

/-! ## Claims on the first checks and the file name buffer of FsContentGetValue -/

theorem strchr_eq_none_of_not_mem (s : List Nat) (c : Nat) (hc : c ≠ 0) (h : c ∉ cstr s) :
    strchr s c = none := by
  induction s with
  | nil => simp [strchr, hc]
  | cons x s ih =>
    by_cases hx : x = 0
    · have hxc : ¬ x = c := fun e => hc (by rw [← e, hx])
      simp [strchr, hx, hxc]
      intro e
      exact hc e.symm
    · rw [cstr_cons] at h
      simp only [hx, if_false, List.mem_cons, not_or] at h
      have hxc : ¬ x = c := fun e => h.1 e.symm
      simp [strchr, hx, hxc, ih h.2]

/-- Claim C17.  `FsContentGetValue` returns `FT_NOSUCHFIELD` whenever the field index is
neither 0 nor 1, or the file name does not begin with a backslash, or the name has no further
backslash after the leading one; in each of these cases it makes no listing request and shows
no message, and leaves the state with the cached snapshot, the file name buffer and the value
buffer as they were. -/
theorem FsContentGetValue_no_such_field (w : Nat) (backend : Backend) (st : State)
    (fileName : List Nat) (fieldIndex : Int) (fieldValue : Memory) (maxLen : Nat)
    (h : (fieldIndex ≠ 0 ∧ fieldIndex ≠ 1) ∨ fileName.headD 0 ≠ 92 ∨ 92 ∉ cstr fileName.tail) :
    FsContentGetValue w backend st fileName fieldIndex fieldValue maxLen =
      some { state := st, fileName := fileName, ret := FT_NOSUCHFIELD, longValue := none,
             fieldValue := fieldValue } := by
  unfold FsContentGetValue
  simp only
  by_cases h1 : fieldIndex < 0 ∨ fieldIndex ≥ FI_MAX ∨ fileName.headD 0 ≠ 92
  · simp only [h1, if_true]
  · simp only [h1, if_false]
    have hsep : 92 ∉ cstr fileName.tail := by
      rcases h with h | h | h
      · exfalso
        apply h1
        unfold FI_MAX
        omega
      · exact absurd (Or.inr (Or.inr h)) h1
      · exact h
    rw [strchr_eq_none_of_not_mem fileName.tail 92 (by decide) hsep]
    cases strrchr fileName.tail 92 <;> rfl

/-- Witness of `FsContentGetValue_no_such_field`: the name `\file.txt` has no second
separator. -/
theorem FsContentGetValue_no_such_field_witness :
    (92 ∉ cstr (hostPath ["file.txt"]).tail) ∧
    FsContentGetValue 32 exampleBackend abCached (hostPath ["file.txt"]) 0 (fun _ => 0) 16 =
      some { state := abCached, fileName := hostPath ["file.txt"], ret := FT_NOSUCHFIELD,
             longValue := none, fieldValue := fun _ => 0 } :=
  ⟨by decide,
    FsContentGetValue_no_such_field 32 exampleBackend abCached (hostPath ["file.txt"]) 0
      (fun _ => 0) 16 (Or.inr (Or.inr (by decide)))⟩

theorem strchr_isSome_of_mem (s : List Nat) (c : Nat) (h : c ∈ cstr s) :
    ∃ i, strchr s c = some i := by
  induction s with
  | nil => simp [cstr_nil] at h
  | cons x s ih =>
    by_cases hx : x = 0
    · simp [cstr_cons, hx] at h
    · rw [cstr_cons] at h
      simp only [hx, if_false, List.mem_cons] at h
      by_cases hxc : x = c
      · exact ⟨0, by simp [strchr, hxc]⟩
      · have hc : c ∈ cstr s := by
          rcases h with h | h
          · exact absurd h.symm hxc
          · exact h
        obtain ⟨i, hi⟩ := ih hc
        exact ⟨i + 1, by simp [strchr, hxc, hx, hi]⟩

theorem strrchr_isSome_of_mem (s : List Nat) (c : Nat) (h : c ∈ cstr s) :
    ∃ i, strrchr s c = some i := by
  induction s with
  | nil => simp [cstr_nil] at h
  | cons x s ih =>
    by_cases hx : x = 0
    · simp [cstr_cons, hx] at h
    · rw [cstr_cons] at h
      simp only [hx, if_false, List.mem_cons] at h
      cases hrest : strrchr s c with
      | some i => exact ⟨i + 1, by simp [strrchr, hx, hrest]⟩
      | none =>
        have hxc : x = c := by
          rcases h with h | h
          · exact h.symm
          · obtain ⟨i, hi⟩ := ih h
            rw [hrest] at hi
            exact absurd hi (by simp)
        exact ⟨0, by simp [strrchr, hx, hrest, hxc]⟩

theorem FsContentGetValue_lookup_fileName (w : Nat) (st : State) (snapshot : Snapshot)
    (fileName : List Nat) (baseFileName : Nat) (fieldIndex : Int) (fieldValue : Memory)
    (maxLen : Nat) :
    (FsContentGetValue_lookup w st snapshot fileName baseFileName fieldIndex fieldValue
        maxLen).fileName = 92 :: fileName := by
  unfold FsContentGetValue_lookup
  simp only
  split
  · rfl
  · split
    · rfl
    · split <;> rfl

/-- A string with a backslash before its terminating zero is changed by `slashify`. -/
theorem slashify_ne_of_mem (s : List Nat) (h : 92 ∈ cstr s) : slashify s ≠ s := by
  induction s with
  | nil => simp [cstr_nil] at h
  | cons x s ih =>
    by_cases hx : x = 0
    · simp [cstr_cons, hx] at h
    · rw [cstr_cons] at h
      simp only [hx, if_false, List.mem_cons] at h
      by_cases hx92 : x = 92
      · simp [slashify, replaceAll, hx92]
      · have hs : 92 ∈ cstr s := by
          rcases h with h | h
          · exact absurd h.symm hx92
          · exact h
        have := ih hs
        simp only [slashify] at this
        simp [slashify, replaceAll, hx, hx92, this]

/-- Claim C16, amended.  When `FsContentGetValue` passes its first checks (field index 0 or 1,
a leading backslash and a further backslash in the name), then on every return path (cache hit,
cache miss with successful fetch, fetch failure, name not found) it leaves in the file name
buffer the leading backslash followed by the slashified rest of the name: the byte at the start
of the base name, replaced by zero for the query, is restored, but every backslash after the
first byte stays a slash, so the buffer is not as it was before the call. -/
theorem FsContentGetValue_leaves_name_slashified (w : Nat) (backend : Backend) (st : State)
    (fileName : List Nat) (fieldIndex : Int) (fieldValue : Memory) (maxLen : Nat)
    (r : GetValueResult) (hidx : fieldIndex = 0 ∨ fieldIndex = 1)
    (hsep : fileName.headD 0 = 92) (hmem : 92 ∈ cstr fileName.tail)
    (hr : FsContentGetValue w backend st fileName fieldIndex fieldValue maxLen = some r) :
    r.fileName = 92 :: slashify fileName.tail ∧ r.fileName ≠ fileName := by
  have hidx1 : 0 ≤ fieldIndex ∧ fieldIndex < FI_MAX := by
    unfold FI_MAX
    omega
  obtain ⟨first, hfirst⟩ := strchr_isSome_of_mem fileName.tail 92 hmem
  obtain ⟨last, hlast⟩ := strrchr_isSome_of_mem fileName.tail 92 hmem
  have hname : r.fileName = 92 :: slashify fileName.tail := by
    rw [FsContentGetValue_of_wellformed w backend st fileName fieldIndex fieldValue maxLen last
      first hidx1 hsep hlast hfirst] at hr
    split at hr
    · exact absurd hr (by simp)
    · simp only [Option.some.injEq] at hr
      rw [← hr, FsContentGetValue_lookup_fileName]
    · split at hr
      · exact absurd hr (by simp)
      · simp only [Option.some.injEq] at hr
        rw [← hr]
      · simp only [Option.some.injEq] at hr
        rw [← hr, FsContentGetValue_lookup_fileName]
  refine ⟨hname, ?_⟩
  rw [hname]
  cases fileName with
  | nil => simp at hsep
  | cons x t =>
    simp only [List.tail_cons] at hmem ⊢
    intro heq
    simp only [List.cons.injEq] at heq
    exact slashify_ne_of_mem t hmem heq.2

/-- Witness of `FsContentGetValue_leaves_name_slashified`: the cache hit for `\root\a\b\f`. -/
theorem FsContentGetValue_leaves_name_slashified_witness :
    ∃ r, FsContentGetValue 32 exampleBackend abCached (hostPath ["root", "a", "b", "f"]) 0
        (fun _ => 0) 16 = some r ∧
      r.fileName = 92 :: bytes "root/a/b/f" ∧ r.fileName ≠ hostPath ["root", "a", "b", "f"] := by
  have hsome : (FsContentGetValue 32 exampleBackend abCached (hostPath ["root", "a", "b", "f"]) 0
      (fun _ => 0) 16).isSome = true := by rfl
  cases hr : FsContentGetValue 32 exampleBackend abCached (hostPath ["root", "a", "b", "f"]) 0
      (fun _ => 0) 16 with
  | none =>
    rw [hr] at hsome
    exact absurd hsome (by simp)
  | some r =>
    have h := FsContentGetValue_leaves_name_slashified 32 exampleBackend abCached
      (hostPath ["root", "a", "b", "f"]) 0 (fun _ => 0) 16 r (Or.inl rfl) (by decide)
      (by decide) hr
    exact ⟨r, rfl, h.1.trans (by decide), h.2⟩

/-- Counterexample to claim C16 as stated.  The file name buffer `\Repo1\dir\file.txt` holds
`\Repo1/dir/file.txt` after `FsContentGetValue`, on a cache miss with a successful fetch as well
as on the cache hit of the call that follows. -/
theorem FsContentGetValue_changes_fileName :
    (FsContentGetValue 32 exampleBackend (initialState exampleLocations)
        (hostPath ["Repo1", "dir", "file.txt"]) 0 (fun _ => 0) 16).map
        (fun r => (r.ret, r.fileName, r.state.requests)) =
      some (FT_NUMERIC_32, 92 :: bytes "Repo1/dir/file.txt", [some (bytes "svn://h/a/dir")]) ∧
    ((FsContentGetValue 32 exampleBackend (initialState exampleLocations)
        (hostPath ["Repo1", "dir", "file.txt"]) 0 (fun _ => 0) 16).bind
        (fun r0 => FsContentGetValue 32 exampleBackend r0.state
          (hostPath ["Repo1", "dir", "file.txt"]) 0 (fun _ => 0) 16)).map
        (fun r => (r.ret, r.fileName, r.state.requests)) =
      some (FT_NUMERIC_32, 92 :: bytes "Repo1/dir/file.txt", [some (bytes "svn://h/a/dir")]) ∧
    92 :: bytes "Repo1/dir/file.txt" ≠ hostPath ["Repo1", "dir", "file.txt"] :=
  ⟨by rfl, by rfl, by decide⟩

/-! ## Claims on replaceAll and FsFindNext -/

theorem strlen_replaceAll (s : List Nat) (oldVal newVal : Nat) (hnew : newVal ≠ 0) :
    strlen (replaceAll s oldVal newVal) = strlen s := by
  rw [← length_cstr, cstr_replaceAll s oldVal newVal hnew, List.length_map, length_cstr]

theorem replaceAll_round_trip (p : List Nat) (a b : Nat) (hb : b ≠ 0) (h : b ∉ cstr p) :
    replaceAll (replaceAll p a b) b a = p := by
  induction p with
  | nil => rfl
  | cons x p ih =>
    by_cases hx : x = 0
    · simp [replaceAll, hx]
    · rw [cstr_cons] at h
      simp only [hx, if_false, List.mem_cons, not_or] at h
      have hxb : ¬ x = b := fun e => h.1 e.symm
      by_cases hxa : x = a
      · subst hxa
        simp [replaceAll, hx, hb, ih h.2]
      · simp [replaceAll, hx, hxa, hxb, ih h.2]

/-- Claim C19.  For every zero-terminated string `p` without a slash, `slashify`, which is
`replaceAll(p, '\\', '/')`, followed by the inverse substitution `replaceAll(p, '/', '\\')`
gives `p` again; both steps keep the length of the string and the size of its buffer. -/
theorem slashify_then_inverse_is_identity (p : List Nat) (h : 47 ∉ cstr p) :
    replaceAll (slashify p) 47 92 = p ∧
    strlen (slashify p) = strlen p ∧ strlen (replaceAll (slashify p) 47 92) = strlen p ∧
    (slashify p).length = p.length ∧ (replaceAll (slashify p) 47 92).length = p.length := by
  refine ⟨replaceAll_round_trip p 92 47 (by decide) h, ?_, ?_, ?_, ?_⟩
  · exact strlen_replaceAll p 92 47 (by decide)
  · rw [strlen_replaceAll _ 47 92 (by decide)]
    exact strlen_replaceAll p 92 47 (by decide)
  · exact length_replaceAll p 92 47
  · rw [length_replaceAll]
    exact length_replaceAll p 92 47

/-- Witness of `slashify_then_inverse_is_identity`: the local name `c:\tmp\a.txt`. -/
theorem slashify_then_inverse_is_identity_witness :
    (47 ∉ cstr (bytes "c:" ++ hostPath ["tmp", "a.txt"])) ∧
    slashify (bytes "c:" ++ hostPath ["tmp", "a.txt"]) = bytes "c:/tmp/a.txt" ∧
    replaceAll (slashify (bytes "c:" ++ hostPath ["tmp", "a.txt"])) 47 92 =
      bytes "c:" ++ hostPath ["tmp", "a.txt"] :=
  ⟨by decide, by decide,
    (slashify_then_inverse_is_identity (bytes "c:" ++ hostPath ["tmp", "a.txt"]) (by decide)).1⟩

/-- Claim C20, amended.  For a nested handle, when `FsFindNext` reports exhaustion it resets
the cursor to the first entry of the snapshot: the next `FsFindNext` call on the same handle
yields the first entry again and returns TRUE when the snapshot has an entry, and reports
exhaustion again only when the snapshot has none. -/
theorem FsFindNext_exhaustion_resets_cursor (w : Nat) (st : State) (snapshot : Snapshot)
    (findData : WIN32_FIND_DATA) (hcur : snapshot.current = []) :
    FsFindNext w st (HANDLE.nested snapshot) findData =
      some (st, HANDLE.nested { snapshot with current := snapshot.entries }, findData, false) ∧
    (∀ first rest, snapshot.entries = first :: rest →
      FsFindNext w st (HANDLE.nested { snapshot with current := snapshot.entries }) findData =
        some (st, HANDLE.nested { snapshot with current := rest },
          getSvnNode w first findData, true)) ∧
    (snapshot.entries = [] →
      FsFindNext w st (HANDLE.nested { snapshot with current := snapshot.entries }) findData =
        some (st, HANDLE.nested { snapshot with current := snapshot.entries }, findData,
          false)) := by
  refine ⟨?_, ?_, ?_⟩
  · simp [FsFindNext, hcur]
  · intro first rest hent
    simp [FsFindNext, hent]
  · intro hent
    simp [FsFindNext, hent]

/-- Witness of `FsFindNext_exhaustion_resets_cursor`: the handle of `\Repo1\dir` with its
cursor at the end. -/
theorem FsFindNext_exhaustion_resets_cursor_witness :
    ({ dirHandleSnapshot with current := [] } : Snapshot).current = [] ∧
    FsFindNext 32 (initialState exampleLocations)
        (HANDLE.nested { dirHandleSnapshot with current := [] }) zeroFindData =
      some (initialState exampleLocations,
        HANDLE.nested { dirHandleSnapshot with current := dirHandleSnapshot.entries },
        zeroFindData, false) :=
  ⟨rfl,
    (FsFindNext_exhaustion_resets_cursor 32 (initialState exampleLocations)
      { dirHandleSnapshot with current := [] } zeroFindData rfl).1⟩

/-- Counterexample to claim C20 as stated.  The handle of `\Repo1\dir` has two entries.  After
`FsFindFirst` the first `FsFindNext` yields the second entry, the second reports exhaustion,
and the third returns TRUE again: the cursor was reset to the first entry and is now at the
second. -/
theorem FsFindNext_true_after_exhaustion :
    (FsFindNext 32 (initialState exampleLocations) (HANDLE.nested dirHandleSnapshot)
        zeroFindData).map (fun r => (r.2.1, r.2.2.2)) =
      some (HANDLE.nested { dirHandleSnapshot with current := [] }, true) ∧
    (FsFindNext 32 (initialState exampleLocations)
        (HANDLE.nested { dirHandleSnapshot with current := [] }) zeroFindData).map
        (fun r => (r.2.1, r.2.2.2)) =
      some (HANDLE.nested { dirHandleSnapshot with current := dirHandleSnapshot.entries },
        false) ∧
    (FsFindNext 32 (initialState exampleLocations)
        (HANDLE.nested { dirHandleSnapshot with current := dirHandleSnapshot.entries })
        zeroFindData).map (fun r => (r.2.1, r.2.2.2)) =
      some (HANDLE.nested dirHandleSnapshot, true) :=
  ⟨by rfl, by rfl, by rfl⟩

/-! ## Claims on loadConfig -/

/-- A list splits into its longest start whose bytes all pass a test and a rest that is empty
or begins with a byte that fails it. -/
theorem span_decomposition (p : Nat → Bool) (l : List Nat) :
    ∃ T D, l = T ++ D ∧ (∀ x ∈ T, p x = true) ∧
      (D = [] ∨ ∃ d D1, D = d :: D1 ∧ p d = false) ∧
      l.takeWhile p = T ∧ l.dropWhile p = D := by
  refine ⟨l.takeWhile p, l.dropWhile p, (List.takeWhile_append_dropWhile p l).symm,
    fun x hx => List.mem_takeWhile_imp hx, ?_, rfl, rfl⟩
  cases h : l.dropWhile p with
  | nil => exact Or.inl rfl
  | cons d D1 =>
    refine Or.inr ⟨d, D1, rfl, ?_⟩
    have := List.head?_dropWhile_not p l
    rw [h] at this
    simpa using this

theorem isspace_ne {x : Nat} (h : isspace x = true) : x ≠ 0 ∧ x ≠ 35 ∧ x ≠ 61 ∧ x ≠ 92 := by
  simp only [isspace, Bool.or_eq_true, Bool.and_eq_true, decide_eq_true_eq] at h
  omega
theorem dropWhile_isspace_newline (e : List Nat) (he : e = [] ∨ e = [10]) :
    e.dropWhile isspace = [] := by
  rcases he with rfl | rfl
  · rfl
  · decide

theorem dropWhile_cons_neg (p : Nat → Bool) (a : Nat) (l : List Nat) (h : p a = false) :
    (a :: l).dropWhile p = a :: l := by
  simp [List.dropWhile_cons, h]

theorem takeWhile_cons_neg (p : Nat → Bool) (a : Nat) (l : List Nat) (h : p a = false) :
    (a :: l).takeWhile p = [] := by
  simp [List.takeWhile_cons, h]

/-- The body of the loop of `loadConfig` on a line without zero byte, with or without its
newline, does what the specification says for the line. -/
theorem loadConfig_line_eq (line e : List Nat) (locations : List Location)
    (he : e = [] ∨ e = [10]) (hz : ∀ b ∈ line, b ≠ 0) (hn : 10 ∉ line) :
    loadConfig_line (line ++ e) locations =
      match configLine line with
      | some loc => loc :: locations
      | none => locations := by
  obtain ⟨S, A, rfl, hS, hA, -, -⟩ := span_decomposition isspace line
  have hS61 : ∀ x ∈ S, x ≠ 61 := fun x hx => (isspace_ne (hS x hx)).2.2.1
  have he0 : e.dropWhile isspace = [] := dropWhile_isspace_newline e he
  rcases hA with rfl | ⟨a, R, rfl, ha⟩
  · -- the line is blank
    have h61 : 61 ∉ S := fun h => hS61 61 h rfl
    simp [loadConfig_line, configLine, List.dropWhile_append_of_pos hS, he0, h61]
  · have hp : (S ++ a :: R ++ e).dropWhile isspace = a :: (R ++ e) := by
      rw [List.append_assoc, List.dropWhile_append_of_pos hS]
      simp [List.dropWhile_cons, ha]
    have hp1 : (S ++ a :: R).dropWhile isspace = a :: R := by
      rw [List.dropWhile_append_of_pos hS]
      simp [List.dropWhile_cons, ha]
    unfold loadConfig_line configLine
    simp only [hp, hp1]
    by_cases h35 : a = 35
    · simp [h35]
    · simp only [List.headD_cons, h35, if_false, List.head?_cons, Option.some.injEq]
      obtain ⟨T, D, hTD, hT, hD, -, -⟩ :=
        span_decomposition (fun c => decide (c ≠ 0 ∧ c ≠ 92 ∧ c ≠ 61)) (a :: R)
      have e1 : a :: (R ++ e) = T ++ (D ++ e) := by
        rw [← List.append_assoc, ← hTD]
        rfl
      rw [e1, hTD]
      have hz1 : ∀ b ∈ T ++ D, b ≠ 0 := by
        intro b hb
        rw [← hTD] at hb
        exact hz b (List.mem_append_right S hb)
      have hn1 : 10 ∉ T ++ D := by
        intro hb
        rw [← hTD] at hb
        exact hn (List.mem_append_right S hb)
      have hT1 : ∀ x ∈ T, x ≠ 92 ∧ x ≠ 61 := by
        intro x hx
        have := hT x hx
        simp only [decide_eq_true_eq] at this
        exact this.2
      have hTne : ∀ x ∈ T, decide (x ≠ 61) = true := fun x hx => by simpa using (hT1 x hx).2
      have hSne : ∀ x ∈ S, decide (x ≠ 61) = true := fun x hx => by simpa using hS61 x hx
      have hTspace : T.dropWhile isspace = T := by
        cases T with
        | nil => rfl
        | cons t T1 =>
          have : t = a := by
            have := congrArg List.head? hTD
            simp at this
            exact this.symm
          subst this
          simp [List.dropWhile_cons, ha]
      rcases hD with rfl | ⟨d, D1, rfl, hd⟩
      · -- neither a backslash nor an equals sign
        have hq : (List.dropWhile (fun c => decide (c ≠ 0 ∧ c ≠ 92 ∧ c ≠ 61)) e) = [] := by
          rcases he with rfl | rfl
          · rfl
          · decide
        have h61 : 61 ∉ S ++ (T ++ []) := by
          simp only [List.append_nil, List.mem_append, not_or]
          exact ⟨fun h => hS61 61 h rfl, fun h => (hT1 61 h).2 rfl⟩
        simp only [List.nil_append, List.dropWhile_append_of_pos hT, hq, List.headD_nil,
          h61, not_false_eq_true, if_true]
        simp
      · have hd0 : d ≠ 0 := hz1 d (by simp)
        have hd1 : d = 92 ∨ d = 61 := by
          simp only [decide_eq_false_iff_not, not_and_or, not_not, ne_eq] at hd
          rcases hd with h | h | h
          · exact absurd h hd0
          · exact Or.inl h
          · exact Or.inr h
        rw [List.dropWhile_append_of_pos hT, List.takeWhile_append_of_pos hT, List.cons_append,
          dropWhile_cons_neg _ d _ hd, takeWhile_cons_neg _ d _ hd]
        simp only [List.headD_cons, List.append_nil, List.tail_cons]
        rcases hd1 with rfl | rfl
        · -- a backslash before the first equals sign
          have h92 : 92 ∈ List.takeWhile (fun c => decide (c ≠ 61)) (S ++ (T ++ 92 :: D1)) := by
            rw [List.takeWhile_append_of_pos hSne, List.takeWhile_append_of_pos hTne]
            simp
          by_cases h61 : 61 ∉ S ++ (T ++ 92 :: D1)
          · simp only [h61, not_false_eq_true, if_true]
          · simp only [h61, if_false, h92, if_true]
        · -- the first equals sign
          have h61 : ¬ (61 ∉ S ++ (T ++ 61 :: D1)) := by simp
          have htake : List.takeWhile (fun c => decide (c ≠ 61)) (S ++ (T ++ 61 :: D1)) = S ++ T := by
            rw [List.takeWhile_append_of_pos hSne, List.takeWhile_append_of_pos hTne]
            simp
          have hdrop : List.dropWhile (fun c => decide (c ≠ 61)) (S ++ (T ++ 61 :: D1)) =
              61 :: D1 := by
            rw [List.dropWhile_append_of_pos hSne, List.dropWhile_append_of_pos hTne]
            simp
          have h92 : 92 ∉ S ++ T := by
            simp only [List.mem_append, not_or]
            exact ⟨fun h => (isspace_ne (hS 92 h)).2.2.2 rfl, fun h => (hT1 92 h).1 rfl⟩
          have htrim : trimSpaces (S ++ T) = stripTrailingSpaces T := by
            unfold trimSpaces stripTrailingSpaces
            rw [List.dropWhile_append_of_pos hS, hTspace]
          simp only [h61, if_false, htake, h92, hdrop, List.tail_cons, htrim,
            show (92 : Nat) ≠ 61 by decide]
          obtain ⟨U, V, rfl, hU, hV, -, -⟩ := span_decomposition isspace D1
          have hU1 : ∀ x ∈ U, (fun c => decide (c ≠ 0 ∧ isspace c = true)) x = true := by
            intro x hx
            simp only [decide_eq_true_eq]
            exact ⟨(isspace_ne (hU x hx)).1, hU x hx⟩
          have hzV : ∀ b ∈ V, b ≠ 0 := fun b hb => hz1 b (by simp [hb])
          have hnV : ∀ b ∈ V, b ≠ 10 := fun b hb h10 => hn1 (by rw [← h10]; simp [hb])
          rcases hV with rfl | ⟨v, V1, rfl, hv⟩
          · -- nothing after the equals sign
            have hq : List.dropWhile (fun c => decide (c ≠ 0 ∧ isspace c = true)) e = [] := by
              rcases he with rfl | rfl
              · rfl
              · decide
            have hspec : List.dropWhile isspace U = [] := List.dropWhile_eq_nil_iff.mpr hU
            simp only [List.append_nil]
            rw [List.dropWhile_append_of_pos hU1, hq, hspec]
            simp
          · have hvq : (fun c => decide (c ≠ 0 ∧ isspace c = true)) v = false := by
              simp [hv]
            have hVall : ∀ x ∈ v :: V1, (fun c => decide (c ≠ 0 ∧ c ≠ 10)) x = true := by
              intro x hx
              simp only [decide_eq_true_eq]
              exact ⟨hzV x hx, hnV x hx⟩
            have hq : List.takeWhile (fun c => decide (c ≠ 0 ∧ c ≠ 10)) e = [] := by
              rcases he with rfl | rfl
              · rfl
              · decide
            have hcode : List.takeWhile (fun c => decide (c ≠ 0 ∧ c ≠ 10))
                (List.dropWhile (fun c => decide (c ≠ 0 ∧ isspace c = true))
                  (U ++ v :: V1 ++ e)) = v :: V1 := by
              rw [List.append_assoc, List.dropWhile_append_of_pos hU1]
              rw [List.cons_append, dropWhile_cons_neg _ v _ hvq, ← List.cons_append,
                List.takeWhile_append_of_pos hVall, hq, List.append_nil]
            have hspec : List.dropWhile isspace (U ++ v :: V1) = v :: V1 := by
              rw [List.dropWhile_append_of_pos hU, dropWhile_cons_neg _ v _ hv]
            rw [hcode, hspec]
            simp
theorem fgets_aux_line (k : Nat) (line rest : List Nat) (hn : 10 ∉ line)
    (hk : line.length < k) : fgets_aux k (line ++ 10 :: rest) = (line ++ [10], rest) := by
  induction line generalizing k with
  | nil =>
    cases k with
    | zero => simp at hk
    | succ k => simp [fgets_aux]
  | cons c line ih =>
    cases k with
    | zero => simp at hk
    | succ k =>
      simp only [List.mem_cons, not_or] at hn
      have hc : ¬ c = 10 := fun h => hn.1 h.symm
      simp only [List.length_cons, Nat.add_lt_add_iff_right] at hk
      simp [fgets_aux, hc, ih k hn.2 hk]

theorem fgets_aux_last (k : Nat) (line : List Nat) (hn : 10 ∉ line) (hk : line.length ≤ k) :
    fgets_aux k line = (line, []) := by
  induction line generalizing k with
  | nil => cases k <;> simp [fgets_aux]
  | cons c line ih =>
    cases k with
    | zero => simp at hk
    | succ k =>
      simp only [List.mem_cons, not_or] at hn
      have hc : ¬ c = 10 := fun h => hn.1 h.symm
      simp only [List.length_cons, Nat.add_le_add_iff_right] at hk
      simp [fgets_aux, hc, ih k hn.2 hk]

theorem splitLines_ne_nil (text : List Nat) : splitLines text ≠ [] := by
  induction text with
  | nil => simp [splitLines]
  | cons c text ih =>
    unfold splitLines
    split
    · simp
    · split <;> simp

theorem splitLines_of_no_newline (line : List Nat) (hn : 10 ∉ line) : splitLines line = [line] := by
  induction line with
  | nil => rfl
  | cons c line ih =>
    simp only [List.mem_cons, not_or] at hn
    have hc : ¬ c = 10 := fun h => hn.1 h.symm
    simp [splitLines, hc, ih hn.2]

theorem splitLines_append (line rest : List Nat) (hn : 10 ∉ line) :
    splitLines (line ++ 10 :: rest) = line :: splitLines rest := by
  induction line with
  | nil => simp [splitLines]
  | cons c line ih =>
    simp only [List.mem_cons, not_or] at hn
    have hc : ¬ c = 10 := fun h => hn.1 h.symm
    simp [splitLines, hc, ih hn.2]

/-- A text is empty, a last line without newline, or a line with its newline and a rest. -/
theorem text_cases (text : List Nat) :
    (10 ∉ text) ∨ ∃ line rest, text = line ++ 10 :: rest ∧ 10 ∉ line := by
  obtain ⟨T, D, hTD, hT, hD, -, -⟩ := span_decomposition (fun c => decide (c ≠ 10)) text
  have hT10 : 10 ∉ T := by
    intro h
    have := hT 10 h
    simp at this
  rcases hD with rfl | ⟨d, D1, rfl, hd⟩
  · left
    rw [hTD, List.append_nil]
    exact hT10
  · right
    have hd10 : d = 10 := by simpa using hd
    subst hd10
    exact ⟨T, D1, hTD, hT10⟩

/-- With enough rounds the loop of `loadConfig` puts in front of the list the locations of the
specification, the one of the last line first. -/
theorem loadConfig_loop_eq (fuel : Nat) :
    ∀ (text : List Nat) (locations : List Location), text.length ≤ fuel → shortLines text →
      loadConfig_loop fuel text locations = some (configLocations text ++ locations) := by
  induction fuel with
  | zero =>
    intro text locations hlen _
    have : text = [] := List.length_eq_zero.mp (Nat.le_zero.mp hlen)
    subst this
    simp [loadConfig_loop, fgets, configLocations, splitLines, configLine]
  | succ fuel ih =>
    intro text locations hlen hshort
    by_cases hnil : text = []
    · subst hnil
      simp [loadConfig_loop, fgets, configLocations, splitLines, configLine]
    · rcases text_cases text with hn | ⟨line, rest, rfl, hn⟩
      · -- the last line, without a newline
        have hline : text.length ≤ 1022 :=
          hshort.2 text (by rw [splitLines_of_no_newline text hn]; simp)
        have hget : fgets 1024 text = some (text, []) := by
          simp only [fgets, hnil, if_false]
          rw [fgets_aux_last _ text hn (by omega)]
        have hbody := loadConfig_line_eq text [] locations (Or.inl rfl) hshort.1 hn
        rw [List.append_nil] at hbody
        unfold loadConfig_loop
        simp only [hget]
        unfold loadConfig_loop
        simp only [fgets, if_true, hbody, configLocations, splitLines_of_no_newline text hn,
          List.filterMap_cons, List.filterMap_nil]
        cases configLine text <;> simp
      · -- a line with its newline
        have hshort1 : shortLines rest := by
          refine ⟨fun b hb => hshort.1 b (by simp [hb]), fun l hl => hshort.2 l ?_⟩
          rw [splitLines_append line rest hn]
          exact List.mem_cons_of_mem _ hl
        have hz : ∀ b ∈ line, b ≠ 0 := fun b hb => hshort.1 b (by simp [hb])
        have hline : line.length ≤ 1022 :=
          hshort.2 line (by rw [splitLines_append line rest hn]; simp)
        have hget : fgets 1024 (line ++ 10 :: rest) = some (line ++ [10], rest) := by
          simp only [fgets, List.append_eq_nil, reduceCtorEq, and_false, if_false]
          rw [fgets_aux_line _ line rest hn (by omega)]
        have hbody := loadConfig_line_eq line [10] locations (Or.inr rfl) hz hn
        have hlen1 : rest.length ≤ fuel := by
          simp only [List.length_append, List.length_cons] at hlen
          omega
        unfold loadConfig_loop
        simp only [hget]
        rw [ih rest _ hlen1 hshort1, hbody]
        simp only [configLocations, splitLines_append line rest hn, List.filterMap_cons]
        cases configLine line <;> simp
/-- For a configuration text without zero byte and with lines of at most 1022 bytes,
`loadConfig` empties the registry and the cache and builds the registry of the
specification. -/
theorem loadConfig_eq_configLocations (st : State) (text : List Nat) (created : Bool)
    (hshort : shortLines text) :
    loadConfig st (some text) created =
      some { freeLocationsAndSnapshots st with locations := configLocations text } := by
  unfold loadConfig
  simp only
  rw [loadConfig_loop_eq text.length text _ (Nat.le_refl _) hshort]
  simp [freeLocationsAndSnapshots]

/-- Claim C14, amended.  For every configuration text without a zero byte whose lines have at
most 1022 bytes before the newline, `loadConfig` drops exactly the lines that are comments
(first non-blank character `#`), that have a backslash before the first `=`, that have no `=`,
or whose url after the `=` is empty; every other line contributes one location whose title is
the text before the `=` without the whitespace around it and whose url is the text after the
`=` without the whitespace in front of it, up to the end of the line.  The registry is made of
the contributions of the single lines, so a dropped line changes nothing of the others: in the
example the lines `bad\line = x` and `t =` are dropped and `Repo1` and `Repo2` stay. -/
theorem loadConfig_drops_and_keeps_lines :
    (∀ (st : State) (text : List Nat) (created : Bool), shortLines text →
      loadConfig st (some text) created =
        some { freeLocationsAndSnapshots st with
          locations := ((splitLines text).filterMap configLine).reverse }) ∧
    (splitLines exampleConfig).map configLine =
      [some repo1, none, none, none, some repo2, none] ∧
    loadConfig (initialState []) (some exampleConfig) true = some (initialState [repo2, repo1]) :=
  ⟨fun st text created hshort => loadConfig_eq_configLocations st text created hshort,
    by decide, by rfl⟩

/-- Witness of `loadConfig_drops_and_keeps_lines`: the example text has short lines and
replaces the registry of the examples by `Repo2` and `Repo1`. -/
theorem loadConfig_drops_and_keeps_lines_witness :
    shortLines exampleConfig ∧
    loadConfig abCached (some exampleConfig) true =
      some { freeLocationsAndSnapshots abCached with locations := [repo2, repo1] } :=
  ⟨by decide,
    (loadConfig_drops_and_keeps_lines.1 abCached exampleConfig true (by decide)).trans
      (by rfl)⟩

theorem fgets_aux_full (k : Nat) (chunk rest : List Nat) (hn : 10 ∉ chunk)
    (hk : chunk.length = k) : fgets_aux k (chunk ++ rest) = (chunk, rest) := by
  induction chunk generalizing k with
  | nil =>
    simp only [List.length_nil] at hk
    subst hk
    cases rest <;> simp [fgets_aux]
  | cons c chunk ih =>
    cases k with
    | zero => simp at hk
    | succ k =>
      simp only [List.mem_cons, not_or] at hn
      have hc : ¬ c = 10 := fun h => hn.1 h.symm
      simp only [List.length_cons, Nat.add_right_cancel_iff] at hk
      simp [fgets_aux, hc, ih k hn.2 hk]

/-- What `loadConfig` and the specification make of a comment line of 1026 bytes: `#`, 1022
bytes that are no newline, and `a=b`. -/
theorem loadConfig_long_comment (filler : List Nat) (h10 : 10 ∉ filler)
    (hlen : filler.length = 1022) :
    splitLines (35 :: filler ++ bytes "a=b" ++ [10]) = [35 :: filler ++ bytes "a=b", []] ∧
    configLine (35 :: filler ++ bytes "a=b") = none ∧
    loadConfig (initialState []) (some (35 :: filler ++ bytes "a=b" ++ [10])) true =
      some (initialState [{ title := [97], url := [98] }]) := by
  have hn : 10 ∉ 35 :: filler ++ bytes "a=b" := by
    have h1 : 10 ∉ bytes "a=b" := by decide
    simp only [List.cons_append, List.mem_cons, List.mem_append, not_or]
    exact ⟨by decide, h10, h1⟩
  refine ⟨?_, ?_, ?_⟩
  · have h := splitLines_append (35 :: filler ++ bytes "a=b") [] hn
    simpa [splitLines] using h
  · simp [configLine, List.dropWhile_cons, isspace]
  · have hchunk : 10 ∉ 35 :: filler := by
      simp only [List.mem_cons, not_or]
      exact ⟨by decide, h10⟩
    have hget : fgets 1024 (35 :: filler ++ bytes "a=b" ++ [10]) =
        some (35 :: filler, bytes "a=b" ++ [10]) := by
      have h := fgets_aux_full 1023 (35 :: filler) (bytes "a=b" ++ [10]) hchunk
        (by simp [hlen])
      simp only [fgets, List.cons_append, reduceCtorEq, if_false]
      simp only [List.cons_append, List.append_assoc] at h ⊢
      rw [h]
    have hlen1 : (35 :: filler ++ bytes "a=b" ++ [10]).length = 1026 + 1 := by
      simp [hlen, bytes]
    have hline : loadConfig_line (35 :: filler) [] = [] := by
      simp [loadConfig_line, List.dropWhile_cons, isspace]
    have hrest : loadConfig_loop 1026 (bytes "a=b" ++ [10]) [] =
        some [{ title := [97], url := [98] }] := by
      rw [loadConfig_loop_eq 1026 (bytes "a=b" ++ [10]) [] (by decide) (by decide)]
      decide
    unfold loadConfig
    simp only [hlen1]
    unfold loadConfig_loop
    simp only [hget, freeLocationsAndSnapshots, initialState, hline, hrest]
    rfl

/-- Counterexample to claim C14 as stated.  The only line of the text `longCommentConfig` is a
comment: its first character is `#`.  It is longer than the 1023 bytes that `fgets` delivers
at a time, so `loadConfig` drops its first 1023 bytes as a comment and reads the rest, `a=b`,
as a line of its own: the comment line contributes the location `a` with the url `b`. -/
theorem loadConfig_splits_long_line :
    splitLines longCommentConfig = [35 :: List.replicate 1022 120 ++ bytes "a=b", []] ∧
    configLine (35 :: List.replicate 1022 120 ++ bytes "a=b") = none ∧
    loadConfig (initialState []) (some longCommentConfig) true =
      some (initialState [{ title := [97], url := [98] }]) :=
  loadConfig_long_comment (List.replicate 1022 120)
    (fun h => absurd (List.eq_of_mem_replicate h) (by decide)) (List.length_replicate _ _)

/-! ## Claims on the reload of the configuration -/

theorem fgets_aux_length (k : Nat) (stream : List Nat) :
    (fgets_aux (k + 1) stream).2.length + 1 ≤ stream.length ∨ stream = [] := by
  induction stream generalizing k with
  | nil => exact Or.inr rfl
  | cons c stream ih =>
    left
    by_cases hc : c = 10
    · simp [fgets_aux, hc]
    · simp only [fgets_aux, hc, if_false, List.length_cons, Nat.add_le_add_iff_right]
      cases k with
      | zero => simp [fgets_aux]
      | succ k =>
        rcases ih k with h | h
        · omega
        · subst h
          simp [fgets_aux]

/-- The loop of `loadConfig` ends within as many rounds as the text has bytes. -/
theorem loadConfig_loop_total (fuel : Nat) :
    ∀ (text : List Nat) (locations : List Location), text.length ≤ fuel →
      ∃ r, loadConfig_loop fuel text locations = some r := by
  induction fuel with
  | zero =>
    intro text locations hlen
    have : text = [] := List.length_eq_zero.mp (Nat.le_zero.mp hlen)
    subst this
    exact ⟨locations, by simp [loadConfig_loop, fgets]⟩
  | succ fuel ih =>
    intro text locations hlen
    by_cases hnil : text = []
    · subst hnil
      exact ⟨locations, by simp [loadConfig_loop, fgets]⟩
    · have hrest : (fgets_aux 1023 text).2.length ≤ fuel := by
        rcases fgets_aux_length 1022 text with h | h
        · have h1 : (1022 : Nat) + 1 = 1023 := rfl
          rw [h1] at h
          omega
        · exact absurd h hnil
      obtain ⟨r, hr⟩ := ih (fgets_aux 1023 text).2
        (loadConfig_line (fgets_aux 1023 text).1 locations) hrest
      refine ⟨r, ?_⟩
      unfold loadConfig_loop
      simp only [fgets, hnil, if_false]
      exact hr

/-- A reload of a configuration file that can be opened gives a state with the registry read
from the text, without entries and without sub-path in the cache. -/
theorem loadConfig_some (st : State) (text : List Nat) (created : Bool) :
    ∃ locations, loadConfig st (some text) created =
      some { freeLocationsAndSnapshots st with locations := locations } ∧
      loadConfig_loop text.length text [] = some locations := by
  obtain ⟨r, hr⟩ := loadConfig_loop_total text.length text [] (Nat.le_refl _)
  refine ⟨r, ?_, hr⟩
  unfold loadConfig
  simp only
  have : (freeLocationsAndSnapshots st).locations = [] := rfl
  rw [this, hr]
  rfl

theorem foldl_list_func_entries (rows : List (List Nat × svn_dirent_t)) (sn sn1 : Snapshot)
    (h : sn.entries = sn1.entries) :
    (rows.foldl (fun s row => list_func s row.1 row.2) sn).entries =
      (rows.foldl (fun s row => list_func s row.1 row.2) sn1).entries := by
  induction rows generalizing sn sn1 with
  | nil => exact h
  | cons row rows ih =>
    simp only [List.foldl_cons]
    apply ih
    unfold list_func
    split
    · simp [h]
    · exact h

/-- The entries and the error that the body of `querySnapshot` gives do not depend on the
state and on the snapshot it starts from. -/
theorem querySnapshot_found_independent (w : Nat) (backend : Backend) (st st1 : State)
    (sn sn1 : Snapshot) (loc : Location) (sub : List Nat) :
    (querySnapshot_found w backend st sn loc sub).map (fun r => (r.2.1.entries, r.2.2)) =
      (querySnapshot_found w backend st1 sn1 loc sub).map (fun r => (r.2.1.entries, r.2.2)) := by
  have hent := fun rows => foldl_list_func_entries rows
    { sn with location := some loc, entries := [] } { sn1 with location := some loc, entries := [] }
    rfl
  unfold querySnapshot_found
  simp only
  split
  · rfl
  · split
    · simp only [Option.map_some', hent]
    · split
      · simp only [Option.map_some', hent]
      · rfl

theorem querySnapshot_loop_independent (w : Nat) (backend : Backend) (st st1 : State)
    (sn sn1 : Snapshot) (path : List Nat) (locations : List Location)
    (h : sn.entries = sn1.entries) :
    (querySnapshot_loop w backend st sn path locations).map (fun r => (r.2.1.entries, r.2.2)) =
      (querySnapshot_loop w backend st1 sn1 path locations).map
        (fun r => (r.2.1.entries, r.2.2)) := by
  induction locations with
  | nil => simp [querySnapshot_loop, h]
  | cons loc rest ih =>
    simp only [querySnapshot_loop]
    split
    · exact querySnapshot_found_independent w backend st st1 sn sn1 loc _
    · exact ih

theorem querySnapshot_loop_locations {w : Nat} {backend : Backend} {st st1 : State}
    {snapshot snapshot1 : Snapshot} {path : List Nat} {err : Option svn_error_t}
    (locations : List Location)
    (h : querySnapshot_loop w backend st snapshot path locations = some (st1, snapshot1, err)) :
    st1.locations = st.locations := by
  rcases querySnapshot_loop_requests locations h with ⟨h1, _⟩ | ⟨_, _, _, h2, _⟩
  · rw [h1]
  · exact h2

/-- The answer of the lookup at the end of `FsContentGetValue` depends on the entries of the
snapshot and on the registry only. -/
theorem answerOf_lookup (w : Nat) (st st1 : State) (sn sn1 : Snapshot) (fileName : List Nat)
    (baseFileName : Nat) (fieldIndex : Int) (fieldValue : Memory) (maxLen : Nat)
    (hent : sn.entries = sn1.entries) (hloc : st.locations = st1.locations) :
    answerOf (FsContentGetValue_lookup w st sn fileName baseFileName fieldIndex fieldValue
        maxLen) =
      answerOf (FsContentGetValue_lookup w st1 sn1 fileName baseFileName fieldIndex fieldValue
        maxLen) := by
  unfold FsContentGetValue_lookup answerOf
  simp only [hent, hloc]
  split
  · rfl
  · split
    · rfl
    · split <;> rfl

theorem cacheReusable_of_no_entries (snapshot : Snapshot) (fileName : List Nat) (first : Nat)
    (h : snapshot.entries = []) : cacheReusable snapshot fileName first = some false := by
  unfold cacheReusable
  simp [h]

/-- With an emptied cache the answer of `FsContentGetValue` depends on the registry only, not
on whatever else the state holds. -/
theorem FsContentGetValue_answer_independent (w : Nat) (backend : Backend) (s s1 : State)
    (fileName : List Nat) (fieldIndex : Int) (fieldValue : Memory) (maxLen : Nat)
    (hloc : s.locations = s1.locations) (he : s.cachedSnapshot.entries = [])
    (he1 : s1.cachedSnapshot.entries = []) :
    (FsContentGetValue w backend s fileName fieldIndex fieldValue maxLen).map answerOf =
      (FsContentGetValue w backend s1 fileName fieldIndex fieldValue maxLen).map answerOf := by
  unfold FsContentGetValue
  simp only
  split
  · simp [answerOf, he, he1, hloc]
  · split
    · rename_i last first _ _
      rw [cacheReusable_of_no_entries _ _ _ he, cacheReusable_of_no_entries _ _ _ he1]
      simp only
      have hind := querySnapshot_loop_independent w backend s s1
        (destroySnapshot s.cachedSnapshot) (destroySnapshot s1.cachedSnapshot)
        ((slashify fileName.tail).set (last + 1) 0) s.locations rfl
      unfold querySnapshot
      rw [← hloc]
      cases hq : querySnapshot_loop w backend s (destroySnapshot s.cachedSnapshot)
          ((slashify fileName.tail).set (last + 1) 0) s.locations with
      | none =>
        rw [hq] at hind
        cases hq1 : querySnapshot_loop w backend s1 (destroySnapshot s1.cachedSnapshot)
            ((slashify fileName.tail).set (last + 1) 0) s.locations with
        | none => rfl
        | some r1 => rw [hq1] at hind; simp at hind
      | some r =>
        rw [hq] at hind
        cases hq1 : querySnapshot_loop w backend s1 (destroySnapshot s1.cachedSnapshot)
            ((slashify fileName.tail).set (last + 1) 0) s.locations with
        | none => rw [hq1] at hind; simp at hind
        | some r1 =>
          rw [hq1] at hind
          obtain ⟨t, n, e⟩ := r
          obtain ⟨t1, n1, e1⟩ := r1
          simp only [Option.map_some', Option.some.injEq, Prod.mk.injEq] at hind
          obtain ⟨hn, herr⟩ := hind
          subst herr
          have ht := querySnapshot_loop_locations _ hq
          have ht1 := querySnapshot_loop_locations _ hq1
          have htt : t.locations = t1.locations := by rw [ht, ht1, hloc]
          cases e with
          | none =>
            simp only [Option.map_some', Option.some.injEq]
            exact answerOf_lookup w t t1 n n1 _ _ _ _ _ hn htt
          | some err =>
            cases hm : err.message <;> simp [answerOf, displayErrorMessage, hn, htt, hm]
    · simp [answerOf, he, he1, hloc]

/-- Claim C15.  A reload that can open the configuration file returns, and in the state it
leaves the cached snapshot has no entries and no sub-path, so the reuse test of
`FsContentGetValue` fails for every file name.  For a name that passes the first checks and
starts with the title of a location of the new registry (URLs not ending with a slash, lengths
within `size_t`) the call makes one listing request.  Its answer - status, number, field
bytes, name buffer, entries and registry left behind - is the same whatever state the reload
started from, so that no entry and no location of the state before the reload is used. -/
theorem reload_invalidates_cache (w : Nat) (backend : Backend) (st : State) (text : List Nat)
    (created : Bool) :
    ∃ st1, loadConfig st (some text) created = some st1 ∧
      st1.cachedSnapshot.entries = [] ∧ st1.cachedSnapshot.subPath.data = none ∧
      (∀ name first, cacheReusable st1.cachedSnapshot name first = some false) ∧
      (∀ (fileName : List Nat) (fieldIndex : Int) (fieldValue : Memory) (maxLen last first : Nat)
        (L : Location),
        0 ≤ fieldIndex ∧ fieldIndex < FI_MAX → fileName.headD 0 = 92 →
        strrchr fileName.tail 92 = some last → strchr fileName.tail 92 = some first →
        L ∈ st1.locations → (cstr (slashify fileName.tail)).take L.title.length = L.title →
        urlsWellFormed st1.locations →
        (∀ loc ∈ st1.locations, loc.url.length + fileName.length < 2 ^ w) →
        ∃ r uri, FsContentGetValue w backend st1 fileName fieldIndex fieldValue maxLen = some r ∧
          r.state.requests = st1.requests ++ [uri]) ∧
      ∀ st0 : State, ∃ st2, loadConfig st0 (some text) created = some st2 ∧
        st2.locations = st1.locations ∧
        ∀ (fileName : List Nat) (fieldIndex : Int) (fieldValue : Memory) (maxLen : Nat),
          (FsContentGetValue w backend st2 fileName fieldIndex fieldValue maxLen).map answerOf =
            (FsContentGetValue w backend st1 fileName fieldIndex fieldValue maxLen).map
              answerOf := by
  obtain ⟨locations, hload, hloop⟩ := loadConfig_some st text created
  refine ⟨_, hload, rfl, rfl, fun name first => cacheReusable_of_no_entries _ _ _ rfl, ?_, ?_⟩
  · intro fileName fieldIndex fieldValue maxLen last first L hidx hsep hlast hfirst hmem hpre
      hurls hsize
    exact FsContentGetValue_miss_requests w backend _ fileName fieldIndex fieldValue maxLen last
      first L hidx hsep hlast hfirst (cacheReusable_of_no_entries _ _ _ rfl) hmem hpre hurls hsize
  · intro st0
    obtain ⟨locations0, hload0, hloop0⟩ := loadConfig_some st0 text created
    have heq : locations0 = locations := Option.some.inj (hloop0.symm.trans hloop)
    subst heq
    refine ⟨_, hload0, rfl, ?_⟩
    intro fileName fieldIndex fieldValue maxLen
    exact FsContentGetValue_answer_independent w backend _ _ fileName fieldIndex fieldValue
      maxLen rfl rfl rfl

/-- Witness of `reload_invalidates_cache`: the reload of the example text in a state whose
cache holds the listing of `\root\a\b`; the next call for `\Repo1\dir\file.txt` makes a
listing request. -/
theorem reload_invalidates_cache_witness :
    loadConfig abCached (some exampleConfig) true =
      some { freeLocationsAndSnapshots abCached with locations := [repo2, repo1] } ∧
    ∃ r uri, FsContentGetValue 32 exampleBackend
        { freeLocationsAndSnapshots abCached with locations := [repo2, repo1] }
        (hostPath ["Repo1", "dir", "file.txt"]) 0 (fun _ => 0) 16 = some r ∧
      r.state.requests = [some (bytes "svn://h/r/a/b")] ++ [uri] := by
  have hload : loadConfig abCached (some exampleConfig) true =
      some { freeLocationsAndSnapshots abCached with locations := [repo2, repo1] } := by rfl
  obtain ⟨st1, h1, _, _, _, hreq, _⟩ :=
    reload_invalidates_cache 32 exampleBackend abCached exampleConfig true
  have hst : st1 = { freeLocationsAndSnapshots abCached with locations := [repo2, repo1] } :=
    Option.some.inj (h1.symm.trans hload)
  subst hst
  exact ⟨hload, hreq (hostPath ["Repo1", "dir", "file.txt"]) 0 (fun _ => 0) 16 9 5 repo1
    (by decide) (by decide) (by decide) (by decide) (by decide) (by decide) (by decide)
    (by decide)⟩

/-! ## Claim on the answers given from the cache -/

/-- Claim C11 fails in the code.  In the example the file `\Repo1\dir\file.txt` has revision 4
and `\Repo1\dir\other.txt` the author `bob`: that is what `FsContentGetValue` returns when it
starts with the empty cache.  After one call for `\Repo1\file.txt`, which leaves the listing of
the top directory of the location in the cache with a sub-path of length 0, the same two calls
make no request and are answered from that listing: revision 9 for the first, "no such field"
and an untouched value buffer for the second. -/
theorem cached_top_listing_changes_answer :
    (FsContentGetValue 32 exampleBackend (initialState exampleLocations)
        (hostPath ["Repo1", "dir", "file.txt"]) 0 (fun _ => 0) 16).map
        (fun r => (r.ret, r.longValue)) = some (FT_NUMERIC_32, some 4) ∧
    (FsContentGetValue 32 exampleBackend (initialState exampleLocations)
        (hostPath ["Repo1", "dir", "other.txt"]) 1 (fun _ => 0) 16).map
        (fun r => (r.ret, (List.range 4).map r.fieldValue)) =
      some (FT_STRING, bytes "bob" ++ [0]) ∧
    (FsContentGetValue 32 exampleBackend (initialState exampleLocations)
        (hostPath ["Repo1", "file.txt"]) 0 (fun _ => 0) 16).map
        (fun r => (r.ret, r.longValue, r.state.cachedSnapshot.subPath, r.state.requests)) =
      some (FT_NUMERIC_32, some 9, { data := some [47], len := 0 },
        [some (bytes "svn://h/a")]) ∧
    ((FsContentGetValue 32 exampleBackend (initialState exampleLocations)
        (hostPath ["Repo1", "file.txt"]) 0 (fun _ => 0) 16).bind
        (fun r0 => FsContentGetValue 32 exampleBackend r0.state
          (hostPath ["Repo1", "dir", "file.txt"]) 0 (fun _ => 0) 16)).map
        (fun r => (r.ret, r.longValue, r.state.requests)) =
      some (FT_NUMERIC_32, some 9, [some (bytes "svn://h/a")]) ∧
    ((FsContentGetValue 32 exampleBackend (initialState exampleLocations)
        (hostPath ["Repo1", "file.txt"]) 0 (fun _ => 0) 16).bind
        (fun r0 => FsContentGetValue 32 exampleBackend r0.state
          (hostPath ["Repo1", "dir", "other.txt"]) 1 (fun _ => 0) 16)).map
        (fun r => (r.ret, (List.range 4).map r.fieldValue, r.state.requests)) =
      some (FT_NOSUCHFIELD, [0, 0, 0, 0], [some (bytes "svn://h/a")]) :=
  ⟨by rfl, by rfl, by rfl, by rfl, by rfl⟩

/-! ## Claims on the enumeration -/

theorem nameBytes_memcpy (mem : Memory) (src : List Nat) (n : Nat) (h : n ≤ src.length) :
    (List.range n).map (memcpy mem 0 src n) = src.take n := by
  apply List.ext_getElem
  · simp [h]
  · intro i h1 h2
    simp only [List.length_map, List.length_range] at h1
    have hi : 0 ≤ i ∧ i < 0 + n := by omega
    have hs : i < src.length := by omega
    simp [memcpy, hi, h1, List.getElem?_eq_getElem hs]

theorem findAll_true (w fuel : Nat) (st st1 : State) (handle handle1 : HANDLE)
    (findData findData1 : WIN32_FIND_DATA)
    (h : FsFindNext w st handle findData = some (st1, handle1, findData1, true)) :
    findAll w (fuel + 1) st handle findData =
      (findAll w fuel st1 handle1 findData1).map (fun r => (findData1 :: r.1, r.2)) := by
  simp only [findAll, h]

theorem findAll_false (w fuel : Nat) (st st1 : State) (handle handle1 : HANDLE)
    (findData findData1 : WIN32_FIND_DATA)
    (h : FsFindNext w st handle findData = some (st1, handle1, findData1, false)) :
    findAll w (fuel + 1) st handle findData = some ([], st1, handle1, findData1) := by
  simp only [findAll, h]

theorem FsFindNext_root_cons (w : Nat) (st : State) (findData : WIN32_FIND_DATA) (loc : Location)
    (rest : List Location) (hst : st.nextTopLevelLoc = loc :: rest) (hloc : loc.title ≠ []) :
    FsFindNext w st HANDLE.root findData =
      some ({ st with nextTopLevelLoc := rest }, HANDLE.root,
        { findData with
          cFileName := memcpy findData.cFileName 0 (loc.title ++ [0]) (loc.title.length + 1)
          dwFileAttributes := FILE_ATTRIBUTE_DIRECTORY + FILE_ATTRIBUTE_READONLY },
        true) := by
  simp only [FsFindNext, hst, hloc, if_false]

/-- The enumeration of the root from a cursor at `locations`: one TRUE call for each location
in order, then FALSE with the cursor at the end. -/
theorem findAll_root (w : Nat) (locations : List Location) :
    ∀ (st : State) (findData : WIN32_FIND_DATA), st.nextTopLevelLoc = locations →
      (∀ L ∈ locations, L.title ≠ []) →
      ∃ yields findDataEnd,
        findAll w (locations.length + 1) st HANDLE.root findData =
          some (yields, { st with nextTopLevelLoc := [] }, HANDLE.root, findDataEnd) ∧
        List.Forall₂ (fun fd L =>
          fd.dwFileAttributes = FILE_ATTRIBUTE_DIRECTORY + FILE_ATTRIBUTE_READONLY ∧
            nameBytes fd (L.title.length + 1) = L.title ++ [0]) yields locations := by
  induction locations with
  | nil =>
    intro st findData hst _
    refine ⟨[], findData, ?_, List.Forall₂.nil⟩
    simp only [findAll, FsFindNext, hst]
    rw [← hst]
  | cons loc rest ih =>
    intro st findData hst htitles
    have hloc : loc.title ≠ [] := htitles loc (List.mem_cons_self _ _)
    obtain ⟨yields, findDataEnd, hall, hforall⟩ := ih { st with nextTopLevelLoc := rest }
      { findData with
        cFileName := memcpy findData.cFileName 0 (loc.title ++ [0]) (loc.title.length + 1)
        dwFileAttributes := FILE_ATTRIBUTE_DIRECTORY + FILE_ATTRIBUTE_READONLY } rfl
      (fun L hL => htitles L (List.mem_cons_of_mem _ hL))
    refine ⟨({ findData with
        cFileName := memcpy findData.cFileName 0 (loc.title ++ [0]) (loc.title.length + 1)
        dwFileAttributes := FILE_ATTRIBUTE_DIRECTORY + FILE_ATTRIBUTE_READONLY } :
          WIN32_FIND_DATA) :: yields, findDataEnd, ?_, List.Forall₂.cons ⟨rfl, ?_⟩ hforall⟩
    · rw [List.length_cons, findAll_true w _ _ _ _ _ _ _
        (FsFindNext_root_cons w st findData loc rest hst hloc), hall]
      rfl
    · unfold nameBytes
      simp only
      rw [nameBytes_memcpy _ _ _ (by simp)]
      have : loc.title.length + 1 = (loc.title ++ [0]).length := by simp
      rw [this, List.take_length]

/-- Claim C12.  In a state whose registry has no location with an empty title, `FsFindFirst` on
the root path yields the entry `Edit Locations`, read-only and not a directory; the following
calls of `FsFindNext` return TRUE once for each location, yielding the titles in the order of
the registry, each flagged directory and read-only; the call after them returns FALSE and
leaves a state in which every further call returns FALSE.  The claim fails for a registry with
an empty title: the configuration line `= svn://h/a` gives a location whose title is the null
pointer, and the first `FsFindNext` on the root handle copies from it. -/
theorem root_enumeration_yields_titles :
    (∀ (w : Nat) (backend : Backend) (st : State) (path : List Nat) (findData : WIN32_FIND_DATA),
      path.headD 0 = 92 → path.tail.headD 0 = 0 → (∀ L ∈ st.locations, L.title ≠ []) →
      ∃ first yields findDataEnd,
        FsFindFirst w backend st path findData =
          some ({ st with nextTopLevelLoc := st.locations }, HANDLE.root, first) ∧
        nameBytes first 15 = EditLocationsTitle ++ [0] ∧
        first.dwFileAttributes = FILE_ATTRIBUTE_READONLY ∧
        findAll w (st.locations.length + 1) { st with nextTopLevelLoc := st.locations }
            HANDLE.root first =
          some (yields, { st with nextTopLevelLoc := [] }, HANDLE.root, findDataEnd) ∧
        List.Forall₂ (fun fd L =>
          fd.dwFileAttributes = FILE_ATTRIBUTE_DIRECTORY + FILE_ATTRIBUTE_READONLY ∧
            nameBytes fd (L.title.length + 1) = L.title ++ [0]) yields st.locations ∧
        ∀ fd, FsFindNext w { st with nextTopLevelLoc := [] } HANDLE.root fd =
          some ({ st with nextTopLevelLoc := [] }, HANDLE.root, fd, false)) ∧
    loadConfig (initialState []) (some untitledConfig) true =
      some (initialState [untitledLocation]) ∧
    (FsFindFirst 32 exampleBackend (initialState [untitledLocation]) [92] zeroFindData).map
        (fun r => (r.1, r.2.1)) =
      some ({ initialState [untitledLocation] with nextTopLevelLoc := [untitledLocation] },
        HANDLE.root) ∧
    ∀ fd, FsFindNext 32
      { initialState [untitledLocation] with nextTopLevelLoc := [untitledLocation] }
      HANDLE.root fd = none := by
  refine ⟨?_, by rfl, by rfl, fun fd => rfl⟩
  intro w backend st path findData hroot hend htitles
  obtain ⟨yields, findDataEnd, hall, hforall⟩ := findAll_root w st.locations
    { st with nextTopLevelLoc := st.locations }
    { zeroFindData with
      cFileName :=
        memcpy zeroFindData.cFileName 0 (EditLocationsTitle ++ [0])
          (EditLocationsTitle.length + 1)
      dwFileAttributes := FILE_ATTRIBUTE_READONLY } rfl htitles
  refine ⟨_, yields, findDataEnd, ?_, ?_, rfl, hall, hforall, fun fd => rfl⟩
  · have h1 : ¬ path.headD 0 ≠ 92 := fun h => h hroot
    have h2 : ¬ path.tail.headD 0 ≠ 0 := fun h => h hend
    simp only [FsFindFirst, h1, h2, if_false]
  · rfl

/-- Witness of `root_enumeration_yields_titles`: the root of the registry of the examples. -/
theorem root_enumeration_yields_titles_witness :
    (∀ L ∈ (initialState exampleLocations).locations, L.title ≠ []) ∧
    ∃ first yields findDataEnd,
      FsFindFirst 32 exampleBackend (initialState exampleLocations) [92] zeroFindData =
        some ({ initialState exampleLocations with nextTopLevelLoc := exampleLocations },
          HANDLE.root, first) ∧
      nameBytes first 15 = EditLocationsTitle ++ [0] ∧
      first.dwFileAttributes = FILE_ATTRIBUTE_READONLY ∧
      findAll 32 4 { initialState exampleLocations with nextTopLevelLoc := exampleLocations }
          HANDLE.root first =
        some (yields, { initialState exampleLocations with nextTopLevelLoc := [] }, HANDLE.root,
          findDataEnd) ∧
      List.Forall₂ (fun fd L =>
        fd.dwFileAttributes = FILE_ATTRIBUTE_DIRECTORY + FILE_ATTRIBUTE_READONLY ∧
          nameBytes fd (L.title.length + 1) = L.title ++ [0]) yields exampleLocations ∧
      ∀ fd, FsFindNext 32 { initialState exampleLocations with nextTopLevelLoc := [] }
          HANDLE.root fd =
        some ({ initialState exampleLocations with nextTopLevelLoc := [] }, HANDLE.root, fd,
          false) :=
  ⟨by decide,
    root_enumeration_yields_titles.1 32 exampleBackend (initialState exampleLocations) [92]
      zeroFindData rfl rfl (by decide)⟩

/-- The name that `getSvnNode` writes ends within the name array and leaves the bytes after
the array as they were. -/
theorem getSvnNode_name_bounded (w : Nat) (obj : SVNObject) (findData : WIN32_FIND_DATA)
    (hw : MAX_PATH < 2 ^ w) :
    (getSvnNode w obj findData).cFileName (min (strlen obj.name) (MAX_PATH - 1)) = 0 ∧
      ∀ i, MAX_PATH ≤ i → (getSvnNode w obj findData).cFileName i = findData.cFileName i := by
  have hcat := strbuf_cat_of_pos findData.cFileName { data := 0, size := MAX_PATH } obj.name
    (strlen obj.name) hw (by decide)
  simp only [Nat.zero_add] at hcat
  unfold getSvnNode
  simp only [hcat]
  constructor
  · simp [poke]
  · intro i hi
    have hk : min (strlen obj.name) (MAX_PATH - 1) < MAX_PATH := by
      have : MAX_PATH - 1 < MAX_PATH := by decide
      omega
    have h1 : i ≠ min (strlen obj.name) (MAX_PATH - 1) := by omega
    have h2 : ¬ (0 ≤ i ∧ i < 0 + min (strlen obj.name) (MAX_PATH - 1)) := by omega
    simp only [poke, memcpy, h1, h2, if_false]

/-- The bytes that `FsFindNext` on the root handle writes for a location: the title and its
terminating zero, whatever the length of the title. -/
theorem FsFindNext_root_name (w : Nat) (st : State) (findData : WIN32_FIND_DATA) (loc : Location)
    (rest : List Location) (hst : st.nextTopLevelLoc = loc :: rest) (hloc : loc.title ≠ []) :
    ∃ st1 findData1, FsFindNext w st HANDLE.root findData =
        some (st1, HANDLE.root, findData1, true) ∧
      (∀ i, i < loc.title.length → findData1.cFileName i = loc.title.getD i 0) ∧
      findData1.cFileName loc.title.length = 0 ∧
      ∀ i, loc.title.length < i → findData1.cFileName i = findData.cFileName i := by
  refine ⟨_, _, FsFindNext_root_cons w st findData loc rest hst hloc, ?_, ?_, ?_⟩
  · intro i hi
    have h : 0 ≤ i ∧ i < 0 + (loc.title.length + 1) := by omega
    simp only [memcpy, h, and_self, if_true, Nat.sub_zero]
    rw [List.getD_append _ _ _ _ hi]
  · have h : 0 ≤ loc.title.length ∧ loc.title.length < 0 + (loc.title.length + 1) := by omega
    simp only [memcpy, h, and_self, if_true, Nat.sub_zero]
    rw [List.getD_append_right _ _ _ _ (Nat.le_refl _)]
    simp
  · intro i hi
    have h : ¬ (0 ≤ i ∧ i < 0 + (loc.title.length + 1)) := by omega
    simp only [memcpy, h, if_false]

theorem FsFindFirst_name_bounded (w : Nat) (backend : Backend) (st : State) (path : List Nat)
    (findData : WIN32_FIND_DATA) (r : State × HANDLE × WIN32_FIND_DATA) (hw : MAX_PATH < 2 ^ w)
    (h : FsFindFirst w backend st path findData = some r) (i : Nat) (hi : MAX_PATH ≤ i) :
    r.2.2.cFileName i = if path.headD 0 = 92 then 0 else findData.cFileName i := by
  unfold FsFindFirst at h
  by_cases hp : path.headD 0 = 92
  · have hp1 : ¬ path.headD 0 ≠ 92 := fun hne => hne hp
    simp only [hp1, if_false] at h
    simp only [hp, if_true]
    split at h
    · split at h
      · exact absurd h (by simp)
      · split at h
        · rw [← Option.some.inj h]
          rfl
        · rw [← Option.some.inj h]
          rfl
      · split at h
        · rw [← Option.some.inj h]
          exact (getSvnNode_name_bounded w _ zeroFindData hw).2 i hi
        · rw [← Option.some.inj h]
          rfl
    · rw [← Option.some.inj h]
      have h15 : ¬ (0 ≤ i ∧ i < 0 + (EditLocationsTitle.length + 1)) := by
        have h14 : EditLocationsTitle.length = 14 := by decide
        have h260 : MAX_PATH = 260 := rfl
        omega
      simp only [memcpy, h15, if_false]
      rfl
  · rw [if_pos hp] at h
    rw [← Option.some.inj h]
    simp only [hp, if_false]

theorem getD_replicate (n i v : Nat) (hi : i < n) : (List.replicate n v).getD i 0 = v := by
  rw [List.getD_eq_getElem?_getD, List.getElem?_replicate]
  simp [hi]

theorem longTitle_getD (i : Nat) (hi : i < 300) : longTitle.getD i 0 = 120 :=
  getD_replicate 300 i 120 hi

set_option maxRecDepth 100000 in
/-- The configuration text with the title of 300 bytes has lines that `fgets` reads whole, and
gives the registry with that title. -/
theorem loadConfig_long_title :
    loadConfig (initialState []) (some longTitleConfig) true =
      some (initialState [longTitleLocation]) :=
  (loadConfig_eq_configLocations (initialState []) longTitleConfig true (by decide)).trans
    (by rfl)

/-- Claim C18.  The names of nested entries are written by `getSvnNode` through a string
buffer of `MAX_PATH` bytes: the name ends with a zero inside the array and no byte at offset
`MAX_PATH` or more is changed, in `FsFindNext` on a handle of a snapshot and in `FsFindFirst`
(after whose `memset` these bytes are zero); the management entry has 15 bytes.  A title of
the root level is copied whole by `FsFindNext`, so it stays within the array when it has less
than `MAX_PATH` bytes.  The claim fails for longer titles: the configuration line with a title
of 300 bytes gives a location for which `FsFindNext` on the root handle writes the offsets 260
to 300 of the name array of 260 bytes. -/
theorem enumeration_names_within_buffer :
    (∀ (w : Nat) (obj : SVNObject) (findData : WIN32_FIND_DATA), MAX_PATH < 2 ^ w →
      (getSvnNode w obj findData).cFileName (min (strlen obj.name) (MAX_PATH - 1)) = 0 ∧
        ∀ i, MAX_PATH ≤ i → (getSvnNode w obj findData).cFileName i = findData.cFileName i) ∧
    (∀ (w : Nat) (st : State) (snapshot : Snapshot) (findData : WIN32_FIND_DATA)
      (r : State × HANDLE × WIN32_FIND_DATA × Bool), MAX_PATH < 2 ^ w →
      FsFindNext w st (HANDLE.nested snapshot) findData = some r →
      ∀ i, MAX_PATH ≤ i → r.2.2.1.cFileName i = findData.cFileName i) ∧
    (∀ (w : Nat) (backend : Backend) (st : State) (path : List Nat) (findData : WIN32_FIND_DATA)
      (r : State × HANDLE × WIN32_FIND_DATA), MAX_PATH < 2 ^ w →
      FsFindFirst w backend st path findData = some r →
      ∀ i, MAX_PATH ≤ i →
        r.2.2.cFileName i = if path.headD 0 = 92 then 0 else findData.cFileName i) ∧
    (∀ (w : Nat) (st : State) (findData : WIN32_FIND_DATA) (loc : Location)
      (rest : List Location), st.nextTopLevelLoc = loc :: rest → loc.title ≠ [] →
      loc.title.length < MAX_PATH →
      ∃ st1 findData1, FsFindNext w st HANDLE.root findData =
          some (st1, HANDLE.root, findData1, true) ∧
        findData1.cFileName loc.title.length = 0 ∧
        ∀ i, MAX_PATH ≤ i → findData1.cFileName i = findData.cFileName i) ∧
    loadConfig (initialState []) (some longTitleConfig) true =
      some (initialState [longTitleLocation]) ∧
    ∃ st1 findData1,
      FsFindNext 32 { initialState [longTitleLocation] with nextTopLevelLoc := [longTitleLocation] }
          HANDLE.root zeroFindData = some (st1, HANDLE.root, findData1, true) ∧
      (∀ i, MAX_PATH ≤ i → i < 300 → findData1.cFileName i = 120) ∧
      findData1.cFileName 300 = 0 := by
  refine ⟨fun w obj findData hw => getSvnNode_name_bounded w obj findData hw, ?_,
    fun w backend st path findData r hw h i hi =>
      FsFindFirst_name_bounded w backend st path findData r hw h i hi, ?_, ?_, ?_⟩
  · intro w st snapshot findData r hw h i hi
    unfold FsFindNext at h
    simp only at h
    split at h
    · rw [← Option.some.inj h]
      exact (getSvnNode_name_bounded w _ findData hw).2 i hi
    · rw [← Option.some.inj h]
  · intro w st findData loc rest hst hloc hlen
    obtain ⟨st1, findData1, hnext, _, hzero, hrest⟩ :=
      FsFindNext_root_name w st findData loc rest hst hloc
    exact ⟨st1, findData1, hnext, hzero, fun i hi => hrest i (by omega)⟩
  · exact loadConfig_long_title
  · have hlen : longTitleLocation.title.length = 300 := by
      show (List.replicate 300 120).length = 300
      exact List.length_replicate _ _
    obtain ⟨st1, findData1, hnext, hbytes, hzero, _⟩ :=
      FsFindNext_root_name 32
        { initialState [longTitleLocation] with nextTopLevelLoc := [longTitleLocation] }
        zeroFindData longTitleLocation [] rfl
        (fun h => absurd (congrArg List.length h) (by rw [hlen]; decide))
    rw [hlen] at hbytes hzero
    exact ⟨st1, findData1, hnext,
      fun i _ hi => (hbytes i hi).trans (longTitle_getD i hi), hzero⟩

/-- Witness of `enumeration_names_within_buffer`: the entry `file.txt` written by `getSvnNode`
for a 32-bit `size_t`. -/
theorem enumeration_names_within_buffer_witness :
    MAX_PATH < 2 ^ 32 ∧
    (getSvnNode 32 { name := bytes "file.txt", dirent := (fileRow "file.txt" 4).2 }
      zeroFindData).cFileName
        (min (strlen ({ name := bytes "file.txt", dirent := (fileRow "file.txt" 4).2 } :
          SVNObject).name) (MAX_PATH - 1)) = 0 ∧
    ∀ i, MAX_PATH ≤ i →
      (getSvnNode 32 { name := bytes "file.txt", dirent := (fileRow "file.txt" 4).2 }
        zeroFindData).cFileName i = zeroFindData.cFileName i :=
  ⟨by decide,
    enumeration_names_within_buffer.1 32
      { name := bytes "file.txt", dirent := (fileRow "file.txt" 4).2 } zeroFindData (by decide)⟩

/-! ## Claim on the enumeration of a nested directory -/

theorem childrenOf_cons (row : List Nat × svn_dirent_t) (rows : List (List Nat × svn_dirent_t)) :
    childrenOf (row :: rows) =
      childrenOf rows ++
        (if row.1.headD 0 ≠ 0 then
          [({ name := cstr row.1,
              dirent := { row.2 with last_author := row.2.last_author.map cstr } } : SVNObject)]
        else []) := by
  unfold childrenOf
  by_cases h : row.1.headD 0 ≠ 0
  · rw [List.filter_cons, if_pos (decide_eq_true h), if_pos h, List.map_cons, List.reverse_cons]
  · have hd : ¬ decide (row.1.headD 0 ≠ 0) = true := fun hd => h (of_decide_eq_true hd)
    rw [List.filter_cons, if_neg hd, if_neg h, List.append_nil]

/-- The listing callback run over the rows of a reply puts the children reported by the reply,
last row first, in front of the entries, and changes nothing else of the snapshot. -/
theorem foldl_list_func (rows : List (List Nat × svn_dirent_t)) (sn : Snapshot) :
    rows.foldl (fun s row => list_func s row.1 row.2) sn =
      { sn with entries := childrenOf rows ++ sn.entries } := by
  induction rows generalizing sn with
  | nil => rfl
  | cons row rows ih =>
    rw [List.foldl_cons, ih, childrenOf_cons]
    unfold list_func
    by_cases h : row.1.headD 0 ≠ 0
    · rw [if_pos h, if_pos h]
      simp
    · rw [if_neg h, if_neg h]
      simp

/-- A call of `querySnapshot` that returns no error has made one listing request, which the
backend answered without error, and leaves the reported children as entries, with the cursor
at the first. -/
theorem querySnapshot_found_success {w : Nat} {backend : Backend} {st st1 : State}
    {snapshot snapshot1 : Snapshot} {loc : Location} {sub : List Nat}
    (h : querySnapshot_found w backend st snapshot loc sub = some (st1, snapshot1, none)) :
    ∃ uri, st1 = { st with requests := st.requests ++ [uri] } ∧ (backend uri).err = none ∧
      snapshot1.entries = childrenOf (backend uri).rows ∧
      snapshot1.current = snapshot1.entries := by
  unfold querySnapshot_found at h
  simp only [foldl_list_func, List.append_nil] at h
  split at h
  · exact absurd h (by simp)
  · rename_i mem s subPathLen1 hcomp
    split at h
    · simp at h
    · rename_i herr
      split at h
      · simp only [Option.some.injEq, Prod.mk.injEq, and_true] at h
        refine ⟨_, h.1.symm, herr, ?_, ?_⟩
        · rw [← h.2]
        · rw [← h.2]
      · exact absurd h (by simp)

theorem querySnapshot_loop_success {w : Nat} {backend : Backend} {st st1 : State}
    {snapshot snapshot1 : Snapshot} {path : List Nat} (locations : List Location)
    (h : querySnapshot_loop w backend st snapshot path locations = some (st1, snapshot1, none)) :
    ∃ uri, st1 = { st with requests := st.requests ++ [uri] } ∧ (backend uri).err = none ∧
      snapshot1.entries = childrenOf (backend uri).rows ∧
      snapshot1.current = snapshot1.entries := by
  induction locations with
  | nil => simp [querySnapshot_loop] at h
  | cons loc rest ih =>
    simp only [querySnapshot_loop] at h
    split at h
    · exact querySnapshot_found_success h
    · exact ih h

/-- The enumeration of a handle of a snapshot from its cursor: one TRUE call for each entry
from the cursor on, then FALSE, which puts the cursor back to the first entry. -/
theorem findAll_nested (w : Nat) (st : State) (current : List SVNObject) :
    ∀ (snapshot : Snapshot) (findData : WIN32_FIND_DATA), snapshot.current = current →
      ∃ findDataEnd, findAll w (current.length + 1) st (HANDLE.nested snapshot) findData =
        some (yieldAll w current findData, st,
          HANDLE.nested { snapshot with current := snapshot.entries }, findDataEnd) := by
  induction current with
  | nil =>
    intro snapshot findData hcur
    refine ⟨findData, ?_⟩
    rw [List.length_nil, findAll_false w 0 st st (HANDLE.nested snapshot)
      (HANDLE.nested { snapshot with current := snapshot.entries }) findData findData
      (by simp only [FsFindNext, hcur])]
    rfl
  | cons obj rest ih =>
    intro snapshot findData hcur
    obtain ⟨findDataEnd, hrest⟩ := ih { snapshot with current := rest }
      (getSvnNode w obj findData) rfl
    refine ⟨findDataEnd, ?_⟩
    rw [List.length_cons, findAll_true w _ st st (HANDLE.nested snapshot)
      (HANDLE.nested { snapshot with current := rest }) findData (getSvnNode w obj findData)
      (by simp only [FsFindNext, hcur]), hrest]
    rfl

theorem cstrAt_of_bytes (s : List Nat) :
    ∀ (mem : Memory) (p bound : Nat), (∀ b ∈ s, b ≠ 0) → s.length < bound →
      (∀ i, i < s.length → mem (p + i) = s.getD i 0) → mem (p + s.length) = 0 →
      cstrAt mem p bound = s := by
  induction s with
  | nil =>
    intro mem p bound _ hlen _ hzero
    cases bound with
    | zero => simp at hlen
    | succ b =>
      have h0 : mem p = 0 := by simpa using hzero
      simp [cstrAt, h0]
  | cons c s ih =>
    intro mem p bound hnz hlen hbytes hzero
    cases bound with
    | zero => simp at hlen
    | succ b =>
      have hc : mem p = c := by simpa using hbytes 0 (by simp)
      have hc0 : c ≠ 0 := hnz c (List.mem_cons_self _ _)
      have hrest := ih mem (p + 1) b (fun x hx => hnz x (List.mem_cons_of_mem _ hx))
        (by simpa using hlen)
        (fun i hi => by
          have h := hbytes (i + 1) (by simpa using hi)
          rw [← Nat.add_assoc, Nat.add_right_comm] at h
          simpa using h)
        (by
          have h : p + (c :: s).length = p + 1 + s.length := by
            simp only [List.length_cons]
            omega
          rw [← h]
          exact hzero)
      simp [cstrAt, hc, hc0, hrest]

theorem mem_cstr_ne_zero (s : List Nat) : ∀ b ∈ cstr s, b ≠ 0 := by
  induction s with
  | nil => simp [cstr]
  | cons c s ih =>
    by_cases hc : c = 0
    · simp [cstr, strlen, hc]
    · intro b hb
      have h : cstr (c :: s) = c :: cstr s := by simp [cstr, strlen, hc]
      rw [h] at hb
      rcases List.mem_cons.mp hb with rfl | hb
      · exact hc
      · exact ih b hb

/-- The name that `getSvnNode` leaves in the name array is the name of the entry, cut to the
259 bytes that fit in front of the terminating zero. -/
theorem getSvnNode_name (w : Nat) (obj : SVNObject) (findData : WIN32_FIND_DATA)
    (hw : MAX_PATH < 2 ^ w) :
    cstrAt (getSvnNode w obj findData).cFileName 0 MAX_PATH =
      (cstr obj.name).take (MAX_PATH - 1) := by
  have hcat := strbuf_cat_of_pos findData.cFileName { data := 0, size := MAX_PATH } obj.name
    (strlen obj.name) hw (by decide)
  simp only [Nat.zero_add] at hcat
  have hlen : ((cstr obj.name).take (MAX_PATH - 1)).length =
      min (strlen obj.name) (MAX_PATH - 1) := by
    rw [List.length_take, length_cstr, Nat.min_comm]
  have hmax : MAX_PATH - 1 < MAX_PATH := by decide
  apply cstrAt_of_bytes
  · intro b hb
    exact mem_cstr_ne_zero obj.name b (List.mem_of_mem_take hb)
  · rw [hlen]
    omega
  · intro i hi
    rw [hlen] at hi
    have h1 : i ≠ min (strlen obj.name) (MAX_PATH - 1) := by omega
    have h2 : 0 ≤ i ∧ i < 0 + min (strlen obj.name) (MAX_PATH - 1) := by omega
    have h3 : i < MAX_PATH - 1 := by omega
    have h4 : i < strlen obj.name := by omega
    unfold getSvnNode
    simp only [hcat, Nat.zero_add, poke, memcpy, h1, h2, and_self, if_true, if_false,
      Nat.sub_zero]
    simp only [List.getD_eq_getElem?_getD, List.getElem?_take, h3, h4, if_true, cstr, true_and,
      hi]
  · rw [hlen]
    unfold getSvnNode
    simp only [hcat, Nat.zero_add, poke, if_true]

/-- Claim C13.  A nested open whose `querySnapshot` returns no error has made one listing
request that the backend answered without error.  When the reply has a row with a non-empty
name, `FsFindFirst` yields the first entry and returns a handle with the cursor at the second,
and the calls of `FsFindNext` up to the first FALSE yield the remaining entries: together the
rows with a non-empty name, each once, in the reverse of the reported order.  Each entry is
yielded by `getSvnNode`, which leaves its name, cut to 259 bytes, in the name array.  When the
reply has no such row, `FsFindFirst` sets the last error to "no more files" and returns the
invalid handle. -/
theorem nested_enumeration_yields_children (w : Nat) (backend : Backend) (st : State)
    (path : List Nat) (findData : WIN32_FIND_DATA) (st1 : State) (snapshot : Snapshot)
    (hsep : path.headD 0 = 92) (hnested : path.tail.headD 0 ≠ 0)
    (hopen : querySnapshot w backend st emptySnapshot path.tail = some (st1, snapshot, none)) :
    ∃ uri, st1 = { st with requests := st.requests ++ [uri] } ∧ (backend uri).err = none ∧
      snapshot.entries = childrenOf (backend uri).rows ∧
      (childrenOf (backend uri).rows = [] →
        FsFindFirst w backend st path findData =
          some ({ st1 with lastError := ERROR_NO_MORE_FILES }, HANDLE.invalid, zeroFindData)) ∧
      (∀ first rest, childrenOf (backend uri).rows = first :: rest →
        FsFindFirst w backend st path findData =
          some (st1, HANDLE.nested { snapshot with current := rest },
            getSvnNode w first zeroFindData) ∧
        ∃ findDataEnd,
          findAll w (rest.length + 1) st1 (HANDLE.nested { snapshot with current := rest })
              (getSvnNode w first zeroFindData) =
            some (yieldAll w rest (getSvnNode w first zeroFindData), st1,
              HANDLE.nested { snapshot with current := snapshot.entries }, findDataEnd)) ∧
      (MAX_PATH < 2 ^ w → ∀ (obj : SVNObject) (fd : WIN32_FIND_DATA),
        cstrAt (getSvnNode w obj fd).cFileName 0 MAX_PATH =
          (cstr obj.name).take (MAX_PATH - 1)) := by
  obtain ⟨uri, hst1, herr, hent, _⟩ := querySnapshot_loop_success st.locations hopen
  have h1 : ¬ path.headD 0 ≠ 92 := fun h => h hsep
  refine ⟨uri, hst1, herr, hent, ?_, ?_, fun hw obj fd => getSvnNode_name w obj fd hw⟩
  · intro hnone
    rw [← hent] at hnone
    unfold FsFindFirst
    simp only [h1, if_false, hnested, ne_eq, not_false_eq_true, if_true, hopen, hnone]
  · intro first rest hcons
    rw [← hent] at hcons
    constructor
    · unfold FsFindFirst
      simp only [h1, if_false, hnested, ne_eq, not_false_eq_true, if_true, hopen, hcons]
    · exact findAll_nested w st1 rest { snapshot with current := rest }
        (getSvnNode w first zeroFindData) rfl

/-- Witness of `nested_enumeration_yields_children`: the directory `\Repo1\dir` of the
example, whose listing reports the directory itself, `file.txt` and `other.txt`. -/
theorem nested_enumeration_yields_children_witness :
    (hostPath ["Repo1", "dir"]).headD 0 = 92 ∧ (hostPath ["Repo1", "dir"]).tail.headD 0 ≠ 0 ∧
    querySnapshot 32 exampleBackend (initialState exampleLocations) emptySnapshot
        (hostPath ["Repo1", "dir"]).tail =
      some ({ initialState exampleLocations with requests := [some (bytes "svn://h/a/dir")] },
        { dirHandleSnapshot with current := dirHandleSnapshot.entries }, none) ∧
    childrenOf (exampleBackend (some (bytes "svn://h/a/dir"))).rows =
      dirHandleSnapshot.entries ∧
    ∃ uri,
      ({ initialState exampleLocations with requests := [some (bytes "svn://h/a/dir")] } :
          State) =
        { initialState exampleLocations with
          requests := (initialState exampleLocations).requests ++ [uri] } ∧
      (exampleBackend uri).err = none ∧
      ({ dirHandleSnapshot with current := dirHandleSnapshot.entries } : Snapshot).entries =
        childrenOf (exampleBackend uri).rows ∧
      (childrenOf (exampleBackend uri).rows = [] →
        FsFindFirst 32 exampleBackend (initialState exampleLocations)
            (hostPath ["Repo1", "dir"]) zeroFindData =
          some ({ ({ initialState exampleLocations with
              requests := [some (bytes "svn://h/a/dir")] } : State) with
            lastError := ERROR_NO_MORE_FILES }, HANDLE.invalid, zeroFindData)) ∧
      (∀ first rest, childrenOf (exampleBackend uri).rows = first :: rest →
        FsFindFirst 32 exampleBackend (initialState exampleLocations)
            (hostPath ["Repo1", "dir"]) zeroFindData =
          some ({ initialState exampleLocations with
              requests := [some (bytes "svn://h/a/dir")] },
            HANDLE.nested
              { ({ dirHandleSnapshot with current := dirHandleSnapshot.entries } : Snapshot) with
                current := rest },
            getSvnNode 32 first zeroFindData) ∧
        ∃ findDataEnd,
          findAll 32 (rest.length + 1)
              { initialState exampleLocations with requests := [some (bytes "svn://h/a/dir")] }
              (HANDLE.nested
                { ({ dirHandleSnapshot with current := dirHandleSnapshot.entries } : Snapshot)
                  with current := rest })
              (getSvnNode 32 first zeroFindData) =
            some (yieldAll 32 rest (getSvnNode 32 first zeroFindData),
              { initialState exampleLocations with requests := [some (bytes "svn://h/a/dir")] },
              HANDLE.nested
                { ({ dirHandleSnapshot with current := dirHandleSnapshot.entries } : Snapshot)
                  with
                  current :=
                    ({ dirHandleSnapshot with current := dirHandleSnapshot.entries } :
                      Snapshot).entries },
              findDataEnd)) ∧
      (MAX_PATH < 2 ^ 32 → ∀ (obj : SVNObject) (fd : WIN32_FIND_DATA),
        cstrAt (getSvnNode 32 obj fd).cFileName 0 MAX_PATH =
          (cstr obj.name).take (MAX_PATH - 1)) :=
  ⟨by decide, by decide, by rfl, by rfl,
    nested_enumeration_yields_children 32 exampleBackend (initialState exampleLocations)
      (hostPath ["Repo1", "dir"]) zeroFindData
      { initialState exampleLocations with requests := [some (bytes "svn://h/a/dir")] }
      { dirHandleSnapshot with current := dirHandleSnapshot.entries } (by decide) (by decide)
      (by rfl)⟩

/-! ## Claim on chains of appends -/

/-- One append in a chain: when the buffer holds the first bytes of `acc` and the terminating
zero, it holds the first bytes of `acc ++ s` and the terminating zero after
`strbuf_cat(&s, s, len(s))`. -/
theorem strbuf_cat_chain_step (w c base : Nat) (hc : 1 ≤ c) (hw : c < 2 ^ w) (mem : Memory)
    (acc s : List Nat)
    (hbytes : ∀ i, i < min acc.length (c - 1) → mem (base + i) = acc.getD i 0) :
    (∀ i, i < min (acc ++ s).length (c - 1) →
      (strbuf_cat w mem
        { data := base + min acc.length (c - 1), size := c - min acc.length (c - 1) } s
        s.length).1 (base + i) = (acc ++ s).getD i 0) ∧
    (strbuf_cat w mem
        { data := base + min acc.length (c - 1), size := c - min acc.length (c - 1) } s
        s.length).1 (base + min (acc ++ s).length (c - 1)) = 0 ∧
    (strbuf_cat w mem
        { data := base + min acc.length (c - 1), size := c - min acc.length (c - 1) } s
        s.length).2 =
      { data := base + min (acc ++ s).length (c - 1),
        size := c - min (acc ++ s).length (c - 1) } := by
  have hcat := @strbuf_cat_of_pos w mem
    { data := base + min acc.length (c - 1), size := c - min acc.length (c - 1) } s s.length
    (by simp only; omega) (by simp only; omega)
  simp only at hcat
  have hm : min acc.length (c - 1) + min s.length (c - min acc.length (c - 1) - 1) =
      min (acc ++ s).length (c - 1) := by
    rw [List.length_append]
    omega
  rw [hcat]
  refine ⟨?_, ?_, ?_⟩
  · intro i hi
    simp only [poke, memcpy]
    have h1 : base + i ≠ base + min acc.length (c - 1) +
        min s.length (c - min acc.length (c - 1) - 1) := by omega
    rw [if_neg h1]
    by_cases hlt : i < min acc.length (c - 1)
    · have h2 : ¬ (base + min acc.length (c - 1) ≤ base + i ∧
          base + i < base + min acc.length (c - 1) +
            min s.length (c - min acc.length (c - 1) - 1)) := by omega
      rw [if_neg h2, hbytes i hlt]
      have hia : i < acc.length := by omega
      rw [List.getD_append _ _ _ _ hia]
    · have h2 : base + min acc.length (c - 1) ≤ base + i ∧
          base + i < base + min acc.length (c - 1) +
            min s.length (c - min acc.length (c - 1) - 1) := by omega
      rw [if_pos h2]
      have hacc : min acc.length (c - 1) = acc.length := by omega
      have hsub : base + i - (base + min acc.length (c - 1)) = i - acc.length := by omega
      rw [hsub, List.getD_append_right _ _ _ _ (by omega)]
  · simp only [poke]
    have h1 : base + min (acc ++ s).length (c - 1) =
        base + min acc.length (c - 1) + min s.length (c - min acc.length (c - 1) - 1) := by
      omega
    rw [if_pos h1]
  · have h1 : base + min acc.length (c - 1) + min s.length (c - min acc.length (c - 1) - 1) =
        base + min (acc ++ s).length (c - 1) := by omega
    have h2 : c - min acc.length (c - 1) - min s.length (c - min acc.length (c - 1) - 1) =
        c - min (acc ++ s).length (c - 1) := by omega
    rw [h1, h2]

theorem runCalls_catAll_cons (w : Nat) (s : List Nat) (rest : List (List Nat))
    (st : Memory × strbuf_t) :
    runCalls w (catAll (s :: rest)) st =
      runCalls w (catAll rest) (strbuf_cat w st.1 st.2 s s.length) := rfl

/-- A chain of appends on a buffer that holds the first bytes of `acc` and the terminating
zero leaves the first bytes of `acc` followed by the strings and the terminating zero. -/
theorem strbuf_cat_chain_inv (w c base : Nat) (hc : 1 ≤ c) (hw : c < 2 ^ w)
    (strings : List (List Nat)) :
    ∀ (mem : Memory) (acc : List Nat),
      (∀ i, i < min acc.length (c - 1) → mem (base + i) = acc.getD i 0) →
      mem (base + min acc.length (c - 1)) = 0 →
      (∀ i, i < min (acc ++ strings.flatten).length (c - 1) →
        (runCalls w (catAll strings)
          (mem, { data := base + min acc.length (c - 1),
                  size := c - min acc.length (c - 1) })).1 (base + i) =
          (acc ++ strings.flatten).getD i 0) ∧
      (runCalls w (catAll strings)
          (mem, { data := base + min acc.length (c - 1),
                  size := c - min acc.length (c - 1) })).1
          (base + min (acc ++ strings.flatten).length (c - 1)) = 0 ∧
      (runCalls w (catAll strings)
          (mem, { data := base + min acc.length (c - 1),
                  size := c - min acc.length (c - 1) })).2 =
        { data := base + min (acc ++ strings.flatten).length (c - 1),
          size := c - min (acc ++ strings.flatten).length (c - 1) } := by
  induction strings with
  | nil =>
    intro mem acc hbytes hzero
    simp only [List.flatten_nil, List.append_nil]
    exact ⟨hbytes, hzero, rfl⟩
  | cons s rest ih =>
    intro mem acc hbytes hzero
    obtain ⟨h1, h2, h3⟩ := strbuf_cat_chain_step w c base hc hw mem acc s hbytes
    rw [runCalls_catAll_cons]
    simp only [List.flatten_cons, ← List.append_assoc]
    have hst : strbuf_cat w mem
        { data := base + min acc.length (c - 1), size := c - min acc.length (c - 1) } s
        s.length =
        ((strbuf_cat w mem
          { data := base + min acc.length (c - 1), size := c - min acc.length (c - 1) } s
          s.length).1,
          { data := base + min (acc ++ s).length (c - 1),
            size := c - min (acc ++ s).length (c - 1) }) := by
      rw [← h3]
    rw [hst]
    exact ih _ (acc ++ s) h1 h2

theorem bufferBytes_eq (mem : Memory) (base n : Nat) (l : List Nat) (hlen : l.length = n)
    (h : ∀ i, i < n → mem (base + i) = l.getD i 0) : bufferBytes mem base n = l := by
  unfold bufferBytes
  apply List.ext_getElem
  · simp [hlen]
  · intro i h1 h2
    simp only [List.length_map, List.length_range] at h1
    simp only [List.getElem_map, List.getElem_range]
    rw [h i h1, List.getD_eq_getElem _ _ h2]

/-- What a non-empty chain of appends leaves in a buffer of capacity `c`. -/
theorem strbuf_cat_chain_bytes (w c base : Nat) (mem : Memory) (strings : List (List Nat))
    (hc : 1 ≤ c) (hw : c < 2 ^ w) (hne : strings ≠ []) :
    bufferBytes (runCalls w (catAll strings) (mem, strbuf_init base c)).1 base
        (min strings.flatten.length (c - 1) + 1) =
      strings.flatten.take (min strings.flatten.length (c - 1)) ++ [0] ∧
    (runCalls w (catAll strings) (mem, strbuf_init base c)).2 =
      { data := base + min strings.flatten.length (c - 1),
        size := c - min strings.flatten.length (c - 1) } := by
  cases strings with
  | nil => exact absurd rfl hne
  | cons s rest =>
    have h0 : min ([] : List Nat).length (c - 1) = 0 := by simp
    obtain ⟨h1, h2, h3⟩ := strbuf_cat_chain_step w c base hc hw mem [] s
      (by intro i hi; rw [h0] at hi; omega)
    rw [h0] at h1 h2 h3
    simp only [Nat.add_zero, Nat.sub_zero, List.nil_append] at h1 h2 h3
    have hst : strbuf_cat w mem { data := base, size := c } s s.length =
        ((strbuf_cat w mem { data := base, size := c } s s.length).1,
          { data := base + min s.length (c - 1), size := c - min s.length (c - 1) }) := by
      rw [← h3]
    obtain ⟨k1, k2, k3⟩ := strbuf_cat_chain_inv w c base hc hw rest
      (strbuf_cat w mem { data := base, size := c } s s.length).1 s h1 h2
    rw [runCalls_catAll_cons]
    show bufferBytes (runCalls w (catAll rest)
        (strbuf_cat w mem { data := base, size := c } s s.length)).1 base _ = _ ∧
      (runCalls w (catAll rest) (strbuf_cat w mem { data := base, size := c } s s.length)).2 = _
    rw [hst, List.flatten_cons]
    generalize s ++ rest.flatten = all at k1 k2 k3 ⊢
    refine ⟨?_, k3⟩
    apply bufferBytes_eq
    · simp only [List.length_append, List.length_take, List.length_singleton]
      omega
    · intro i hi
      have hlen : (all.take (min all.length (c - 1))).length = min all.length (c - 1) := by
        rw [List.length_take]
        omega
      by_cases hlt : i < min all.length (c - 1)
      · rw [k1 i hlt, List.getD_append _ _ _ _ (by rw [hlen]; exact hlt),
          List.getD_eq_getElem?_getD, List.getD_eq_getElem?_getD, List.getElem?_take, if_pos hlt]
      · have hi2 : i = min all.length (c - 1) := by omega
        rw [hi2, k2]
        rw [List.getD_append_right _ _ _ _ (by rw [hlen]), hlen]
        simp

/-- Claim C27.  For every capacity `c` of at least 1 (a `size_t` value) and every non-empty
list of byte strings, the chain of calls `strbuf_cat(&s, s_i, len(s_i))` on a buffer
initialised with capacity `c` leaves in the destination the first
`min (len(s_1) + ... + len(s_k)) (c - 1)` bytes of the concatenation of the strings, followed
by a zero byte, with the cursor on that zero byte: truncation keeps the start of the
concatenation, and once the buffer is full a later append adds nothing. -/
theorem strbuf_cat_chain_keeps_start (w c base : Nat) (mem : Memory)
    (strings : List (List Nat)) (hc : 1 ≤ c) (hw : c < 2 ^ w) (hne : strings ≠ []) :
    bufferBytes (runCalls w (catAll strings) (mem, strbuf_init base c)).1 base
        (min strings.flatten.length (c - 1) + 1) =
      strings.flatten.take (min strings.flatten.length (c - 1)) ++ [0] ∧
    (runCalls w (catAll strings) (mem, strbuf_init base c)).2 =
      { data := base + min strings.flatten.length (c - 1),
        size := c - min strings.flatten.length (c - 1) } ∧
    ∀ more : List (List Nat), c - 1 ≤ strings.flatten.length →
      bufferBytes (runCalls w (catAll (strings ++ more)) (mem, strbuf_init base c)).1 base c =
        bufferBytes (runCalls w (catAll strings) (mem, strbuf_init base c)).1 base c := by
  obtain ⟨h1, h2⟩ := strbuf_cat_chain_bytes w c base mem strings hc hw hne
  refine ⟨h1, h2, ?_⟩
  intro more hfull
  have hne2 : strings ++ more ≠ [] := by
    intro h
    exact hne (List.append_eq_nil.mp h).1
  obtain ⟨k1, _⟩ := strbuf_cat_chain_bytes w c base mem (strings ++ more) hc hw hne2
  have hm1 : min strings.flatten.length (c - 1) = c - 1 := by omega
  have hm2 : min (strings ++ more).flatten.length (c - 1) = c - 1 := by
    rw [List.flatten_append, List.length_append]
    omega
  have hc1 : c - 1 + 1 = c := by omega
  rw [hm1, hc1] at h1
  rw [hm2, hc1] at k1
  rw [h1, k1, List.flatten_append, List.take_append_of_le_length hfull]

/-- Witness of `strbuf_cat_chain_keeps_start`: the strings `abc`, `defgh` and `ij` appended to
a buffer of 8 bytes leave `abcdefg` and the terminating zero. -/
theorem strbuf_cat_chain_keeps_start_witness :
    1 ≤ 8 ∧ 8 < 2 ^ 32 ∧ [bytes "abc", bytes "defgh", bytes "ij"] ≠ [] ∧
    bufferBytes
        (runCalls 32 (catAll [bytes "abc", bytes "defgh", bytes "ij"])
          (fun _ => 255, strbuf_init 0 8)).1 0 8 =
      bytes "abcdefg" ++ [0] :=
  ⟨by decide, by decide, by decide,
    (strbuf_cat_chain_keeps_start 32 8 0 (fun _ => 255)
      [bytes "abc", bytes "defgh", bytes "ij"] (by decide) (by decide) (by decide)).1⟩

/-! ## Claims on the registry built by `loadConfig` -/

/-- The body of the loop of `loadConfig` puts the location of an accepted line in front of the
registry and leaves the registry as it is for any other line. -/
theorem loadConfig_line_cons (buf : List Nat) (locations : List Location) :
    loadConfig_line buf locations = (lineLocation buf).toList ++ locations := by
  unfold lineLocation loadConfig_line
  simp only
  split_ifs <;> rfl

/-- The registry after the loop of `loadConfig`: the locations of the accepted lines, the last
accepted line first, in front of the registry before the loop. -/
theorem loadConfig_loop_reads (fuel : Nat) :
    ∀ (text : List Nat) (locations : List Location), text.length ≤ fuel →
      loadConfig_loop fuel text locations =
        some (((loadConfig_reads fuel text).filterMap lineLocation).reverse ++ locations) := by
  induction fuel with
  | zero =>
    intro text locations hlen
    have : text = [] := List.length_eq_zero.mp (Nat.le_zero.mp hlen)
    subst this
    simp [loadConfig_loop, loadConfig_reads, fgets]
  | succ fuel ih =>
    intro text locations hlen
    by_cases hnil : text = []
    · subst hnil
      simp [loadConfig_loop, loadConfig_reads, fgets]
    · have hrest : (fgets_aux 1023 text).2.length ≤ fuel := by
        rcases fgets_aux_length 1022 text with h | h
        · have h1 : (1022 : Nat) + 1 = 1023 := rfl
          rw [h1] at h
          omega
        · exact absurd h hnil
      unfold loadConfig_loop loadConfig_reads
      simp only [fgets, hnil, if_false]
      rw [ih _ _ hrest, loadConfig_line_cons]
      cases hloc : lineLocation (fgets_aux 1023 text).1 <;> simp [List.filterMap_cons, hloc]

theorem loadConfig_registry (st : State) (text : List Nat) (created : Bool) :
    loadConfig st (some text) created =
      some { freeLocationsAndSnapshots st with
        locations := ((loadConfig_reads text.length text).filterMap lineLocation).reverse } := by
  unfold loadConfig
  simp only
  rw [loadConfig_loop_reads text.length text _ (Nat.le_refl _)]
  simp [freeLocationsAndSnapshots]

/-- Claim C25.  For every configuration text that can be read, the registry that `loadConfig`
builds holds the locations of the accepted lines in the reverse of the order in which `fgets`
delivers them, that is the reverse of the order of the file: the location loaded last comes
first.  For a text without a zero byte whose lines have at most 1022 bytes, the accepted lines
are the lines of the text that the specification of a line accepts; in the example `Repo1`
stands before `Repo2` in the file and after it in the registry. -/
theorem loadConfig_registry_reverses_file_order :
    (∀ (st : State) (text : List Nat) (created : Bool),
      loadConfig st (some text) created =
        some { freeLocationsAndSnapshots st with
          locations :=
            ((loadConfig_reads text.length text).filterMap lineLocation).reverse }) ∧
    (∀ text : List Nat, shortLines text →
      (loadConfig_reads text.length text).filterMap lineLocation =
        (splitLines text).filterMap configLine) ∧
    (splitLines exampleConfig).filterMap configLine = [repo1, repo2] ∧
    (loadConfig (initialState []) (some exampleConfig) true).map (fun st => st.locations) =
      some [repo2, repo1] := by
  refine ⟨loadConfig_registry, ?_, by decide, by rfl⟩
  intro text hshort
  have h1 := loadConfig_registry (initialState []) text true
  have h2 := loadConfig_eq_configLocations (initialState []) text true hshort
  rw [h1] at h2
  have h3 := congrArg (Option.map (fun st : State => st.locations.reverse)) h2
  simpa [configLocations] using h3

/-- Witness of `loadConfig_registry_reverses_file_order`: the lines of the example text. -/
theorem loadConfig_registry_reverses_file_order_witness :
    shortLines exampleConfig ∧
    (loadConfig_reads exampleConfig.length exampleConfig).filterMap lineLocation =
      (splitLines exampleConfig).filterMap configLine :=
  ⟨by decide, loadConfig_registry_reverses_file_order.2.1 exampleConfig (by decide)⟩

theorem mem_stripTrailingSpaces (region : List Nat) (b : Nat)
    (h : b ∈ stripTrailingSpaces region) : b ∈ region := by
  unfold stripTrailingSpaces at h
  rw [List.mem_reverse] at h
  exact List.mem_reverse.mp ((List.dropWhile_sublist _).subset h)

/-- The title of the location that the body of the loop of `loadConfig` makes of a line has no
zero byte, no backslash and no `=`. -/
theorem lineLocation_title (buf : List Nat) (L : Location) (h : lineLocation buf = some L) :
    0 ∉ L.title ∧ 92 ∉ L.title ∧ 61 ∉ L.title := by
  unfold lineLocation loadConfig_line at h
  simp only at h
  split_ifs at h <;> cases h
  have hmem : ∀ b ∈ stripTrailingSpaces
      ((buf.dropWhile isspace).takeWhile (fun c => c ≠ 0 ∧ c ≠ 92 ∧ c ≠ 61)),
      b ≠ 0 ∧ b ≠ 92 ∧ b ≠ 61 := by
    intro b hb
    have := List.mem_takeWhile_imp (mem_stripTrailingSpaces _ b hb)
    simpa using this
  exact ⟨fun h0 => (hmem 0 h0).1 rfl, fun h0 => (hmem 92 h0).2.1 rfl,
    fun h0 => (hmem 61 h0).2.2 rfl⟩

/-- Claim C26.  For every configuration text that can be read, `loadConfig` returns, and no
location of the registry it leaves has a backslash in its title; nor has a title a zero byte
or an `=`. -/
theorem loadConfig_titles_without_separator (st : State) (text : List Nat) (created : Bool) :
    ∃ st1, loadConfig st (some text) created = some st1 ∧
      ∀ L ∈ st1.locations, 92 ∉ L.title ∧ 0 ∉ L.title ∧ 61 ∉ L.title := by
  refine ⟨_, loadConfig_registry st text created, ?_⟩
  intro L hL
  simp only [List.mem_reverse, List.mem_filterMap] at hL
  obtain ⟨buf, _, hbuf⟩ := hL
  obtain ⟨h0, h92, h61⟩ := lineLocation_title buf L hbuf
  exact ⟨h92, h0, h61⟩

/-! ## Claim on the choice among matching locations -/

theorem querySnapshot_loop_first (w : Nat) (backend : Backend) (st : State) (snapshot : Snapshot)
    (path : List Nat) (locations : List Location) (L : Location)
    (hfirst : firstMatching path locations = some L) :
    querySnapshot_loop w backend st snapshot path locations =
      querySnapshot_found w backend st snapshot L
        (path.drop (min L.title.length (strlen path))) := by
  induction locations with
  | nil => simp [firstMatching] at hfirst
  | cons loc rest ih =>
    by_cases hag : agrees loc.title path
    · have hL : loc = L := by
        simpa [firstMatching, List.find?_cons, hag] using hfirst
      subst hL
      simp only [querySnapshot_loop, (strncmp_title_iff loc.title path).mpr hag, if_true]
    · have hne : ¬ strncmp path loc.title (min loc.title.length (strlen path)) = 0 :=
        fun h => hag ((strncmp_title_iff loc.title path).mp h)
      have hrest : firstMatching path rest = some L := by
        simpa [firstMatching, List.find?_cons, hag] using hfirst
      simp only [querySnapshot_loop, hne, if_false]
      exact ih hrest

theorem remoteNameToSvnURI_loop_select (path : List Nat) (locations : List Location)
    (L : Location) (hfirst : firstMatching path locations = some L) :
    remoteNameToSvnURI_loop path locations =
      if L.title.length ≤ strlen path then
        some (some (L.url ++ cstr (slashify (path.drop L.title.length))),
          path.take L.title.length ++ slashify (path.drop L.title.length))
      else none := by
  induction locations with
  | nil => simp [firstMatching] at hfirst
  | cons loc rest ih =>
    by_cases hag : agrees loc.title path
    · have hL : loc = L := by
        simpa [firstMatching, List.find?_cons, hag] using hfirst
      subst hL
      simp only [remoteNameToSvnURI_loop, (memcmp_title_iff loc.title path).mpr hag, if_true]
    · have hne : ¬ memcmp path loc.title (min (strlen path) loc.title.length) = 0 :=
        fun h => hag ((memcmp_title_iff loc.title path).mp h)
      have hrest : firstMatching path rest = some L := by
        simpa [firstMatching, List.find?_cons, hag] using hfirst
      simp only [remoteNameToSvnURI_loop, hne, if_false]
      exact ih hrest

theorem querySnapshot_found_location {w : Nat} {backend : Backend} {st st1 : State}
    {snapshot snapshot1 : Snapshot} {loc : Location} {sub : List Nat} {err : Option svn_error_t}
    (h : querySnapshot_found w backend st snapshot loc sub = some (st1, snapshot1, err)) :
    snapshot1.location = some loc := by
  unfold querySnapshot_found at h
  simp only [foldl_list_func, List.append_nil] at h
  split at h
  · exact absurd h (by simp)
  · split at h
    · simp only [Option.some.injEq, Prod.mk.injEq] at h
      rw [← h.2.1]
    · split at h
      · simp only [Option.some.injEq, Prod.mk.injEq] at h
        rw [← h.2.1]
      · exact absurd h (by simp)

/-- Claim C21.  When the title of a location `L` is the first of the registry, in its order,
that agrees with the path on `min (len title) (len path)` bytes, `querySnapshot` runs its body
for `L` and records `L` in the snapshot, and `remoteNameToSvnURI` builds its result from `L`,
whatever locations follow `L` in the registry.  In the example the configuration file has
`Repo1` before `Repo`, so that `loadConfig` puts `Repo`, loaded last, first: for the path
`Repo1\dir` both titles agree, and both resolvers choose `Repo`, although `Repo1` is the
longer title. -/
theorem resolvers_select_first_matching :
    (∀ (w : Nat) (backend : Backend) (st : State) (snapshot : Snapshot) (path : List Nat)
      (L : Location), firstMatching path st.locations = some L →
      querySnapshot w backend st snapshot path =
        querySnapshot_found w backend st snapshot L
          (path.drop (min L.title.length (strlen path))) ∧
      (∀ st1 snapshot1 err, querySnapshot w backend st snapshot path =
        some (st1, snapshot1, err) → snapshot1.location = some L) ∧
      remoteNameToSvnURI st path =
        if L.title.length ≤ strlen path then
          some (some (L.url ++ cstr (slashify (path.drop L.title.length))),
            path.take L.title.length ++ slashify (path.drop L.title.length))
        else none) ∧
    loadConfig (initialState []) (some overlapConfig) true =
      some (initialState [repoShort, repo1]) ∧
    (agrees repoShort.title (bytes "Repo1" ++ [92] ++ bytes "dir") ∧
      agrees repo1.title (bytes "Repo1" ++ [92] ++ bytes "dir")) ∧
    (querySnapshot 32 exampleBackend (initialState [repoShort, repo1]) emptySnapshot
        (bytes "Repo1" ++ [92] ++ bytes "dir")).map
        (fun r => (r.1.requests, r.2.1.location)) =
      some ([some (bytes "svn://h/b1/dir")], some repoShort) ∧
    (remoteNameToSvnURI (initialState [repoShort, repo1])
        (bytes "Repo1" ++ [92] ++ bytes "dir")).map Prod.fst =
      some (some (bytes "svn://h/b1/dir")) := by
  refine ⟨?_, by rfl, by decide, by rfl, by rfl⟩
  intro w backend st snapshot path L hfirst
  have hq := querySnapshot_loop_first w backend st snapshot path st.locations L hfirst
  refine ⟨hq, ?_, remoteNameToSvnURI_loop_select path st.locations L hfirst⟩
  intro st1 snapshot1 err h
  have h1 : querySnapshot_loop w backend st snapshot path st.locations =
      some (st1, snapshot1, err) := h
  rw [hq] at h1
  exact querySnapshot_found_location h1

/-- Witness of `resolvers_select_first_matching`: the path `Repo1\dir` in the registry with
`Repo` before `Repo1`. -/
theorem resolvers_select_first_matching_witness :
    firstMatching (bytes "Repo1" ++ [92] ++ bytes "dir")
        (initialState [repoShort, repo1]).locations = some repoShort ∧
    querySnapshot 32 exampleBackend (initialState [repoShort, repo1]) emptySnapshot
        (bytes "Repo1" ++ [92] ++ bytes "dir") =
      querySnapshot_found 32 exampleBackend (initialState [repoShort, repo1]) emptySnapshot
        repoShort
        ((bytes "Repo1" ++ [92] ++ bytes "dir").drop
          (min repoShort.title.length (strlen (bytes "Repo1" ++ [92] ++ bytes "dir")))) :=
  ⟨by decide,
    (resolvers_select_first_matching.1 32 exampleBackend (initialState [repoShort, repo1])
      emptySnapshot (bytes "Repo1" ++ [92] ++ bytes "dir") repoShort (by decide)).1⟩

/-! ## Claim on failed resolves -/

/-- A call of `querySnapshot` that returns an error leaves the sub-path of the snapshot as it
was. -/
theorem querySnapshot_loop_error_subPath {w : Nat} {backend : Backend} {st st1 : State}
    {snapshot snapshot1 : Snapshot} {path : List Nat} {err : svn_error_t}
    (locations : List Location)
    (h : querySnapshot_loop w backend st snapshot path locations =
      some (st1, snapshot1, some err)) :
    snapshot1.subPath = snapshot.subPath := by
  induction locations with
  | nil =>
    simp only [querySnapshot_loop, Option.some.injEq, Prod.mk.injEq] at h
    rw [← h.2.1]
  | cons loc rest ih =>
    simp only [querySnapshot_loop] at h
    split at h
    · unfold querySnapshot_found at h
      simp only [foldl_list_func, List.append_nil] at h
      split at h
      · exact absurd h (by simp)
      · split at h
        · simp only [Option.some.injEq, Prod.mk.injEq] at h
          rw [← h.2.1]
        · split at h
          · simp at h
          · exact absurd h (by simp)
    · exact ih h

/-- Whenever `FsContentGetValue` returns `FT_FILEERROR`, it leaves a cached snapshot without
sub-path, and the registry as it was. -/
theorem FsContentGetValue_error_state (w : Nat) (backend : Backend) (st : State)
    (fileName : List Nat) (fieldIndex : Int) (fieldValue : Memory) (maxLen : Nat)
    (r : GetValueResult)
    (h : FsContentGetValue w backend st fileName fieldIndex fieldValue maxLen = some r)
    (hret : r.ret = FT_FILEERROR) :
    r.state.cachedSnapshot.subPath.data = none ∧ r.state.locations = st.locations := by
  have hnsf : FT_NOSUCHFIELD ≠ FT_FILEERROR := by decide
  unfold FsContentGetValue at h
  simp only at h
  split at h
  · rw [← Option.some.inj h] at hret
    exact absurd hret hnsf
  · split at h
    · split at h
      · exact absurd h (by simp)
      · rw [← Option.some.inj h] at hret
        exact absurd hret (FsContentGetValue_lookup_ret _ _ _ _ _ _ _ _)
      · split at h
        · exact absurd h (by simp)
        · rename_i st1 snapshot err hq
          have hsub := querySnapshot_loop_error_subPath st.locations hq
          have hloc := querySnapshot_loop_locations st.locations hq
          rw [← Option.some.inj h]
          cases hm : err.message with
          | none =>
            simp only [hsub, destroySnapshot, hloc, and_self]
          | some m =>
            simp only [displayErrorMessage, hsub, destroySnapshot, hloc, and_self]
        · rw [← Option.some.inj h] at hret
          exact absurd hret (FsContentGetValue_lookup_ret _ _ _ _ _ _ _ _)
    · rw [← Option.some.inj h] at hret
      exact absurd hret hnsf

/-- Claim C23.  When the resolve that `FsContentGetValue` makes on a cache miss returns an
error, be it "Unknown Location" or an error of the listing, the call returns `FT_FILEERROR`.
Whenever it returns `FT_FILEERROR`, the cached snapshot is left without sub-path, so that the
reuse test fails for every later name, whatever entries were received before the error, and
the next call for a name of a location of the registry makes a listing request of its own
(URLs not ending with a slash, lengths within `size_t`).  In the example the listing of
`svn://h/a/dir` reports `file.txt` and then fails: the entry stays in the cache, and the
second call for `\Repo1\dir\file.txt` requests the listing again instead of answering from
it. -/
theorem failed_resolve_invalidates_cache :
    (∀ (w : Nat) (backend : Backend) (st : State) (fileName : List Nat) (fieldIndex : Int)
      (fieldValue : Memory) (maxLen last first : Nat) (st1 : State) (snapshot : Snapshot)
      (err : svn_error_t),
      0 ≤ fieldIndex ∧ fieldIndex < FI_MAX → fileName.headD 0 = 92 →
      strrchr fileName.tail 92 = some last → strchr fileName.tail 92 = some first →
      cacheReusable st.cachedSnapshot (slashify fileName.tail) first = some false →
      querySnapshot w backend st (destroySnapshot st.cachedSnapshot)
        ((slashify fileName.tail).set (last + 1) 0) = some (st1, snapshot, some err) →
      ∃ r, FsContentGetValue w backend st fileName fieldIndex fieldValue maxLen = some r ∧
        r.ret = FT_FILEERROR ∧ r.state.cachedSnapshot = snapshot ∧ r.longValue = none ∧
        r.fieldValue = fieldValue) ∧
    (∀ (w : Nat) (backend : Backend) (st : State) (fileName : List Nat) (fieldIndex : Int)
      (fieldValue : Memory) (maxLen : Nat) (r : GetValueResult),
      FsContentGetValue w backend st fileName fieldIndex fieldValue maxLen = some r →
      r.ret = FT_FILEERROR →
      r.state.cachedSnapshot.subPath.data = none ∧
      (∀ name first, cacheReusable r.state.cachedSnapshot name first = some false) ∧
      ∀ (fileName2 : List Nat) (fieldIndex2 : Int) (fieldValue2 : Memory)
        (maxLen2 last2 first2 : Nat) (L : Location),
        0 ≤ fieldIndex2 ∧ fieldIndex2 < FI_MAX → fileName2.headD 0 = 92 →
        strrchr fileName2.tail 92 = some last2 → strchr fileName2.tail 92 = some first2 →
        L ∈ r.state.locations → (cstr (slashify fileName2.tail)).take L.title.length = L.title →
        urlsWellFormed r.state.locations →
        (∀ loc ∈ r.state.locations, loc.url.length + fileName2.length < 2 ^ w) →
        ∃ r2 uri, FsContentGetValue w backend r.state fileName2 fieldIndex2 fieldValue2
            maxLen2 = some r2 ∧
          r2.state.requests = r.state.requests ++ [uri]) ∧
    (FsContentGetValue 32 failingBackend (initialState exampleLocations)
        (hostPath ["Repo1", "dir", "file.txt"]) 0 (fun _ => 0) 16).map
        (fun r => (r.ret, r.longValue, r.state.cachedSnapshot.entries.map (fun obj => obj.name),
          r.state.cachedSnapshot.subPath.data, r.state.requests)) =
      some (FT_FILEERROR, none, [bytes "file.txt"], none, [some (bytes "svn://h/a/dir")]) ∧
    ((FsContentGetValue 32 failingBackend (initialState exampleLocations)
        (hostPath ["Repo1", "dir", "file.txt"]) 0 (fun _ => 0) 16).bind
        (fun r0 => FsContentGetValue 32 failingBackend r0.state
          (hostPath ["Repo1", "dir", "file.txt"]) 0 (fun _ => 0) 16)).map
        (fun r => (r.ret, r.longValue, r.state.requests)) =
      some (FT_FILEERROR, none,
        [some (bytes "svn://h/a/dir"), some (bytes "svn://h/a/dir")]) := by
  refine ⟨?_, ?_, by rfl, by rfl⟩
  · intro w backend st fileName fieldIndex fieldValue maxLen last first st1 snapshot err hidx
      hsep hlast hfirst hmiss hfail
    have hcall := FsContentGetValue_of_wellformed w backend st fileName fieldIndex fieldValue
      maxLen last first hidx hsep hlast hfirst
    rw [hmiss] at hcall
    simp only [hfail] at hcall
    refine ⟨_, hcall, rfl, ?_, rfl, rfl⟩
    cases hm : err.message <;> simp [displayErrorMessage]
  · intro w backend st fileName fieldIndex fieldValue maxLen r h hret
    obtain ⟨hdata, _⟩ := FsContentGetValue_error_state w backend st fileName fieldIndex
      fieldValue maxLen r h hret
    have hmiss : ∀ name first, cacheReusable r.state.cachedSnapshot name first = some false := by
      intro name first
      unfold cacheReusable
      split
      · rfl
      · rw [hdata]
    refine ⟨hdata, hmiss, ?_⟩
    intro fileName2 fieldIndex2 fieldValue2 maxLen2 last2 first2 L hidx hsep hlast hfirst hmem
      hpre hurls hsize
    exact FsContentGetValue_miss_requests w backend r.state fileName2 fieldIndex2 fieldValue2
      maxLen2 last2 first2 L hidx hsep hlast hfirst (hmiss _ _) hmem hpre hurls hsize

/-- Witness of `failed_resolve_invalidates_cache`: the file `\Repo1\dir\file.txt` in the
repository whose listing of `svn://h/a/dir` fails after it has reported an entry. -/
theorem failed_resolve_invalidates_cache_witness :
    FsContentGetValue 32 failingBackend (initialState exampleLocations)
        (hostPath ["Repo1", "dir", "file.txt"]) 0 (fun _ => 0) 16 =
      some
        { state :=
            { initialState exampleLocations with
              cachedSnapshot :=
                { location := some repo1, subPath := { data := none, len := 0 },
                  entries := [{ name := bytes "file.txt", dirent := (fileRow "file.txt" 4).2 }],
                  current := [] }
              requests := [some (bytes "svn://h/a/dir")]
              messages := [bytes "not found"] }
          fileName := 92 :: bytes "Repo1/dir/file.txt"
          ret := FT_FILEERROR
          longValue := none
          fieldValue := fun _ => 0 } ∧
    ∀ name first,
      cacheReusable
        ({ location := some repo1, subPath := { data := none, len := 0 },
           entries := [{ name := bytes "file.txt", dirent := (fileRow "file.txt" 4).2 }],
           current := [] } : Snapshot) name first = some false :=
  have hcall : FsContentGetValue 32 failingBackend (initialState exampleLocations)
        (hostPath ["Repo1", "dir", "file.txt"]) 0 (fun _ => 0) 16 =
      some
        { state :=
            { initialState exampleLocations with
              cachedSnapshot :=
                { location := some repo1, subPath := { data := none, len := 0 },
                  entries := [{ name := bytes "file.txt", dirent := (fileRow "file.txt" 4).2 }],
                  current := [] }
              requests := [some (bytes "svn://h/a/dir")]
              messages := [bytes "not found"] }
          fileName := 92 :: bytes "Repo1/dir/file.txt"
          ret := FT_FILEERROR
          longValue := none
          fieldValue := fun _ => 0 } := by rfl
  ⟨hcall,
    (failed_resolve_invalidates_cache.2.1 32 failingBackend (initialState exampleLocations)
      (hostPath ["Repo1", "dir", "file.txt"]) 0 (fun _ => 0) 16 _ hcall rfl).2.1⟩

/-! ## Claim on the URI that `querySnapshot` requests -/

theorem takeWhile_eq_replicate (l : List Nat) :
    l.takeWhile (fun c => decide (c = 47)) =
      List.replicate (l.takeWhile (fun c => decide (c = 47))).length 47 := by
  induction l with
  | nil => rfl
  | cons c l ih =>
    by_cases hc : c = 47
    · subst hc
      rw [List.takeWhile_cons_of_pos (by simp), List.length_cons, List.replicate_succ, ← ih]
    · rw [List.takeWhile_cons_of_neg (by simpa using hc)]
      rfl

/-- A string is its part without the trailing slashes followed by as many slashes as it has at
its end. -/
theorem stripTrailingSlashes_append (s : List Nat) :
    s = stripTrailingSlashes s ++ List.replicate (trailingSlashes s) 47 := by
  unfold stripTrailingSlashes trailingSlashes
  have h := List.takeWhile_append_dropWhile (fun c => decide (c = 47)) s.reverse
  have h1 := congrArg List.reverse h
  rw [List.reverse_append, List.reverse_reverse] at h1
  rw [takeWhile_eq_replicate s.reverse, List.reverse_replicate] at h1
  exact h1.symm

theorem stripTrailingSlashes_getLast (s : List Nat) :
    (stripTrailingSlashes s).getLast? ≠ some 47 := by
  unfold stripTrailingSlashes
  rw [List.getLast?_reverse]
  intro h
  have h1 := List.head?_dropWhile_not (fun c => decide (c = 47)) s.reverse
  rw [h] at h1
  simp at h1

theorem length_stripTrailingSlashes (s : List Nat) :
    (stripTrailingSlashes s).length + trailingSlashes s = s.length := by
  have h := congrArg List.length (stripTrailingSlashes_append s)
  rw [List.length_append, List.length_replicate] at h
  exact h.symm

theorem memoryOf_poke_end (l : List Nat) (x : Nat) :
    poke (memoryOf (l ++ [x])) l.length 0 = memoryOf l := by
  funext i
  unfold poke memoryOf
  by_cases hi : i = l.length
  · subst hi
    simp
  · rw [if_neg hi]
    by_cases hlt : i < l.length
    · rw [List.getD_append _ _ _ _ hlt]
    · have h1 : l.length ≤ i := by omega
      have h2 : (l ++ [x]).length ≤ i := by
        rw [List.length_append, List.length_singleton]
        omega
      rw [List.getD_eq_default _ _ h1, List.getD_eq_default _ _ h2]

/-- The trimming loop of `querySnapshot` on a buffer that holds a string ending with `k`
slashes after a byte that is no slash: it removes the `k` slashes and takes `k` from the
length. -/
theorem trimTrailingSlashes_memoryOf (w : Nat) (k : Nat) :
    ∀ (l0 : List Nat) (size n x : Nat), l0.getLast? = some x → x ≠ 47 → k ≤ n → n < 2 ^ w →
      ∃ s1, trimTrailingSlashes w (memoryOf (l0 ++ List.replicate k 47)) (l0.length + k) size n =
        some (memoryOf l0, s1, n - k) := by
  induction k with
  | zero =>
    intro l0 size n x hlast hx _ _
    have hne : l0 ≠ [] := by
      intro h
      rw [h] at hlast
      simp at hlast
    obtain ⟨d, hd⟩ : ∃ d, l0.length = d + 1 :=
      ⟨l0.length - 1, by have := List.length_pos.mpr hne; omega⟩
    have hmem : memoryOf l0 d ≠ 47 := by
      unfold memoryOf
      rw [List.getLast?_eq_getElem?, hd] at hlast
      rw [List.getD_eq_getElem?_getD]
      simp only [Nat.add_sub_cancel] at hlast
      rw [hlast]
      exact hx
    refine ⟨{ data := d + 1, size := size }, ?_⟩
    simp only [List.replicate_zero, List.append_nil, Nat.add_zero, hd, Nat.sub_zero]
    simp only [trimTrailingSlashes, hmem, if_false]
  | succ k ih =>
    intro l0 size n x hlast hx hk hn
    obtain ⟨s1, hrec⟩ := ih l0 (size_add w size 1) (n - 1) x hlast hx (by omega) (by omega)
    refine ⟨s1, ?_⟩
    have hl : l0 ++ List.replicate (k + 1) 47 = (l0 ++ List.replicate k 47) ++ [47] := by
      rw [List.replicate_succ', List.append_assoc]
    have hlen : (l0 ++ List.replicate k 47).length = l0.length + k := by
      rw [List.length_append, List.length_replicate]
    have hbyte : memoryOf ((l0 ++ List.replicate k 47) ++ [47]) (l0.length + k) = 47 := by
      unfold memoryOf
      rw [List.getD_append_right _ _ _ _ (by rw [hlen]), hlen]
      simp
    have hpoke := memoryOf_poke_end (l0 ++ List.replicate k 47) 47
    rw [hlen] at hpoke
    have hsub : size_sub w n 1 = n - 1 := size_sub_of_le hn (by omega)
    have hres : n - 1 - k = n - (k + 1) := by omega
    rw [hl, ← Nat.add_assoc]
    simp only [trimTrailingSlashes, hbyte, if_true, hpoke, hsub]
    rw [hrec, hres]

theorem memoryOf_nil : memoryOf [] = fun _ => 0 := by
  funext i
  simp [memoryOf]

theorem memoryOf_cat (l src : List Nat) (n : Nat) :
    poke (memcpy (memoryOf l) l.length src n) (l.length + n) 0 = memoryOf (l ++ src.take n) := by
  funext i
  unfold poke memcpy memoryOf
  by_cases hi : i = l.length + n
  · rw [if_pos hi, List.getD_eq_default]
    rw [List.length_append, List.length_take]
    omega
  · rw [if_neg hi]
    by_cases hlt : i < l.length
    · have h1 : ¬ (l.length ≤ i ∧ i < l.length + n) := by omega
      rw [if_neg h1, List.getD_append _ _ _ _ hlt]
    · by_cases hin : i < l.length + n
      · have h1 : l.length ≤ i ∧ i < l.length + n := by omega
        have h2 : i - l.length < n := by omega
        rw [if_pos h1, List.getD_append_right _ _ _ _ (by omega), List.getD_eq_getElem?_getD,
          List.getD_eq_getElem?_getD, List.getElem?_take, if_pos h2]
      · have h1 : ¬ (l.length ≤ i ∧ i < l.length + n) := by omega
        rw [if_neg h1, List.getD_eq_default _ _ (by omega), List.getD_eq_default]
        rw [List.length_append, List.length_take]
        omega

theorem cstrAt_memoryOf_append (l t : List Nat) (bound : Nat) (ht : ∀ b ∈ t, b ≠ 0)
    (hb : t.length < bound) : cstrAt (memoryOf (l ++ t)) l.length bound = t := by
  apply cstrAt_of_bytes t _ _ _ ht hb
  · intro i hi
    unfold memoryOf
    rw [List.getD_append_right _ _ _ _ (by omega)]
    have : l.length + i - l.length = i := by omega
    rw [this]
  · unfold memoryOf
    rw [List.getD_eq_default]
    rw [List.length_append]

theorem replaceAll_of_zero_free (s : List Nat) (oldVal newVal : Nat) (h : ∀ b ∈ s, b ≠ 0) :
    replaceAll s oldVal newVal = s.map (fun b => if b = oldVal then newVal else b) := by
  induction s with
  | nil => rfl
  | cons c s ih =>
    have hc : c ≠ 0 := h c (List.mem_cons_self _ _)
    simp only [replaceAll, hc, if_false, List.map_cons]
    rw [ih (fun b hb => h b (List.mem_cons_of_mem _ hb))]

theorem slashify_of_zero_free (s : List Nat) (h : ∀ b ∈ s, b ≠ 0) :
    slashify s = s.map normalizeSeparator :=
  replaceAll_of_zero_free s 92 47 h

theorem memoryOf_replace (l t t1 : List Nat) (h : t1.length = t.length) :
    memcpy (memoryOf (l ++ t)) l.length t1 t.length = memoryOf (l ++ t1) := by
  funext i
  unfold memcpy memoryOf
  by_cases hlt : i < l.length
  · have h1 : ¬ (l.length ≤ i ∧ i < l.length + t.length) := by omega
    rw [if_neg h1, List.getD_append _ _ _ _ hlt, List.getD_append _ _ _ _ hlt]
  · by_cases hin : i < l.length + t.length
    · have h1 : l.length ≤ i ∧ i < l.length + t.length := by omega
      rw [if_pos h1, List.getD_append_right _ _ _ _ (by omega)]
    · have h1 : ¬ (l.length ≤ i ∧ i < l.length + t.length) := by omega
      rw [if_neg h1, List.getD_eq_default, List.getD_eq_default]
      · rw [List.length_append]
        omega
      · rw [List.length_append]
        omega

theorem slashifyAt_memoryOf (l t : List Nat) (bound : Nat) (ht : ∀ b ∈ t, b ≠ 0)
    (hb : t.length < bound) :
    slashifyAt (memoryOf (l ++ t)) l.length bound = memoryOf (l ++ t.map normalizeSeparator) := by
  unfold slashifyAt
  rw [cstrAt_memoryOf_append l t bound ht hb, slashify_of_zero_free t ht]
  exact memoryOf_replace l t _ (List.length_map _ _)

theorem normalizeSeparator_ne_zero (t : List Nat) (ht : ∀ b ∈ t, b ≠ 0) :
    ∀ b ∈ t.map normalizeSeparator, b ≠ 0 := by
  intro b hb
  obtain ⟨a, ha, hab⟩ := List.mem_map.mp hb
  rw [← hab]
  unfold normalizeSeparator
  split
  · decide
  · exact ht a ha

/-- The composition of the URI in `querySnapshot` for a URL that does not end with a slash and
a non-empty remainder: the buffer holds the URL followed by the remainder with its separators
normalised and without its trailing slashes, and the length of the sub-path is that of the
remainder less the number of these slashes. -/
theorem querySnapshot_compose_eq (w : Nat) (loc : Location) (sub : List Nat) (x : Nat)
    (hlast : loc.url.getLast? = some x) (hx : x ≠ 47) (hsub : strlen sub ≠ 0)
    (hsize : loc.url.length + strlen sub + 1 < 2 ^ w) :
    ∃ s1, querySnapshot_compose w loc sub =
      some (memoryOf (loc.url ++ stripTrailingSlashes ((cstr sub).map normalizeSeparator)), s1,
        strlen sub - trailingSlashes ((cstr sub).map normalizeSeparator)) := by
  have hnz := mem_cstr_ne_zero sub
  have hlen : (cstr sub).length = strlen sub := length_cstr sub
  have hmem1 : poke (memcpy (fun _ => 0) 0 loc.url loc.url.length) loc.url.length 0 =
      memoryOf loc.url := by
    have h := memoryOf_cat [] loc.url loc.url.length
    rw [memoryOf_nil, List.take_length] at h
    simpa using h
  have hmem2 : poke (memcpy (memoryOf loc.url) loc.url.length sub (strlen sub))
      (loc.url.length + strlen sub) 0 = memoryOf (loc.url ++ cstr sub) :=
    memoryOf_cat loc.url sub (strlen sub)
  have hmem3 : slashifyAt (memoryOf (loc.url ++ cstr sub)) loc.url.length (strlen sub + 1) =
      memoryOf (loc.url ++ (cstr sub).map normalizeSeparator) :=
    slashifyAt_memoryOf loc.url (cstr sub) _ hnz (by omega)
  have hdec := stripTrailingSlashes_append ((cstr sub).map normalizeSeparator)
  have hcount := length_stripTrailingSlashes ((cstr sub).map normalizeSeparator)
  rw [List.length_map, hlen] at hcount
  have hlast0 : ∃ y, (loc.url ++
      stripTrailingSlashes ((cstr sub).map normalizeSeparator)).getLast? = some y ∧ y ≠ 47 := by
    cases hs : (stripTrailingSlashes ((cstr sub).map normalizeSeparator)).getLast? with
    | none =>
      have hnil := List.getLast?_eq_none_iff.mp hs
      rw [hnil, List.append_nil]
      exact ⟨x, hlast, hx⟩
    | some y =>
      refine ⟨y, ?_, ?_⟩
      · rw [List.getLast?_append, hs]
        rfl
      · intro hy
        rw [hy] at hs
        exact stripTrailingSlashes_getLast _ hs
  obtain ⟨y, hy, hy47⟩ := hlast0
  obtain ⟨s1, htrim⟩ := trimTrailingSlashes_memoryOf w
    (trailingSlashes ((cstr sub).map normalizeSeparator))
    (loc.url ++ stripTrailingSlashes ((cstr sub).map normalizeSeparator)) 1 (strlen sub) y hy
    hy47 (by omega) (by omega)
  rw [List.append_assoc, ← hdec, List.length_append] at htrim
  have haddr : loc.url.length +
      (stripTrailingSlashes ((cstr sub).map normalizeSeparator)).length +
      trailingSlashes ((cstr sub).map normalizeSeparator) = loc.url.length + strlen sub := by
    omega
  rw [haddr] at htrim
  refine ⟨s1, ?_⟩
  unfold querySnapshot_compose
  simp only [hsub, ne_eq, not_false_eq_true, if_true]
  rw [strbuf_cat_fits (fun _ => 0) { data := 0, size := loc.url.length + strlen sub + 1 }
    loc.url loc.url.length hsize (by simp only; omega)]
  simp only [Nat.zero_add]
  have hsz : loc.url.length + strlen sub + 1 - loc.url.length = strlen sub + 1 := by omega
  rw [hsz, hmem1]
  rw [strbuf_cat_fits _ { data := loc.url.length, size := strlen sub + 1 } sub (strlen sub)
    (by simp only; omega) (by simp only; omega)]
  simp only
  have hsz1 : strlen sub + 1 - strlen sub = 1 := by omega
  rw [hmem2, hmem3, hsz1]
  exact htrim

theorem mem_stripTrailingSlashes (s : List Nat) (b : Nat) (h : b ∈ stripTrailingSlashes s) :
    b ∈ s := by
  unfold stripTrailingSlashes at h
  rw [List.mem_reverse] at h
  exact List.mem_reverse.mp ((List.dropWhile_sublist _).subset h)

/-- The body of `querySnapshot` for a URL without zero byte that does not end with a slash and
a non-empty remainder: the URI of the request and the sub-path recorded on success. -/
theorem querySnapshot_found_uri (w : Nat) (backend : Backend) (st : State) (snapshot : Snapshot)
    (loc : Location) (sub : List Nat) (x : Nat) (hz : ∀ c ∈ loc.url, c ≠ 0)
    (hlast : loc.url.getLast? = some x) (hx : x ≠ 47) (hsub : strlen sub ≠ 0)
    (hsize : loc.url.length + strlen sub + 1 < 2 ^ w) :
    ∃ snapshot1 err,
      querySnapshot_found w backend st snapshot loc sub =
        some ({ st with
            requests := st.requests ++
              [escapeURI
                (loc.url ++ stripTrailingSlashes ((cstr sub).map normalizeSeparator))] },
          snapshot1, err) ∧
      err = (backend (escapeURI
        (loc.url ++ stripTrailingSlashes ((cstr sub).map normalizeSeparator)))).err ∧
      (err = none →
        snapshot1.subPath =
          { data := some ((List.range
              (strlen sub - trailingSlashes ((cstr sub).map normalizeSeparator) + 1)).map
              (byteAt sub)),
            len := strlen sub - trailingSlashes ((cstr sub).map normalizeSeparator) }) := by
  obtain ⟨s1, hcomp⟩ := querySnapshot_compose_eq w loc sub x hlast hx hsub hsize
  have hcount := length_stripTrailingSlashes ((cstr sub).map normalizeSeparator)
  rw [List.length_map, length_cstr] at hcount
  have hnz : ∀ b ∈ loc.url ++ stripTrailingSlashes ((cstr sub).map normalizeSeparator),
      b ≠ 0 := by
    intro b hb
    rcases List.mem_append.mp hb with h | h
    · exact hz b h
    · exact normalizeSeparator_ne_zero (cstr sub) (mem_cstr_ne_zero sub) b
        (mem_stripTrailingSlashes _ b h)
  have hstr : cstrAt
      (memoryOf (loc.url ++ stripTrailingSlashes ((cstr sub).map normalizeSeparator))) 0
      (loc.url.length + strlen sub + 1) =
      loc.url ++ stripTrailingSlashes ((cstr sub).map normalizeSeparator) := by
    have h := cstrAt_memoryOf_append []
      (loc.url ++ stripTrailingSlashes ((cstr sub).map normalizeSeparator))
      (loc.url.length + strlen sub + 1) hnz (by rw [List.length_append]; omega)
    simpa using h
  have hadd : size_add w (strlen sub - trailingSlashes ((cstr sub).map normalizeSeparator)) 1 =
      strlen sub - trailingSlashes ((cstr sub).map normalizeSeparator) + 1 :=
    size_add_of_lt (by omega)
  have hle : strlen sub - trailingSlashes ((cstr sub).map normalizeSeparator) + 1 ≤
      strlen sub + 1 := by omega
  unfold querySnapshot_found
  simp only [hcomp, hstr, foldl_list_func, List.append_nil, hadd, hle, if_true]
  cases herr : (backend (escapeURI
      (loc.url ++ stripTrailingSlashes ((cstr sub).map normalizeSeparator)))).err with
  | some e => exact ⟨_, _, rfl, rfl, fun h => absurd h (by simp)⟩
  | none => exact ⟨_, _, rfl, rfl, fun _ => rfl⟩

/-- Claim C22.  For a matched location whose URL has no zero byte and does not end with a
slash, and a path with a non-empty remainder after the matched bytes (lengths within
`size_t`), `querySnapshot` requests the escaped URI made of the URL followed by the remainder
with its separators normalised and without its trailing slashes, and on success it records as
length of the sub-path the length of the remainder less the number of these slashes; the URL
stays whole and the length does not go below zero.  The claim fails for a URL that ends with a
slash: for the location `R` with the URL `svn://h/a/` and the file `\R\f`, the remainder is
`/`, the loop removes this slash and then the last byte of the URL, the request is made for
`svn://h/a`, and the recorded length is `0 - 1`, which is `2 ^ 32 - 1` as a `size_t`. -/
theorem querySnapshot_strips_trailing_slashes :
    (∀ (w : Nat) (backend : Backend) (st : State) (snapshot : Snapshot) (path sub : List Nat)
      (L : Location) (x : Nat), firstMatching path st.locations = some L →
      sub = path.drop (min L.title.length (strlen path)) → strlen sub ≠ 0 →
      (∀ c ∈ L.url, c ≠ 0) → L.url.getLast? = some x → x ≠ 47 →
      L.url.length + strlen sub + 1 < 2 ^ w →
      ∃ snapshot1 err,
        querySnapshot w backend st snapshot path =
          some ({ st with
              requests := st.requests ++
                [escapeURI
                  (L.url ++ stripTrailingSlashes ((cstr sub).map normalizeSeparator))] },
            snapshot1, err) ∧
        trailingSlashes ((cstr sub).map normalizeSeparator) ≤ strlen sub ∧
        (err = none →
          snapshot1.location = some L ∧
          snapshot1.subPath.len =
            strlen sub - trailingSlashes ((cstr sub).map normalizeSeparator))) ∧
    (querySnapshot 32 exampleBackend (initialState [slashUrlLocation]) emptySnapshot
        (bytes "R/")).map (fun r => (r.1.requests, r.2.1.subPath, r.2.2)) =
      some ([some (bytes "svn://h/a")], { data := some [], len := 4294967295 }, none) ∧
    (FsContentGetValue 32 exampleBackend (initialState [slashUrlLocation])
        (hostPath ["R", "f"]) 0 (fun _ => 0) 16).map
        (fun r => (r.state.requests, r.state.cachedSnapshot.subPath)) =
      some ([some (bytes "svn://h/a")], { data := some [], len := 4294967295 }) := by
  refine ⟨?_, by rfl, by rfl⟩
  intro w backend st snapshot path sub L x hfirst hsub hlen hz hlast hx hsize
  obtain ⟨snapshot1, err, hfound, _, hsuccess⟩ :=
    querySnapshot_found_uri w backend st snapshot L sub x hz hlast hx hlen hsize
  have hq : querySnapshot w backend st snapshot path =
      querySnapshot_found w backend st snapshot L sub := by
    rw [hsub]
    exact querySnapshot_loop_first w backend st snapshot path st.locations L hfirst
  have hcount := length_stripTrailingSlashes ((cstr sub).map normalizeSeparator)
  rw [List.length_map, length_cstr] at hcount
  refine ⟨snapshot1, err, hq.trans hfound, by omega, ?_⟩
  intro herr
  refine ⟨querySnapshot_found_location hfound, ?_⟩
  rw [hsuccess herr]

/-- Witness of `querySnapshot_strips_trailing_slashes`: the path `Repo1/dir//` in the registry
of the examples requests `svn://h/a/dir`. -/
theorem querySnapshot_strips_trailing_slashes_witness :
    firstMatching (bytes "Repo1/dir//") (initialState exampleLocations).locations =
      some repo1 ∧
    ∃ snapshot1 err,
      querySnapshot 32 exampleBackend (initialState exampleLocations) emptySnapshot
          (bytes "Repo1/dir//") =
        some ({ initialState exampleLocations with
            requests := (initialState exampleLocations).requests ++
              [escapeURI
                (repo1.url ++
                  stripTrailingSlashes ((cstr (bytes "/dir//")).map normalizeSeparator))] },
          snapshot1, err) ∧
      trailingSlashes ((cstr (bytes "/dir//")).map normalizeSeparator) ≤
        strlen (bytes "/dir//") ∧
      (err = none →
        snapshot1.location = some repo1 ∧
        snapshot1.subPath.len =
          strlen (bytes "/dir//") -
            trailingSlashes ((cstr (bytes "/dir//")).map normalizeSeparator)) :=
  ⟨by decide,
    querySnapshot_strips_trailing_slashes.1 32 exampleBackend (initialState exampleLocations)
      emptySnapshot (bytes "Repo1/dir//") (bytes "/dir//") repo1 97 (by decide) (by decide)
      (by decide) (by decide) (by decide) (by decide) (by decide)⟩

/-! ## Claim on the resolves of the enumeration and of the field projection -/

/-- Claim C24 fails in the code.  For the directory `\Repo1\dir` of the example, the resolve
of `FsFindFirst` and the resolve that `FsContentGetValue` makes for `\Repo1\dir\file.txt` on a
cache miss request the same URI `svn://h/a/dir` and record the same location and the same
length 4 of the sub-path, but not the same bytes: `FsFindFirst` passes the path with the
separators of the host and records `\dir` and the terminating zero, `FsContentGetValue` passes
the name cut after the separator in front of the base name, with normalised separators, and
records `/dir/`.  For the top directory `\Repo1` the length is 0 and the one byte recorded
past it is the terminating zero in the first case and `/` in the second. -/
theorem resolves_record_different_subPath :
    (FsFindFirst 32 exampleBackend (initialState exampleLocations) (hostPath ["Repo1", "dir"])
        zeroFindData).map (fun r => (r.1.requests, r.2.1)) =
      some ([some (bytes "svn://h/a/dir")], HANDLE.nested dirHandleSnapshot) ∧
    (dirHandleSnapshot.location, dirHandleSnapshot.subPath) =
      (some repo1, { data := some (92 :: bytes "dir" ++ [0]), len := 4 }) ∧
    (FsContentGetValue 32 exampleBackend (initialState exampleLocations)
        (hostPath ["Repo1", "dir", "file.txt"]) 0 (fun _ => 0) 16).map
        (fun r => (r.state.requests, r.state.cachedSnapshot.location,
          r.state.cachedSnapshot.subPath)) =
      some ([some (bytes "svn://h/a/dir")], some repo1,
        { data := some (bytes "/dir/"), len := 4 }) ∧
    92 :: bytes "dir" ++ [0] ≠ bytes "/dir/" ∧
    (92 :: bytes "dir" ++ [0]).take 4 ≠ (bytes "/dir/").take 4 ∧
    ((FsFindFirst 32 exampleBackend (initialState exampleLocations) (hostPath ["Repo1"])
        zeroFindData).bind (fun r => FsFindClose r.1 r.2.1)).map
        (fun st => (st.requests, st.cachedSnapshot.location, st.cachedSnapshot.subPath)) =
      some ([some (bytes "svn://h/a")], some repo1, { data := some [0], len := 0 }) ∧
    (FsContentGetValue 32 exampleBackend (initialState exampleLocations)
        (hostPath ["Repo1", "file.txt"]) 0 (fun _ => 0) 16).map
        (fun r => (r.state.requests, r.state.cachedSnapshot.location,
          r.state.cachedSnapshot.subPath)) =
      some ([some (bytes "svn://h/a")], some repo1, { data := some [47], len := 0 }) :=
  ⟨by rfl, by rfl, by rfl, by decide, by decide, by rfl, by rfl⟩

end SvnWfx
